import Mathlib

/-!
# ZZU-Electricity-Monitor: the calculation core of `page/main.js`

A shallow embedding of the data-processing functions of `src/page/main.js`
(`interpolateMissingData`, `calculateStats`, `calculateYearlyStats` and the
helpers they call) together with theorems about them.

Modelling conventions

* JavaScript numbers are modelled as exact rationals (`ℚ`): every statement is
  about the arithmetic the code performs, not about binary rounding.
* `null` / `undefined` field values are `none`.
* An array is a `List`; an in-place update `a[i] = v` is `List.set`.
* `for` / `while` loops are folds or recursive functions over the loop counter.
-/

namespace ZZUElectricity

/-! ## Data model -/

/-- One sample `{ time, light_Balance, ac_Balance }` of a period file. -/
structure Reading where
  time : String
  light_Balance : Option ℚ
  ac_Balance : Option ℚ
deriving DecidableEq

/-- The two balance fields the program iterates over:
`['light_Balance', 'ac_Balance']`. -/
inductive Field where
  | light_Balance
  | ac_Balance
deriving DecidableEq

/-- Field read `record[field]`. -/
def Reading.get (r : Reading) : Field → Option ℚ
  | Field.light_Balance => r.light_Balance
  | Field.ac_Balance => r.ac_Balance

/-- Field write `record[field] = v`. -/
def Reading.set (r : Reading) (field : Field) (v : ℚ) : Reading :=
  match field with
  | Field.light_Balance => { r with light_Balance := some v }
  | Field.ac_Balance => { r with ac_Balance := some v }

/-! ## `interpolateMissingData` (main.js 289-312) -/

/-- The expression `processed[k][field]`; `none` is `null`.  Every index the code
reads is inside the array, the out-of-range case is never exercised. -/
def fieldAt (processed : List Reading) (field : Field) (k : Nat) : Option ℚ :=
  (processed[k]?).bind (fun r => r.get field)

/-- The number `processed[k][field]` at an index whose field is not null. -/
def valueAt (processed : List Reading) (field : Field) (k : Nat) : ℚ :=
  (fieldAt processed field k).getD 0

/-- Backward scan
`let prev = i - 1; while (prev >= 0 && processed[prev][field] == null) prev--;`.
`scanPrev processed field i` is the final `prev`; `none` stands for `prev = -1`
(the test `prev >= 0` fails). -/
def scanPrev (processed : List Reading) (field : Field) : Nat → Option Nat
  | 0 => none
  | k + 1 =>
    if (fieldAt processed field k).isNone then scanPrev processed field k else some k

/-- Forward scan
`while (next < processed.length && processed[next][field] == null) next++;`
started at `next`, with at most `fuel` iterations.  The result is the final
`next`; the test `next < processed.length` is applied to it by the caller. -/
def scanNext (processed : List Reading) (field : Field) : Nat → Nat → Nat
  | 0, next => next
  | fuel + 1, next =>
    if next < processed.length ∧ (fieldAt processed field next).isNone then
      scanNext processed field fuel (next + 1)
    else next

/-- The value assigned to `processed[i][field]` in the four-way `if` of lines
298-307, given the results `prev` and `next` of the two scans. -/
def fillValue (processed : List Reading) (field : Field) (i : Nat)
    (prev : Option Nat) (next : Nat) : ℚ :=
  match prev with
  | some p =>
    if next < processed.length then
      let step := (valueAt processed field next - valueAt processed field p) /
        ((next : ℚ) - (p : ℚ))
      valueAt processed field p + step * ((i : ℚ) - (p : ℚ))
    else valueAt processed field p
  | none =>
    if next < processed.length then valueAt processed field next else 0

/-- Body of the `for` loop for one index `i` (lines 293-308). -/
def fillAt (field : Field) (processed : List Reading) (i : Nat) : List Reading :=
  match processed[i]? with
  | none => processed
  | some r =>
    if (r.get field).isNone then
      let prev := scanPrev processed field i
      let next := scanNext processed field processed.length (i + 1)
      processed.set i (r.set field (fillValue processed field i prev next))
    else processed

/-- The loop `for (let i = 0; i < processed.length; i++)` for one field
(lines 292-309). -/
def interpolateField (field : Field) (processed : List Reading) : List Reading :=
  (List.range processed.length).foldl (fillAt field) processed

/-- `interpolateMissingData(dataArray)`: both fields in turn, light first. -/
def interpolateMissingData (dataArray : List Reading) : List Reading :=
  [Field.light_Balance, Field.ac_Balance].foldl
    (fun processed field => interpolateField field processed) dataArray


/-! ## Constants (main.js 2-19) -/

/-- `CONSTANTS.ELECTRICITY.MIN_VALUE`. -/
def MIN_VALUE : ℚ := 0

/-- `CONSTANTS.ELECTRICITY.MAX_VALUE`. -/
def MAX_VALUE : ℚ := 1000

/-- `CONSTANTS.TIME.TWO_WEEKS_MS`. -/
def TWO_WEEKS_MS : ℤ := 14 * 24 * 60 * 60 * 1000

/-- `CONSTANTS.TIME.ONE_DAY_MS`. -/
def ONE_DAY_MS : ℤ := 24 * 60 * 60 * 1000

/-- `CONSTANTS.TIME.CONTINUOUS_DAY_THRESHOLD`, the number `1.5`. -/
def CONTINUOUS_DAY_THRESHOLD : ℚ := 3 / 2

/-! ## Number helpers (main.js 24-88) -/

/-- `x || 0` for a balance that is a number or `null`: `null` (and `0`) give `0`. -/
def orZero (x : Option ℚ) : ℚ := x.getD 0

/-- `Math.round(x)`: the nearest integer, a tie going up. -/
def mathRound (x : ℚ) : ℤ := ⌊x + 1 / 2⌋

/-- `ValidationUtils.sanitizeElectricityValue(value)` on a number: `0` outside
`[MIN_VALUE, MAX_VALUE]`, else `Math.round(value * 100) / 100`. -/
def sanitizeElectricityValue (value : ℚ) : ℚ :=
  if ¬ (MIN_VALUE ≤ value ∧ value ≤ MAX_VALUE) then 0
  else (mathRound (value * 100) : ℚ) / 100

/-- A JavaScript value as `ValidationUtils.isValidNumber` tells values apart: a finite
number, `NaN`, `Infinity`, `-Infinity`, or a value whose `typeof` is not `'number'`. -/
inductive JsValue where
  | number (x : ℚ)
  | nan
  | posInfinity
  | negInfinity
  | notNumber
deriving DecidableEq

/-- `ValidationUtils.isValidNumber(value, min, max)` with finite bounds (lines 25-31):
`typeof value === 'number' && !isNaN(value) && isFinite(value) && value >= min &&
value <= max`. -/
def ValidationUtils.isValidNumber (value : JsValue) (min max : ℚ) : Bool :=
  match value with
  | JsValue.number x => decide (x ≥ min) && decide (x ≤ max)
  | _ => false

/-- `Math.round(value * 100) / 100` (line 47).  `NaN` and the infinities are kept by the
arithmetic; a value that is not a number stands outside the arithmetic of this model
and is given `NaN`. -/
def roundHundredths (value : JsValue) : JsValue :=
  match value with
  | JsValue.number x => JsValue.number ((mathRound (x * 100) : ℚ) / 100)
  | JsValue.posInfinity => JsValue.posInfinity
  | JsValue.negInfinity => JsValue.negInfinity
  | _ => JsValue.nan

/-- `ValidationUtils.sanitizeElectricityValue(value)` on any value (lines 42-48). -/
def ValidationUtils.sanitizeElectricityValue (value : JsValue) : JsValue :=
  if ¬ ValidationUtils.isValidNumber value MIN_VALUE MAX_VALUE then JsValue.number 0
  else roundHundredths value

/-- `MathUtils.safeDivide(numerator, denominator, fallback)` on finite numbers: the
fallback when the denominator is `0`. -/
def safeDivide (numerator denominator : ℚ) (fallback : ℚ) : ℚ :=
  if denominator = 0 then fallback else numerator / denominator

/-- `MathUtils.safeMax(values, fallback)`: `Math.max(...values)`, the fallback for an
empty array. -/
def safeMax (values : List ℚ) (fallback : ℚ) : ℚ :=
  match values with
  | [] => fallback
  | v :: vs => vs.foldl max v

/-- `MathUtils.safeMin(values, fallback)`: `Math.min(...values)`, the fallback for an
empty array. -/
def safeMin (values : List ℚ) (fallback : ℚ) : ℚ :=
  match values with
  | [] => fallback
  | v :: vs => vs.foldl min v

/-- The number denoted by the string `x.toFixed(digits)` (what `parseFloat` reads back),
for `x` below `1e21` in absolute value: `x` rounded to `digits` decimals, a tie going
away from zero. -/
def toFixed (digits : ℕ) (x : ℚ) : ℚ :=
  if x < 0 then -((⌊(-x) * 10 ^ digits + 1 / 2⌋ : ℤ) : ℚ) / 10 ^ digits
  else ((⌊x * 10 ^ digits + 1 / 2⌋ : ℤ) : ℚ) / 10 ^ digits

/-! ## The host: clock and built-in `Date` -/

/-- What the program asks of the JavaScript host.  Instants are `Date` time values
(milliseconds since the epoch).  Every `new Date()` of one run is the same instant. -/
structure Host where
  /-- `new Date().getTime()`. -/
  now : ℤ
  /-- `new Date().getFullYear()`. -/
  currentYear : ℤ
  /-- `new Date().getMonth() + 1`. -/
  currentMonth : ℕ
  /-- `new Date(str).getTime()`; `none` is an Invalid Date (`NaN`). -/
  dateParse : String → Option ℤ
  /-- The time value after `d.setHours(0, 0, 0, 0)`. -/
  startOfDay : ℤ → ℤ
  /-- The time value after `d.setDate(d.getDate() - 1)`. -/
  previousDay : ℤ → ℤ
  /-- The time value after `d.setDate(d.getDate() + 1)`. -/
  nextDay : ℤ → ℤ
  /-- The string `d.toISOString().split('T')[0]` of a valid `Date`. -/
  toISODate : ℤ → String

/-! ## `parseTimeString` (main.js 321-363) -/

/-- Value of a string of decimal digits. -/
def digitsValue (cs : List Char) : ℕ :=
  cs.foldl (fun n c => 10 * n + (c.toNat - 48)) 0

/-- `parseInt(s, 10)` for a string that starts with its digits (no sign, no leading
blank): the value of the leading digits, `none` (`NaN`) when there is none. -/
def parseInt (cs : List Char) : Option ℕ :=
  match cs.takeWhile Char.isDigit with
  | [] => none
  | ds => some (digitsValue ds)

/-- `s.split(sep)` for a one-character separator: the parts between the
separators, at least one part. -/
def jsSplit (sep : Char) : List Char → List (List Char)
  | [] => [[]]
  | c :: cs =>
    if c = sep then [] :: jsSplit sep cs
    else
      match jsSplit sep cs with
      | [] => [[c]]
      | part :: parts => (c :: part) :: parts

/-- `ValidationUtils.isValidTimeString`: the test of
`/^\d{1,2}-\d{1,2}(\s+\d{1,2}:\d{1,2})?/`.  The pattern is anchored at the start
only and its group is optional, so it matches exactly when the string starts with one
or two digits, a hyphen and a digit. -/
def isValidTimeString (timeStr : String) : Bool :=
  match timeStr.toList with
  | d1 :: '-' :: d2 :: _ => d1.isDigit && d2.isDigit
  | d1 :: d2 :: '-' :: d3 :: _ => d1.isDigit && d2.isDigit && d3.isDigit
  | _ => false

/-- `parseTimeString(timeStr)` as a time value: the current instant for a string that
fails the validation, has a month outside 1..12 or does not parse; else the parse of
`year-timeStr`, the year being the previous one when the month is after the current
month. -/
def parseTimeString (h : Host) (timeStr : String) : ℤ :=
  if ¬ isValidTimeString timeStr then h.now
  else
    let parts := jsSplit '-' timeStr.toList
    let month := parseInt (parts.headD [])
    if (match month with
        | some m => decide (m < 1) || decide (m > 12)
        | none => false) then h.now
    else
      let year : ℤ :=
        if (match month with
            | some m => decide (m > h.currentMonth)
            | none => false) then h.currentYear - 1
        else h.currentYear
      let dateStr := toString year ++ "-" ++ timeStr
      match h.dateParse dateStr with
      | none => h.now
      | some t => t

/-! ## `calculateStats` (main.js 365-493) -/

/-- The `lightDaysLeft` / `acDaysLeft` value: a whole number of days or the string
`'∞'`. -/
inductive DaysLeft where
  | days (n : ℤ)
  | unbounded
deriving DecidableEq

/-- The object `calculateStats` returns.  A field holding a `toFixed(1)` string is
modelled by the number the string denotes. -/
structure Stats where
  lightTrend : ℚ
  acTrend : ℚ
  lightYesterdayTrend : ℚ
  acYesterdayTrend : ℚ
  maxLight : ℚ
  minLight : ℚ
  maxAc : ℚ
  minAc : ℚ
  lightAvgDaily : ℚ
  acAvgDaily : ℚ
  lightDaysLeft : DaysLeft
  acDaysLeft : DaysLeft
  lastUpdate : String
  yesterdayTotalConsumption : ℚ

/-- `recentData`: the readings whose time is not before `twoWeeksAgo` (lines 397-408). -/
def recentData (h : Host) (data : List Reading) (latest : Reading) : List Reading :=
  let lastTime := parseTimeString h latest.time
  let twoWeeksAgo := lastTime - TWO_WEEKS_MS
  data.filter (fun d => decide (parseTimeString h d.time ≥ twoWeeksAgo))

/-- `calcData`: the recent readings when there are at least 2 of them, else all
(line 411). -/
def calcData (h : Host) (data : List Reading) (latest : Reading) : List Reading :=
  if (recentData h data latest).length ≥ 2 then recentData h data latest else data

/-- `daysDiff` (lines 412-416): the days between the first and the last reading of the
window, at least 1. -/
def daysDiff (h : Host) (calcData : List Reading) (dflt : Reading) : ℚ :=
  let firstRecord := calcData.headD dflt
  let lastRecord := calcData.getLastD dflt
  let firstTime := parseTimeString h firstRecord.time
  let calcLastTime := parseTimeString h lastRecord.time
  max 1 (((calcLastTime - firstTime : ℤ) : ℚ) / (ONE_DAY_MS : ℚ))

/-- Body of the accumulation loop (lines 422-428) at index `i`; the state is
`(lightTotalConsumption, acTotalConsumption)`. -/
def consumptionStep (calcData : List Reading) (acc : ℚ × ℚ) (i : Nat) : ℚ × ℚ :=
  let prevLight :=
    sanitizeElectricityValue (orZero (fieldAt calcData Field.light_Balance (i - 1)))
  let currLight := sanitizeElectricityValue (orZero (fieldAt calcData Field.light_Balance i))
  let prevAc := sanitizeElectricityValue (orZero (fieldAt calcData Field.ac_Balance (i - 1)))
  let currAc := sanitizeElectricityValue (orZero (fieldAt calcData Field.ac_Balance i))
  (if prevLight > currLight then acc.1 + (prevLight - currLight) else acc.1,
   if prevAc > currAc then acc.2 + (prevAc - currAc) else acc.2)

/-- The loop `for (let i = 1; i < calcData.length; i++)` (lines 419-429):
`(lightTotalConsumption, acTotalConsumption)` after it. -/
def totalConsumption (calcData : List Reading) : ℚ × ℚ :=
  (List.range' 1 (calcData.length - 1)).foldl (consumptionStep calcData) (0, 0)

/-- Lines 436-441: the days left for a latest balance and the reported daily average
(`parseFloat` of the `toFixed(1)` string). -/
def daysLeft (latestBalance : Option ℚ) (avgDaily : ℚ) : DaysLeft :=
  if avgDaily > 0 then DaysLeft.days ⌊safeDivide (orZero latestBalance) avgDaily 0⌋
  else DaysLeft.unbounded

/-- `calculateStats(data)`; `none` is the `null` result. -/
def calculateStats (h : Host) (data : List Reading) : Option Stats :=
  match data.getLast? with
  | none => none
  | some latest =>
    if ¬ (data.length ≥ 2) then none
    else
      let lightValues := data.filterMap (fun d => d.light_Balance)
      let acValues := data.filterMap (fun d => d.ac_Balance)
      let latestTime := parseTimeString h latest.time
      let todayStart := h.startOfDay latestTime
      let todayFirstRecord :=
        data.find? (fun d => decide (parseTimeString h d.time ≥ todayStart))
      let baseline := todayFirstRecord.getD
        (if data.length > 1 then (data[data.length - 2]?).getD latest else latest)
      let window := calcData h data latest
      let days := daysDiff h window latest
      let total := totalConsumption window
      let lightAvgDaily := toFixed 1 (safeDivide total.1 days 0)
      let acAvgDaily := toFixed 1 (safeDivide total.2 days 0)
      let lightDaysLeft := daysLeft latest.light_Balance lightAvgDaily
      let acDaysLeft := daysLeft latest.ac_Balance acAvgDaily
      let lightTrend := toFixed 1 (orZero baseline.light_Balance - orZero latest.light_Balance)
      let acTrend := toFixed 1 (orZero baseline.ac_Balance - orZero latest.ac_Balance)
      let yesterdayStart := h.previousDay todayStart
      let yesterdayFirstRecord :=
        data.find? (fun d =>
          decide (parseTimeString h d.time ≥ yesterdayStart) &&
            decide (parseTimeString h d.time < todayStart))
      let lightYesterdayTrend : ℚ :=
        match yesterdayFirstRecord with
        | some y => toFixed 1 (max 0 (orZero y.light_Balance - orZero baseline.light_Balance))
        | none => 0
      let acYesterdayTrend : ℚ :=
        match yesterdayFirstRecord with
        | some y => toFixed 1 (max 0 (orZero y.ac_Balance - orZero baseline.ac_Balance))
        | none => 0
      some {
        lightTrend := lightTrend
        acTrend := acTrend
        lightYesterdayTrend := lightYesterdayTrend
        acYesterdayTrend := acYesterdayTrend
        maxLight := toFixed 1 (safeMax lightValues 0)
        minLight := toFixed 1 (safeMin lightValues 0)
        maxAc := toFixed 1 (safeMax acValues 0)
        minAc := toFixed 1 (safeMin acValues 0)
        lightAvgDaily := lightAvgDaily
        acAvgDaily := acAvgDaily
        lightDaysLeft := lightDaysLeft
        acDaysLeft := acDaysLeft
        lastUpdate := latest.time
        yesterdayTotalConsumption := toFixed 1 (lightYesterdayTrend + acYesterdayTrend) }

/-- `todayStart` (lines 380-381): midnight of the latest reading's day. -/
def todayStart (h : Host) (latest : Reading) : ℤ :=
  h.startOfDay (parseTimeString h latest.time)

/-- `todayFirstRecord` (lines 384-391): the first record, in array order, whose time is
not before `todayStart`. -/
def todayFirstRecord (h : Host) (data : List Reading) (latest : Reading) : Option Reading :=
  data.find? (fun d => decide (parseTimeString h d.time ≥ todayStart h latest))

/-- `baseline` (line 394):
`todayFirstRecord || (data.length > 1 ? data[data.length - 2] : latest)`. -/
def baseline (h : Host) (data : List Reading) (latest : Reading) : Reading :=
  (todayFirstRecord h data latest).getD
    (if data.length > 1 then (data[data.length - 2]?).getD latest else latest)

/-- `yesterdayStart` (lines 449-450): `todayStart` moved back by
`setDate(getDate() - 1)`. -/
def yesterdayStart (h : Host) (latest : Reading) : ℤ :=
  h.previousDay (todayStart h latest)

/-- `yesterdayFirstRecord` (lines 453-460): the first record, in array order, whose time
lies in `[yesterdayStart, todayStart)`. -/
def yesterdayFirstRecord (h : Host) (data : List Reading) (latest : Reading) :
    Option Reading :=
  data.find? (fun d =>
    decide (parseTimeString h d.time ≥ yesterdayStart h latest) &&
      decide (parseTimeString h d.time < todayStart h latest))

/-! ## `calculateYearlyStats`: per-day consumption (main.js 774-876) -/

/-- A reading of `allData`: the reading of a month file with the key of that file,
`{ ...d, month }` (`month` has the form `"YYYY-MM"`). -/
structure TaggedReading extends Reading where
  month : String
deriving DecidableEq

/-- An entry `{ light, ac }` of `dailyConsumption`. -/
structure Consumption where
  light : ℚ
  ac : ℚ
deriving DecidableEq

/-- `s.padStart(2, '0')`. -/
def padStart2 (cs : List Char) : List Char :=
  List.replicate (2 - cs.length) '0' ++ cs

/-- `parseDateStr(record)` (lines 779-794): the date key `YYYY-MM-DD` of a record. -/
def parseDateStr (record : TaggedReading) : String :=
  let yearPart := (jsSplit '-' record.month.toList).headD []
  let timePart := (jsSplit ' ' record.time.toList).headD []
  match jsSplit '-' timePart with
  | p0 :: p1 :: _ =>
    String.mk (yearPart ++ '-' :: (padStart2 p0 ++ '-' :: padStart2 p1))
  | _ => String.mk (yearPart ++ '-' :: timePart)

/-- `parseTimestamp(record)` (lines 797-807).  The outer `none` is the `TypeError`
thrown by `datePart[1].padStart` when the date part of `time` has no hyphen; the inner
value is the time value of the `Date`, `none` for an Invalid Date. -/
def parseTimestamp (h : Host) (record : TaggedReading) : Option (Option ℤ) :=
  let yearPart := (jsSplit '-' record.month.toList).headD []
  let parts := jsSplit ' ' record.time.toList
  match jsSplit '-' (parts.headD []) with
  | p0 :: p1 :: _ =>
    let time : List Char :=
      match parts with
      | _ :: t :: _ => if t.isEmpty then "00:00".toList else t
      | _ => "00:00".toList
    some (h.dateParse (String.mk
      (yearPart ++ '-' :: (padStart2 p0 ++ '-' :: (padStart2 p1 ++ 'T' :: time)))))
  | _ => none

/-- The order the comparator `(a, b) => parseTimestamp(a) - parseTimestamp(b)` induces
on two time values: `a` may stay before `b` unless the difference is positive.  A
difference with an Invalid Date is `NaN`, which `sort` treats as `0`. -/
def timestampLe (a b : Option ℤ) : Bool :=
  match a, b with
  | some x, some y => decide (x ≤ y)
  | _, _ => true

/-- The records of a day with their timestamps; `none` when a timestamp throws. -/
def stampAll (h : Host) : List TaggedReading → Option (List (Option ℤ × TaggedReading))
  | [] => some []
  | r :: rs =>
    match parseTimestamp h r, stampAll h rs with
    | some t, some l => some ((t, r) :: l)
    | _, _ => none

/-- `records.sort((a, b) => parseTimestamp(a) - parseTimestamp(b))`.  With fewer than 2
records the comparator is not called.  Otherwise every record is compared at least
once, so a throwing timestamp makes the sort throw (`none`); the order is the one of a
stable insertion sort, which is what every engine yields when the timestamps of the
day are valid `Date`s (with an Invalid Date among them the comparator is inconsistent
and JavaScript leaves the order to the engine). -/
def sortRecords (h : Host) (records : List TaggedReading) : Option (List TaggedReading) :=
  if records.length ≤ 1 then some records
  else
    (stampAll h records).map (fun stamped =>
      (stamped.insertionSort (fun a b => timestampLe a.1 b.1 = true)).map Prod.snd)

/-- The array `recordsByDate[dateStr]`: the records of that date key, in input order
(lines 810-817). -/
def recordsByDate (data : List TaggedReading) (dateStr : String) : List TaggedReading :=
  data.filter (fun r => decide (parseDateStr r = dateStr))

/-- `Object.keys(recordsByDate)`: the distinct date keys in order of first
appearance. -/
def dateKeys (data : List TaggedReading) : List String :=
  (data.map parseDateStr).foldl (fun keys k => if k ∈ keys then keys else keys ++ [k]) []

/-- UTF-16 code units of a character. -/
def utf16Units (c : Char) : List ℕ :=
  if c.toNat < 65536 then [c.toNat]
  else [55296 + (c.toNat - 65536) / 1024, 56320 + (c.toNat - 65536) % 1024]

/-- Lexicographic `≤` on code-unit sequences. -/
def lexLe : List ℕ → List ℕ → Bool
  | [], _ => true
  | _ :: _, [] => false
  | a :: as, b :: bs => decide (a < b) || (decide (a = b) && lexLe as bs)

/-- The order of the default `Array.prototype.sort()` on strings: by UTF-16 code
units. -/
def jsStringLe (a b : String) : Bool :=
  lexLe (a.toList.flatMap utf16Units) (b.toList.flatMap utf16Units)

/-- `sortedDates` (lines 820-822): the date keys that start with the year, sorted. -/
def sortedDates (data : List TaggedReading) (year : ℕ) : List String :=
  ((dateKeys data).filter (fun dateStr =>
    (toString year).toList.isPrefixOf dateStr.toList)).insertionSort
      (fun a b => jsStringLe a b = true)

/-- `dayDiff` (lines 846-848): days between two date keys, `none` (`NaN`) when one of
them is an Invalid Date. -/
def dayDiff (h : Host) (dateStr nextDateStr : String) : Option ℚ :=
  match h.dateParse dateStr, h.dateParse nextDateStr with
  | some currentDate, some nextDate =>
    some (((nextDate - currentDate : ℤ) : ℚ) / (ONE_DAY_MS : ℚ))
  | _, _ => none

/-- `Math.max(0, (a.x || 0) - (b.x || 0))` for both fields. -/
def dropBetween (a b : TaggedReading) : Consumption :=
  { light := max 0 (orZero a.light_Balance - orZero b.light_Balance)
    ac := max 0 (orZero a.ac_Balance - orZero b.ac_Balance) }

/-- Same-day consumption (lines 857-860 and 864-867): first minus last record when the
day has at least 2 records, else the default `0`. -/
def sameDay (dayRecords : List TaggedReading) (firstRecord lastRecord : TaggedReading) :
    Consumption :=
  if dayRecords.length ≥ 2 then dropBetween firstRecord lastRecord else ⟨0, 0⟩

/-- `nextDayFirstRecord` (lines 832-839); the outer `none` is a throwing sort. -/
def nextDayFirstRecord (h : Host) (data : List TaggedReading) (dates : List String)
    (index : ℕ) : Option (Option TaggedReading) :=
  if index < dates.length - 1 then
    match dates[index + 1]? with
    | some nextDateStr => (sortRecords h (recordsByDate data nextDateStr)).map List.head?
    | none => some none
  else some none

/-- Body of `sortedDates.forEach((dateStr, index) => ...)` (lines 824-876): the entry
written for the date, `some none` when nothing is written, `none` when a sort throws.
The source sorts `recordsByDate[dateStr]` in place, so a day may already have been
sorted as the next day of the previous date; a second sort changes nothing
(`sortRecords_idem`), hence the records of the date are sorted here directly. -/
def consumptionOfDate (h : Host) (data : List TaggedReading) (dates : List String)
    (index : ℕ) (dateStr : String) : Option (Option Consumption) :=
  match sortRecords h (recordsByDate data dateStr) with
  | none => none
  | some dayRecords =>
    match dayRecords.head?, dayRecords.getLast? with
    | some firstRecord, some lastRecord =>
      match nextDayFirstRecord h data dates index with
      | none => none
      | some (some nextFirst) =>
        if (match dayDiff h dateStr (dates.getD (index + 1) "") with
            | some d => decide (d ≤ CONTINUOUS_DAY_THRESHOLD)
            | none => false) then
          some (some (dropBetween firstRecord nextFirst))
        else some (some (sameDay dayRecords firstRecord lastRecord))
      | some none => some (some (sameDay dayRecords firstRecord lastRecord))
    | _, _ => some none

/-- The loop over `dates` from position `index` on: the entries written, in order. -/
def collectDaily (h : Host) (data : List TaggedReading) (dates : List String) :
    ℕ → List String → Option (List (String × Consumption))
  | _, [] => some []
  | index, dateStr :: rest =>
    match consumptionOfDate h data dates index dateStr,
      collectDaily h data dates (index + 1) rest with
    | some entry, some entries =>
      some (match entry with
        | some c => (dateStr, c) :: entries
        | none => entries)
    | _, _ => none

/-- The object `dailyConsumption` after the loop of lines 824-876, as the list of its
entries in insertion order (the keys are distinct); `none` when the function throws. -/
def dailyConsumption (h : Host) (data : List TaggedReading) (year : ℕ) :
    Option (List (String × Consumption)) :=
  collectDaily h data (sortedDates data year) 0 (sortedDates data year)

/-! ## `calculateYearlyStats`: totals, peak day and gap filling (main.js 878-996) -/

/-- `CONSTANTS.ELECTRICITY.MAX_DAILY_CONSUMPTION`. -/
def MAX_DAILY_CONSUMPTION : ℚ := 50

/-- `MathUtils.clamp(value, min, max)` on a finite number:
`Math.max(min, Math.min(max, value))`. -/
def clamp (value lo hi : ℚ) : ℚ := max lo (min hi value)

/-- The variables `totalLight`, `totalAc`, `peakDay`, `peakValue` of lines 879-880. -/
structure Totals where
  totalLight : ℚ
  totalAc : ℚ
  peakDay : String
  peakValue : ℚ

/-- Body of `Object.entries(dailyConsumption).forEach(...)` (lines 882-891). -/
def totalsStep (acc : Totals) (entry : String × Consumption) : Totals :=
  let dayTotal := entry.2.light + entry.2.ac
  { totalLight := acc.totalLight + entry.2.light
    totalAc := acc.totalAc + entry.2.ac
    peakDay := if dayTotal > acc.peakValue then entry.1 else acc.peakDay
    peakValue := if dayTotal > acc.peakValue then dayTotal else acc.peakValue }

/-- The totals and the peak day after the loop of lines 882-891, started from
`totalLight = 0, totalAc = 0, peakDay = '', peakValue = 0`. -/
def computeTotals (entries : List (String × Consumption)) : Totals :=
  entries.foldl totalsStep ⟨0, 0, "", 0⟩

/-- The comparison `a < b` of two strings (by UTF-16 code units). -/
def jsStringLt (a b : String) : Bool := !jsStringLe b a

/-- The loop `for (let d = new Date(startDate); d <= endDate; d.setDate(d.getDate() + 1))`
of lines 906-908 from the time value `d` on, with at most `fuel` further iterations:
the strings pushed to `allDatesInRange`; `none` when the loop is still running after
`fuel` iterations. -/
def datesFrom (h : Host) (endDate : ℤ) : ℕ → ℤ → Option (List String)
  | 0, d => if d ≤ endDate then none else some []
  | fuel + 1, d =>
    if d ≤ endDate then
      (datesFrom h endDate fuel (h.nextDay d)).map (fun rest => h.toISODate d :: rest)
    else some []

/-- `allDatesInRange` (lines 901-908).  With an Invalid Date at either end the test
`d <= endDate` fails at once and the array stays empty.  The loop gets one iteration
per millisecond between the two ends, which is enough whenever `setDate` moves the date
forward. -/
def allDatesInRange (h : Host) (firstDate lastDate : String) : Option (List String) :=
  match h.dateParse firstDate, h.dateParse lastDate with
  | some startDate, some endDate =>
    datesFrom h endDate ((endDate - startDate).toNat + 1) startDate
  | _, _ => some []

/-- `values.length > 0 ? values.reduce((sum, d) => sum + d, 0) / values.length : 0`
(lines 913-916). -/
def averageOf (values : List ℚ) : ℚ :=
  if values.length > 0 then values.foldl (fun sum d => sum + d) 0 / (values.length : ℚ)
  else 0

/-- The value chosen in lines 941-960 for one field from the neighbours' values and the
average, before the clamp. -/
def fillChoice (prevData nextData : Option ℚ) (avg : ℚ) : ℚ :=
  match prevData, nextData with
  | some p, some n => min ((p + n) / 2) (avg * 2)
  | some p, none => min p (avg * 2)
  | none, some n => min n (avg * 2)
  | none, none => avg

/-- Body of `allDatesInRange.forEach(dateStr => ...)` (lines 919-971): a date without
entry receives a new entry, appended to the object. -/
def fillDate (existingDates : List String) (avgLightConsumption avgAcConsumption : ℚ)
    (daily : List (String × Consumption)) (dateStr : String) : List (String × Consumption) :=
  match daily.lookup dateStr with
  | some _ => daily
  | none =>
    let prevData :=
      (existingDates.reverse.find? (fun e => jsStringLt e dateStr)).bind
        (fun e => daily.lookup e)
    let nextData :=
      (existingDates.find? (fun e => jsStringLt dateStr e)).bind (fun e => daily.lookup e)
    let lightValue := fillChoice (prevData.map (fun c => c.light))
      (nextData.map (fun c => c.light)) avgLightConsumption
    let acValue := fillChoice (prevData.map (fun c => c.ac))
      (nextData.map (fun c => c.ac)) avgAcConsumption
    daily ++ [(dateStr,
      { light := clamp lightValue 0 MAX_DAILY_CONSUMPTION
        ac := clamp acValue 0 MAX_DAILY_CONSUMPTION })]

/-- Lines 893-972: the object `dailyConsumption` after the gap filling; `none` when the
date loop does not end. -/
def fillGaps (h : Host) (daily : List (String × Consumption)) :
    Option (List (String × Consumption)) :=
  let existingDates := (daily.map Prod.fst).insertionSort (fun a b => jsStringLe a b = true)
  if existingDates.length > 1 then
    let firstDate := existingDates.headD ""
    let lastDate := existingDates.getLastD ""
    match allDatesInRange h firstDate lastDate with
    | none => none
    | some allDates =>
      let avgLightConsumption := averageOf (daily.map (fun e => e.2.light))
      let avgAcConsumption := averageOf (daily.map (fun e => e.2.ac))
      some (allDates.foldl (fillDate existingDates avgLightConsumption avgAcConsumption) daily)
  else some daily

/-- What `calculateYearlyStats` leaves behind: `yearlyData` (`dailyConsumption` as the
list of its entries in insertion order, `totalLight`, `totalAc`) and the values written
to the report (peak day, peak value, percentages as the numbers their `toFixed(1)`
strings denote). -/
structure YearlyStats where
  dailyConsumption : List (String × Consumption)
  totalLight : ℚ
  totalAc : ℚ
  peakDay : String
  peakValue : ℚ
  lightPercent : ℚ
  acPercent : ℚ

/-- `calculateYearlyStats(data, year)`; `none` when the function throws or its date
loop does not end. -/
def calculateYearlyStats (h : Host) (data : List TaggedReading) (year : ℕ) :
    Option YearlyStats :=
  match dailyConsumption h data year with
  | none => none
  | some daily =>
    let totals := computeTotals daily
    match fillGaps h daily with
    | none => none
    | some filled =>
      let total := totals.totalLight + totals.totalAc
      some {
        dailyConsumption := filled
        totalLight := totals.totalLight
        totalAc := totals.totalAc
        peakDay := totals.peakDay
        peakValue := totals.peakValue
        lightPercent := if total > 0 then toFixed 1 (totals.totalLight / total * 100) else 0
        acPercent := if total > 0 then toFixed 1 (totals.totalAc / total * 100) else 0 }

/-! ## `renderMonthlyChart`: the monthly sums (main.js 1097-1112) -/

/-- `date.substring(0, 7)`: the month key `YYYY-MM` of a date key. -/
def monthOf (date : String) : String := String.mk (date.toList.take 7)

/-- Body of `Object.entries(dailyData).forEach(...)` (lines 1101-1108): the entry is
added to the sums of its month, a new month starting from `{ light: 0, ac: 0 }`. -/
def monthlyStep (monthlyStats : List (String × Consumption)) (entry : String × Consumption) :
    List (String × Consumption) :=
  let month := monthOf entry.1
  match monthlyStats.lookup month with
  | none => monthlyStats ++ [(month, ⟨0 + entry.2.light, 0 + entry.2.ac⟩)]
  | some _ =>
    monthlyStats.map (fun m =>
      if m.1 = month then (m.1, ⟨m.2.light + entry.2.light, m.2.ac + entry.2.ac⟩) else m)

/-- The object `monthlyStats` that `renderMonthlyChart` builds from
`yearlyData.dailyConsumption`. -/
def monthlyStats (dailyData : List (String × Consumption)) : List (String × Consumption) :=
  dailyData.foldl monthlyStep []

/-- Sample input of the yearly report: two readings on 06-01, one on 06-02, one on
06-10, all from the file `2025-06`. -/
def sampleYear : List TaggedReading :=
  [⟨⟨"06-01 20:00", some 78, some 30⟩, "2025-06"⟩,
    ⟨⟨"06-01 08:00", some 80, some 30⟩, "2025-06"⟩,
    ⟨⟨"06-02 08:00", some 70, some 29⟩, "2025-06"⟩,
    ⟨⟨"06-10 08:00", some 40, some 29⟩, "2025-06"⟩]

/-! ### Specification-side definitions for the yearly report -/

/-- The record `first` is the earliest record of the date `dateStr`: it is one of the
records of that date and, when all timestamps of that date are valid `Date`s, none of
them is before its own. -/
def Earliest (h : Host) (data : List TaggedReading) (dateStr : String)
    (first : TaggedReading) : Prop :=
  first ∈ data ∧ parseDateStr first = dateStr ∧
    ((∀ r ∈ data, parseDateStr r = dateStr → ∃ t, parseTimestamp h r = some (some t)) →
      ∃ t, parseTimestamp h first = some (some t) ∧
        ∀ r ∈ data, parseDateStr r = dateStr →
          ∀ u, parseTimestamp h r = some (some u) → t ≤ u)

/-- The record `last` is the latest record of the date `dateStr`: it is one of the
records of that date and, when all timestamps of that date are valid `Date`s, none of
them is after its own. -/
def Latest (h : Host) (data : List TaggedReading) (dateStr : String)
    (last : TaggedReading) : Prop :=
  last ∈ data ∧ parseDateStr last = dateStr ∧
    ((∀ r ∈ data, parseDateStr r = dateStr → ∃ t, parseTimestamp h r = some (some t)) →
      ∃ t, parseTimestamp h last = some (some t) ∧
        ∀ r ∈ data, parseDateStr r = dateStr →
          ∀ u, parseTimestamp h r = some (some u) → u ≤ t)

/-- Sample input of the yearly report: one reading on each of 06-01 (80), 06-02 (70)
and 06-10 (40), from the file `2025-06`. -/
def sampleThreeDays : List TaggedReading :=
  [⟨⟨"06-01", some 80, none⟩, "2025-06"⟩,
    ⟨⟨"06-02", some 70, none⟩, "2025-06"⟩,
    ⟨⟨"06-10", some 40, none⟩, "2025-06"⟩]

/-- Both fields of an entry lie in `[0, MAX_DAILY_CONSUMPTION]`. -/
def WithinDailyRange (c : Consumption) : Prop :=
  0 ≤ c.light ∧ c.light ≤ MAX_DAILY_CONSUMPTION ∧ 0 ≤ c.ac ∧ c.ac ≤ MAX_DAILY_CONSUMPTION

/-- Sample input of the yearly report with a gap: one reading on 06-01, two on 06-02,
two on 06-05, none on 06-03 and 06-04. -/
def sampleGap : List TaggedReading :=
  [⟨⟨"06-01 08:00", some 80, some 30⟩, "2025-06"⟩,
    ⟨⟨"06-02 08:00", some 70, some 30⟩, "2025-06"⟩,
    ⟨⟨"06-02 20:00", some 66, some 30⟩, "2025-06"⟩,
    ⟨⟨"06-05 08:00", some 60, some 30⟩, "2025-06"⟩,
    ⟨⟨"06-05 20:00", some 58, some 30⟩, "2025-06"⟩]

/-- The entries that the per-day loop writes for `sampleGap`. -/
def sampleGapDaily : List (String × Consumption) :=
  [("2025-06-01", ⟨10, 0⟩), ("2025-06-02", ⟨4, 0⟩), ("2025-06-05", ⟨2, 0⟩)]

/-- The entries that the gap filling appends for `sampleGap`. -/
def sampleGapFilled : List (String × Consumption) :=
  [("2025-06-03", ⟨3, 0⟩), ("2025-06-04", ⟨3, 0⟩)]

/-- What `calculateYearlyStats` leaves behind for `sampleGap`. -/
def sampleGapStats : YearlyStats :=
  { dailyConsumption := sampleGapDaily ++ sampleGapFilled
    totalLight := 16
    totalAc := 0
    peakDay := "2025-06-01"
    peakValue := 10
    lightPercent := 100
    acPercent := 0 }

/-- Sample input with light balances above `MAX_VALUE`: 1300 on 06-14, 1200 and 1100
on 06-15. -/
def sampleOverRange : List Reading :=
  [⟨"06-14 08:00", some 1300, some 20⟩, ⟨"06-15 06:00", some 1200, some 20⟩,
    ⟨"06-15 08:00", some 1100, some 20⟩]

/-- The readings of `sampleOverRange` as readings of the month file `2025-06`. -/
def sampleOverRangeYear : List TaggedReading :=
  sampleOverRange.map (fun r => ⟨r, "2025-06"⟩)

/-- The date `P` is the nearest date of `dates` before `D`: it is one of them, before `D`
in the order of `sort()`, and every other one of them before `D` is before `P`. -/
def NearestBefore (dates : List String) (D P : String) : Prop :=
  P ∈ dates ∧ jsStringLt P D = true ∧
    ∀ e ∈ dates, jsStringLt e D = true → e = P ∨ jsStringLt e P = true

/-- The date `N` is the nearest date of `dates` after `D`. -/
def NearestAfter (dates : List String) (D N : String) : Prop :=
  N ∈ dates ∧ jsStringLt D N = true ∧
    ∀ e ∈ dates, jsStringLt D e = true → e = N ∨ jsStringLt N e = true

/-- Sample input of the yearly report whose second reading has the day 45. -/
def sampleBadDate : List TaggedReading :=
  [⟨⟨"06-01 08:00", some 80, some 30⟩, "2025-06"⟩,
    ⟨⟨"06-45 08:00", some 70, some 30⟩, "2025-06"⟩]

/-- Sample input of the yearly report whose first reading has the time `06-01T12:00`,
which gives the date key `2025-06-01T12:00`. -/
def sampleNoonKey : List TaggedReading :=
  [⟨⟨"06-01T12:00", some 80, some 30⟩, "2025-06"⟩,
    ⟨⟨"06-03 08:00", some 70, some 30⟩, "2025-06"⟩]

/-- Sample input of the yearly report with the readings `06-01 08:00` and `06-01T12:00`,
which give the date keys `2025-06-01` and `2025-06-01T12:00`. -/
def sampleHalfDay : List TaggedReading :=
  [⟨⟨"06-01 08:00", some 80, some 30⟩, "2025-06"⟩,
    ⟨⟨"06-01T12:00", some 70, some 30⟩, "2025-06"⟩]

/-! ### A sample host -/

/-- Maximal groups of decimal digits of a string, as numbers: `"2025-06-01 12:30"`
gives `[2025, 6, 1, 12, 30]`.  `cur` is the group being read. -/
def digitGroups : List Char → Option ℕ → List ℕ
  | [], none => []
  | [], some n => [n]
  | c :: cs, cur =>
    if c.isDigit then digitGroups cs (some (10 * cur.getD 0 + (c.toNat - 48)))
    else
      match cur with
      | none => digitGroups cs none
      | some n => n :: digitGroups cs none

/-- Days from 1970-01-01 to the civil date `y-m-d` of the Gregorian calendar
(years from 1970 on). -/
def daysFromCivil (y m d : ℕ) : ℤ :=
  let y1 := if m ≤ 2 then y - 1 else y
  let era := y1 / 400
  let yoe := y1 - era * 400
  let mp := (m + 9) % 12
  let doy := (153 * mp + 2) / 5 + d - 1
  let doe := yoe * 365 + yoe / 4 - yoe / 100 + doy
  ((era * 146097 + doe : ℕ) : ℤ) - 719468

/-- A `Date` parser of a host whose local time zone is UTC: accepts `Y-M-D`,
`Y-M-D H:m` and `Y-M-DTH:m` with month 1..12, day 1..31, hour below 24 and minute
below 60; everything else is an Invalid Date. -/
def utcDateParse (str : String) : Option ℤ :=
  match digitGroups str.toList none with
  | [y, m, d] =>
    if 1 ≤ m ∧ m ≤ 12 ∧ 1 ≤ d ∧ d ≤ 31 then some (daysFromCivil y m d * ONE_DAY_MS)
    else none
  | [y, m, d, hh, mm] =>
    if 1 ≤ m ∧ m ≤ 12 ∧ 1 ≤ d ∧ d ≤ 31 ∧ hh < 24 ∧ mm < 60 then
      some (daysFromCivil y m d * ONE_DAY_MS + ((hh * 60 + mm : ℕ) : ℤ) * 60000)
    else none
  | _ => none

/-- The civil date `(y, m, d)` of the Gregorian calendar that lies `z - 719468` days
after 1970-01-01 (`z` counts the days from 0000-03-01). -/
def civilFromDays (z : ℕ) : ℕ × ℕ × ℕ :=
  let era := z / 146097
  let doe := z - era * 146097
  let yoe := (doe - doe / 1460 + doe / 36524 - doe / 146096) / 365
  let doy := doe - (365 * yoe + yoe / 4 - yoe / 100)
  let mp := (5 * doy + 2) / 153
  let d := doy - (153 * mp + 2) / 5 + 1
  let m := if mp < 10 then mp + 3 else mp - 9
  (if m ≤ 2 then yoe + era * 400 + 1 else yoe + era * 400, m, d)

/-- A number in decimal, padded with zeros on the left to `width` digits. -/
def padZero (width n : ℕ) : List Char :=
  List.replicate (width - (toString n).length) '0' ++ (toString n).toList

/-- The date part `YYYY-MM-DD` of `toISOString()` for a time value (years 0 to
9999). -/
def utcISODate (t : ℤ) : String :=
  match civilFromDays (t / ONE_DAY_MS + 719468).toNat with
  | (y, m, d) => String.mk (padZero 4 y ++ '-' :: (padZero 2 m ++ '-' :: padZero 2 d))

/-- The calendar year of a time value in UTC: `d.getUTCFullYear()`. -/
def utcYear (t : ℤ) : ℕ := (civilFromDays (t / ONE_DAY_MS + 719468).toNat).1

/-- A host in the UTC time zone whose clock shows 2025-06-15 12:00. -/
def sampleHost : Host where
  now := 1749988800000
  currentYear := 2025
  currentMonth := 6
  dateParse := utcDateParse
  startOfDay := fun t => t - t % ONE_DAY_MS
  previousDay := fun t => t - ONE_DAY_MS
  nextDay := fun t => t + ONE_DAY_MS
  toISODate := utcISODate

/-- Sample input: light balances `[0, null, null, null, 8]`. -/
def sampleRun : List Reading :=
  [⟨"06-01", some 0, none⟩, ⟨"06-02", none, none⟩, ⟨"06-03", none, none⟩,
    ⟨"06-04", none, none⟩, ⟨"06-05", some 8, none⟩]

/-- Sample input: no AC balance at all. -/
def sampleNoAc : List Reading :=
  [⟨"06-01", some 5, none⟩, ⟨"06-02", none, none⟩, ⟨"06-03", some 3, none⟩]

/-- Sample input: light balances `[null, null, 7, null, null]`. -/
def sampleOneSided : List Reading :=
  [⟨"06-01", none, none⟩, ⟨"06-02", none, none⟩, ⟨"06-03", some 7, none⟩,
    ⟨"06-04", none, none⟩, ⟨"06-05", none, none⟩]

/-! ### Specification-side definitions for `interpolateMissingData` -/

/-- The value the loop writes at index `j`, computed from the input alone: the two
scans and the four-way `if` run on the unmodified array. -/
def fillSpec (data : List Reading) (field : Field) (j : Nat) : ℚ :=
  fillValue data field j (scanPrev data field j) (scanNext data field data.length (j + 1))

/-- One record after the pass for `field`: a null field receives `fillSpec`, a known
field is kept. -/
def complete (data : List Reading) (field : Field) (j : Nat) (r : Reading) : Reading :=
  if (r.get field).isNone then r.set field (fillSpec data field j) else r

/-- Loop invariant of the `for` loop: indices below `k` are completed, the others are
still the input. -/
def Filled (data : List Reading) (field : Field) (k : Nat) (processed : List Reading) : Prop :=
  processed.length = data.length ∧
    ∀ j, processed[j]? = if j < k then (data[j]?).map (complete data field j) else data[j]?

/-! ### Specification-side definitions for `calculateStats` -/

/-- Sum, over the consecutive pairs of a list of balances, of
`max 0 (previous - current)`: only decreases count. -/
def decreaseSum : List ℚ → ℚ
  | a :: b :: rest => max 0 (a - b) + decreaseSum (b :: rest)
  | _ => 0

/-- The sanitized balances of one field of a window of readings, in order. -/
def sanitizedBalances (field : Field) (calcData : List Reading) : List ℚ :=
  calcData.map (fun r => sanitizeElectricityValue (orZero (r.get field)))

/-- Component of the pair `(lightTotalConsumption, acTotalConsumption)` for a field. -/
def pick (field : Field) (total : ℚ × ℚ) : ℚ :=
  match field with
  | Field.light_Balance => total.1
  | Field.ac_Balance => total.2

/-- `lightAvgDaily` or `acAvgDaily` of a result. -/
def Stats.avgDaily (s : Stats) : Field → ℚ
  | Field.light_Balance => s.lightAvgDaily
  | Field.ac_Balance => s.acAvgDaily

/-- `lightDaysLeft` or `acDaysLeft` of a result. -/
def Stats.daysLeft (s : Stats) : Field → DaysLeft
  | Field.light_Balance => s.lightDaysLeft
  | Field.ac_Balance => s.acDaysLeft

/-- The daily average of a field before `toFixed(1)`:
accumulated consumption of the window divided by `daysDiff`. -/
def exactAverage (h : Host) (data : List Reading) (latest : Reading) (field : Field) : ℚ :=
  pick field (totalConsumption (calcData h data latest)) /
    daysDiff h (calcData h data latest) latest

/-- Sample input: light balances `[100, 120, 90]` on three consecutive days. -/
def sampleRecharge : List Reading :=
  [⟨"06-13 08:00", some 100, some 20⟩, ⟨"06-14 08:00", some 120, some 20⟩,
    ⟨"06-15 08:00", some 90, some 20⟩]

/-- Sample input: latest balance 50 and no decrease. -/
def sampleFlat : List Reading :=
  [⟨"06-14 08:00", some 50, some 20⟩, ⟨"06-15 08:00", some 50, some 20⟩]

/-- Sample input: the light balance drops by 0.25 in one day. -/
def sampleQuarter : List Reading :=
  [⟨"06-14 08:00", some (201 / 4), some 20⟩, ⟨"06-15 08:00", some 50, some 20⟩]

/-- Sample input: the light balance drops by 0.04 in one day. -/
def sampleTiny : List Reading :=
  [⟨"06-14 08:00", some (1251 / 25), some 20⟩, ⟨"06-15 08:00", some 50, some 20⟩]

/-- `lightTrend` or `acTrend` of a result. -/
def Stats.trend (s : Stats) : Field → ℚ
  | Field.light_Balance => s.lightTrend
  | Field.ac_Balance => s.acTrend

/-- `lightYesterdayTrend` or `acYesterdayTrend` of a result. -/
def Stats.yesterdayTrend (s : Stats) : Field → ℚ
  | Field.light_Balance => s.lightYesterdayTrend
  | Field.ac_Balance => s.acYesterdayTrend

/-- The time of the reading `r` lies in `[yesterdayStart, todayStart)`. -/
def InYesterday (h : Host) (latest r : Reading) : Prop :=
  yesterdayStart h latest ≤ parseTimeString h r.time ∧
    parseTimeString h r.time < todayStart h latest

/-- Sample input that is not in chronological order: 08:00, 06:00, 10:00 of 06-15. -/
def sampleUnordered : List Reading :=
  [⟨"06-15 08:00", some 50, some 20⟩, ⟨"06-15 06:00", some 52, some 20⟩,
    ⟨"06-15 10:00", some 49, some 20⟩]

/-- Sample input whose readings of 06-14 are not in chronological order. -/
def sampleUnorderedYesterday : List Reading :=
  [⟨"06-14 20:00", some 60, some 20⟩, ⟨"06-14 08:00", some 70, some 20⟩,
    ⟨"06-15 08:00", some 50, some 20⟩]

/-! # Theorems -/

/-! ## `interpolateMissingData` -/

theorem get_set_same (r : Reading) (field : Field) (v : ℚ) : (r.set field v).get field = some v := by
  cases field <;> rfl

theorem get_set_other (r : Reading) (f g : Field) (v : ℚ) (h : g ≠ f) :
    (r.set f v).get g = r.get g := by
  cases f <;> cases g <;> first | rfl | exact absurd rfl h

theorem time_set (r : Reading) (field : Field) (v : ℚ) : (r.set field v).time = r.time := by
  cases field <;> rfl

theorem get_complete_isSome (data : List Reading) (field : Field) (j : Nat) (r : Reading) :
    ((complete data field j r).get field).isSome = true := by
  unfold complete
  split
  · simp [get_set_same]
  · rename_i h
    cases hr : r.get field <;> simp_all

theorem scanPrev_lt (p : List Reading) (f : Field) :
    ∀ i q, scanPrev p f i = some q → q < i := by
  intro i
  induction i with
  | zero => intro q h; simp [scanPrev] at h
  | succ k ih =>
    intro q h
    unfold scanPrev at h
    split at h
    · exact Nat.lt_succ_of_lt (ih q h)
    · cases h; exact Nat.lt_succ_self _

theorem le_scanNext (p : List Reading) (f : Field) :
    ∀ fuel s, s ≤ scanNext p f fuel s := by
  intro fuel
  induction fuel with
  | zero => intro s; simp [scanNext]
  | succ n ih =>
    intro s
    unfold scanNext
    split
    · exact Nat.le_trans (Nat.le_succ s) (ih (s + 1))
    · exact Nat.le_refl s

theorem scanPrev_congr (p q : List Reading) (f : Field)
    (h : ∀ j, fieldAt p f j = fieldAt q f j) : ∀ i, scanPrev p f i = scanPrev q f i := by
  intro i
  induction i with
  | zero => rfl
  | succ k ih => simp only [scanPrev, h k, ih]

theorem scanNext_congr (p q : List Reading) (f : Field) (hlen : p.length = q.length) :
    ∀ fuel s, (∀ j, s ≤ j → fieldAt p f j = fieldAt q f j) →
      scanNext p f fuel s = scanNext q f fuel s := by
  intro fuel
  induction fuel with
  | zero => intro s _; rfl
  | succ n ih =>
    intro s h
    simp only [scanNext, hlen, h s (Nat.le_refl s)]
    rw [ih (s + 1) (fun j hj => h j (Nat.le_of_succ_le hj))]

/-- The forward scan does not depend on the fuel once the fuel covers the rest of the
array. -/
theorem scanNext_fuel (p : List Reading) (f : Field) :
    ∀ fuel s, p.length - s ≤ fuel → scanNext p f fuel s = scanNext p f (p.length - s) s := by
  intro fuel
  induction fuel with
  | zero =>
    intro s h
    have : p.length - s = 0 := Nat.le_zero.mp h
    rw [this]
  | succ n ih =>
    intro s h
    by_cases hs : s < p.length
    · have e : p.length - s = (p.length - (s + 1)) + 1 := by omega
      rw [e]
      simp only [scanNext]
      split
      · rw [ih (s + 1) (by omega)]
      · rfl
    · have e : p.length - s = 0 := by omega
      rw [e]
      simp [scanNext, hs]


theorem fieldAt_of_getElem? (p : List Reading) (f : Field) (j : Nat) (r : Reading)
    (h : p[j]? = some r) : fieldAt p f j = r.get f := by
  simp [fieldAt, h]

theorem fieldAt_eq_none_of_le (p : List Reading) (f : Field) (j : Nat) (h : p.length ≤ j) :
    fieldAt p f j = none := by
  simp [fieldAt, List.getElem?_eq_none h]

theorem lt_length_of_fieldAt (p : List Reading) (f : Field) (j : Nat) (v : ℚ)
    (h : fieldAt p f j = some v) : j < p.length := by
  by_contra hc
  rw [fieldAt_eq_none_of_le p f j (Nat.le_of_not_lt hc)] at h
  cases h

/-- Algebraic core of the loop: interpolating from the value just written at `k`
towards `next` continues the straight line from `prev` to `next`. -/
theorem line_continues (a b : ℚ) (p k n : ℕ) (hpk : p ≤ k) (hkn : k + 1 < n) :
    (a + (b - a) / ((n : ℚ) - (p : ℚ)) * ((k : ℚ) - (p : ℚ))) +
        (b - (a + (b - a) / ((n : ℚ) - (p : ℚ)) * ((k : ℚ) - (p : ℚ)))) /
          ((n : ℚ) - (k : ℚ)) * (((k + 1 : ℕ) : ℚ) - (k : ℚ)) =
      a + (b - a) / ((n : ℚ) - (p : ℚ)) * (((k + 1 : ℕ) : ℚ) - (p : ℚ)) := by
  have h1 : ((n : ℚ) - (p : ℚ)) ≠ 0 := by
    have : (p : ℚ) < (n : ℚ) := by exact_mod_cast (by omega : p < n)
    linarith
  have h2 : ((n : ℚ) - (k : ℚ)) ≠ 0 := by
    have : (k : ℚ) < (n : ℚ) := by exact_mod_cast (by omega : k < n)
    linarith
  push_cast
  field_simp
  ring

/-- What the array holds while the loop runs: below `k` every field is filled, from `k`
on the column is the input column. -/
theorem Filled.fieldAt_ge {data : List Reading} {f : Field} {k : Nat} {processed : List Reading}
    (h : Filled data f k processed) (j : Nat) (hj : k ≤ j) :
    fieldAt processed f j = fieldAt data f j := by
  have := h.2 j
  rw [if_neg (Nat.not_lt.mpr hj)] at this
  simp [fieldAt, this]

theorem Filled.fieldAt_lt {data : List Reading} {f : Field} {k : Nat} {processed : List Reading}
    (h : Filled data f k processed) (j : Nat) (hj : j < k) (hlen : j < data.length) :
    fieldAt processed f j =
      some (match fieldAt data f j with
        | some v => v
        | none => fillSpec data f j) := by
  have hp := h.2 j
  rw [if_pos hj] at hp
  have hr : data[j]? = some data[j] := List.getElem?_eq_getElem hlen
  rw [hr] at hp
  simp only [Option.map_some'] at hp
  rw [fieldAt_of_getElem? _ _ _ _ hp, fieldAt_of_getElem? _ _ _ _ hr]
  unfold complete
  cases hg : (data[j]).get f with
  | none => simp [get_set_same]
  | some v => simp [hg]


theorem fillValue_congr (p q : List Reading) (f : Field) (i : Nat) (prev : Option Nat) (next : Nat)
    (hlen : p.length = q.length)
    (hprev : ∀ k, prev = some k → fieldAt p f k = fieldAt q f k)
    (hnext : fieldAt p f next = fieldAt q f next) :
    fillValue p f i prev next = fillValue q f i prev next := by
  cases prev with
  | none => simp only [fillValue, valueAt, hlen, hnext]
  | some k => simp only [fillValue, valueAt, hlen, hnext, hprev k rfl]

theorem fillSpec_congr (p q : List Reading) (f : Field) (hlen : p.length = q.length)
    (h : ∀ j, fieldAt p f j = fieldAt q f j) (i : Nat) : fillSpec p f i = fillSpec q f i := by
  unfold fillSpec
  rw [scanPrev_congr p q f h, scanNext_congr p q f hlen _ _ (fun j _ => h j), hlen]
  exact fillValue_congr p q f i _ _ hlen (fun k _ => h k) (h _)

/-- Skipping a null entry: the forward scan from `s` and from `s + 1` end at the same
index when entry `s` is null. -/
theorem scanNext_skip (p : List Reading) (f : Field) (s : Nat) (hs : s < p.length)
    (hnull : fieldAt p f s = none) :
    scanNext p f p.length s = scanNext p f p.length (s + 1) := by
  rw [scanNext_fuel p f p.length s (Nat.sub_le _ _),
    scanNext_fuel p f p.length (s + 1) (Nat.sub_le _ _)]
  have e : p.length - s = (p.length - (s + 1)) + 1 := by omega
  rw [e]
  simp [scanNext, hs, hnull]

/-- The value the loop body computes at index `k` on the partly filled array equals the
value computed from the input alone. -/
theorem fillValue_processed {data : List Reading} {f : Field} {k : Nat} {processed : List Reading}
    (h : Filled data f k processed) (hk : k < data.length) (hnull : fieldAt data f k = none) :
    fillValue processed f k (scanPrev processed f k)
        (scanNext processed f processed.length (k + 1)) = fillSpec data f k := by
  have hlen := h.1
  have hnext : scanNext processed f processed.length (k + 1) =
      scanNext data f data.length (k + 1) := by
    rw [hlen]
    exact scanNext_congr processed data f hlen _ _
      (fun j hj => h.fieldAt_ge j (Nat.le_of_succ_le hj))
  have hn := le_scanNext data f data.length (k + 1)
  rw [hnext]
  unfold fillSpec
  cases k with
  | zero =>
    simp only [scanPrev]
    exact fillValue_congr processed data f 0 none _ hlen (fun _ hc => by cases hc)
      (h.fieldAt_ge _ (Nat.zero_le _))
  | succ k' =>
    have hk' : k' < data.length := Nat.lt_of_succ_lt hk
    have hpk := h.fieldAt_lt k' (Nat.lt_succ_self k') hk'
    have hprev : scanPrev processed f (k' + 1) = some k' := by
      simp [scanPrev, hpk]
    rw [hprev]
    have hvn : fieldAt processed f (scanNext data f data.length (k' + 1 + 1)) =
        fieldAt data f (scanNext data f data.length (k' + 1 + 1)) :=
      h.fieldAt_ge _ (Nat.le_of_succ_le hn)
    cases hd : fieldAt data f k' with
    | some a =>
      have : scanPrev data f (k' + 1) = some k' := by simp [scanPrev, hd]
      rw [this]
      rw [hd] at hpk
      exact fillValue_congr processed data f _ _ _ hlen
        (fun j hj => by cases hj; rw [hpk, hd]) hvn
    | none =>
      have hsp : scanPrev data f (k' + 1) = scanPrev data f k' := by simp [scanPrev, hd]
      rw [hsp]
      rw [hd] at hpk
      simp only at hpk
      have hskip := scanNext_skip data f (k' + 1) hk hnull
      unfold fillSpec at hpk
      rw [hskip] at hpk
      generalize scanNext data f data.length (k' + 1 + 1) = n at *
      cases hp : scanPrev data f k' with
      | none =>
        rw [hp] at hpk
        simp only [fillValue, valueAt, hpk, hvn, hlen] at *
        by_cases hnl : n < data.length
        · simp [hnl]
        · simp [hnl]
      | some p =>
        rw [hp] at hpk
        have hpl := scanPrev_lt data f k' p hp
        simp only [fillValue, valueAt, hpk, hvn, hlen] at *
        by_cases hnl : n < data.length
        · simp only [hnl, if_true, Option.getD_some]
          exact line_continues _ _ p k' n (Nat.le_of_lt hpl) hn
        · simp [hnl]


/-- The loop body re-establishes the invariant for the next index. -/
theorem Filled.step {data : List Reading} {f : Field} {k : Nat} {processed : List Reading}
    (h : Filled data f k processed) (hk : k < data.length) :
    Filled data f (k + 1) (fillAt f processed k) := by
  have hlen := h.1
  have hget := h.2
  have hpk : processed[k]? = data[k]? := by
    have := hget k
    rwa [if_neg (Nat.lt_irrefl k)] at this
  have hr : data[k]? = some data[k] := List.getElem?_eq_getElem hk
  unfold fillAt
  rw [hpk, hr]
  simp only
  by_cases hnull : ((data[k]).get f).isNone = true
  · rw [if_pos hnull]
    have hnone : fieldAt data f k = none := by
      rw [fieldAt_of_getElem? _ _ _ _ hr]
      exact Option.isNone_iff_eq_none.mp hnull
    rw [fillValue_processed h hk hnone]
    refine ⟨by simp [hlen], fun j => ?_⟩
    rw [List.getElem?_set]
    by_cases hj : k = j
    · subst hj
      simp [hlen, hk, hr, complete, hnull]
    · rw [if_neg hj, hget j]
      have : (j < k + 1) = (j < k) := by
        apply propext
        constructor
        · intro hlt; omega
        · intro hlt; omega
      simp only [this]
  · rw [if_neg hnull]
    refine ⟨hlen, fun j => ?_⟩
    by_cases hj : j = k
    · subst hj
      simp [hpk, hr, complete, hnull]
    · rw [hget j]
      have : (j < k + 1) = (j < k) := by
        apply propext
        constructor
        · intro hlt; omega
        · intro hlt; omega
      simp only [this]

theorem Filled.foldl (data : List Reading) (f : Field) :
    ∀ k, k ≤ data.length → Filled data f k ((List.range k).foldl (fillAt f) data) := by
  intro k
  induction k with
  | zero => intro _; exact ⟨rfl, fun j => by simp⟩
  | succ n ih =>
    intro hn
    rw [List.range_succ, List.foldl_append]
    exact (ih (Nat.le_of_succ_le hn)).step hn

/-- Closed form of one pass: record `j` of the result is record `j` of the input with a
null `field` replaced by `fillSpec`. -/
theorem interpolateField_getElem? (f : Field) (data : List Reading) (j : Nat) :
    (interpolateField f data)[j]? = (data[j]?).map (complete data f j) := by
  have h := Filled.foldl data f data.length (Nat.le_refl _)
  have hj := h.2 j
  unfold interpolateField
  rw [hj]
  by_cases hlt : j < data.length
  · rw [if_pos hlt]
  · rw [if_neg hlt, List.getElem?_eq_none (Nat.le_of_not_lt hlt)]
    rfl

theorem interpolateField_length (f : Field) (data : List Reading) :
    (interpolateField f data).length = data.length :=
  (Filled.foldl data f data.length (Nat.le_refl _)).1

theorem fieldAt_interpolateField_same (f : Field) (data : List Reading) (j : Nat) :
    fieldAt (interpolateField f data) f j =
      match fieldAt data f j with
      | some v => some v
      | none => if j < data.length then some (fillSpec data f j) else none := by
  unfold fieldAt
  rw [interpolateField_getElem?]
  by_cases hlt : j < data.length
  · rw [List.getElem?_eq_getElem hlt]
    simp only [Option.map_some', Option.some_bind, hlt, if_true]
    unfold complete
    cases hg : (data[j]).get f with
    | none => simp [get_set_same]
    | some v => simp [hg]
  · rw [List.getElem?_eq_none (Nat.le_of_not_lt hlt)]
    simp [hlt]

theorem fieldAt_interpolateField_other (f g : Field) (hfg : g ≠ f) (data : List Reading) (j : Nat) :
    fieldAt (interpolateField f data) g j = fieldAt data g j := by
  unfold fieldAt
  rw [interpolateField_getElem?]
  cases hd : data[j]? with
  | none => rfl
  | some r =>
    simp only [Option.map_some', Option.some_bind]
    unfold complete
    split
    · exact get_set_other r f g _ hfg
    · rfl

/-- Closed form of `interpolateMissingData`, per field and index: a known value is
kept, a null inside the array becomes `fillSpec` of the input. -/
theorem fieldAt_interpolateMissingData (data : List Reading) (f : Field) (j : Nat) :
    fieldAt (interpolateMissingData data) f j =
      match fieldAt data f j with
      | some v => some v
      | none => if j < data.length then some (fillSpec data f j) else none := by
  unfold interpolateMissingData
  simp only [List.foldl_cons, List.foldl_nil]
  cases f with
  | light_Balance =>
    rw [fieldAt_interpolateField_other Field.ac_Balance Field.light_Balance (by decide)]
    exact fieldAt_interpolateField_same Field.light_Balance data j
  | ac_Balance =>
    rw [fieldAt_interpolateField_same]
    have hcol : ∀ i, fieldAt (interpolateField Field.light_Balance data) Field.ac_Balance i =
        fieldAt data Field.ac_Balance i :=
      fieldAt_interpolateField_other Field.light_Balance Field.ac_Balance (by decide) data
    rw [hcol j, interpolateField_length,
      fillSpec_congr _ data Field.ac_Balance (interpolateField_length _ _) hcol j]

theorem interpolateMissingData_length (data : List Reading) :
    (interpolateMissingData data).length = data.length := by
  unfold interpolateMissingData
  simp only [List.foldl_cons, List.foldl_nil, interpolateField_length]


/-! ### The scans, characterised on the input -/

theorem scanPrev_eq_some (p : List Reading) (f : Field) (q : Nat) (a : ℚ)
    (hq : fieldAt p f q = some a) :
    ∀ i, q < i → (∀ j, q < j → j < i → fieldAt p f j = none) → scanPrev p f i = some q := by
  intro i
  induction i with
  | zero => intro h; exact absurd h (Nat.not_lt_zero q)
  | succ k ih =>
    intro hlt hnull
    unfold scanPrev
    by_cases hk : q = k
    · subst hk
      simp [hq]
    · have hqk : q < k := by omega
      rw [hnull k hqk (Nat.lt_succ_self k)]
      simp only [Option.isNone_none, if_true]
      exact ih hqk (fun j h1 h2 => hnull j h1 (Nat.lt_succ_of_lt h2))

theorem scanPrev_eq_none (p : List Reading) (f : Field) :
    ∀ i, (∀ j, j < i → fieldAt p f j = none) → scanPrev p f i = none := by
  intro i
  induction i with
  | zero => intro _; rfl
  | succ k ih =>
    intro hnull
    unfold scanPrev
    rw [hnull k (Nat.lt_succ_self k)]
    simp only [Option.isNone_none, if_true]
    exact ih (fun j h => hnull j (Nat.lt_succ_of_lt h))

theorem scanNext_eq (p : List Reading) (f : Field) (n : Nat) (b : ℚ)
    (hn : fieldAt p f n = some b) :
    ∀ fuel s, s ≤ n → n - s ≤ fuel → (∀ j, s ≤ j → j < n → fieldAt p f j = none) →
      scanNext p f fuel s = n := by
  have hnl := lt_length_of_fieldAt p f n b hn
  intro fuel
  induction fuel with
  | zero =>
    intro s hs hfuel _
    simp only [scanNext]
    omega
  | succ m ih =>
    intro s hs hfuel hnull
    unfold scanNext
    by_cases hsn : s = n
    · subst hsn
      simp [hn]
    · have hlt : s < n := by omega
      rw [hnull s (Nat.le_refl s) hlt]
      simp only [Option.isNone_none, and_true, Nat.lt_trans hlt hnl, if_true]
      exact ih (s + 1) hlt (by omega) (fun j h1 h2 => hnull j (Nat.le_of_succ_le h1) h2)

theorem length_le_scanNext (p : List Reading) (f : Field) :
    ∀ fuel s, p.length - s ≤ fuel → (∀ j, s ≤ j → fieldAt p f j = none) →
      p.length ≤ scanNext p f fuel s := by
  intro fuel
  induction fuel with
  | zero =>
    intro s hfuel _
    simp only [scanNext]
    omega
  | succ m ih =>
    intro s hfuel hnull
    unfold scanNext
    by_cases hs : s < p.length
    · rw [hnull s (Nat.le_refl s)]
      simp only [Option.isNone_none, and_true, hs, if_true]
      exact ih (s + 1) (by omega) (fun j h => hnull j (Nat.le_of_succ_le h))
    · simp only [hs, false_and, if_false]
      omega

theorem fieldAt_of_mem (p : List Reading) (r : Reading) (h : r ∈ p) (f : Field) :
    ∃ j, j < p.length ∧ fieldAt p f j = r.get f := by
  obtain ⟨j, hj, rfl⟩ := List.getElem_of_mem h
  exact ⟨j, hj, fieldAt_of_getElem? p f j _ (List.getElem?_eq_getElem hj)⟩

theorem fieldAt_eq_none_of_forall (p : List Reading) (f : Field)
    (h : ∀ r ∈ p, r.get f = none) (j : Nat) : fieldAt p f j = none := by
  unfold fieldAt
  cases hd : p[j]? with
  | none => rfl
  | some r => exact h r (List.getElem?_mem hd)

/-! ### Claims about `interpolateMissingData` -/

/-- C1. Linear case: an index `i` of a run of missing values between the nearest known
index `prev` before it and the nearest known index `next` after it (in the input)
receives `v[prev] + (v[next] - v[prev]) / (next - prev) * (i - prev)`, for every index of
the run and both fields. -/
theorem interpolate_linear (data : List Reading) (field : Field) (i prev next : Nat) (a b : ℚ)
    (hprev : prev < i) (hnext : i < next)
    (ha : fieldAt data field prev = some a) (hb : fieldAt data field next = some b)
    (hmiss : ∀ j, prev < j → j < next → fieldAt data field j = none) :
    fieldAt (interpolateMissingData data) field i =
      some (a + (b - a) / ((next : ℚ) - (prev : ℚ)) * ((i : ℚ) - (prev : ℚ))) := by
  have hnl := lt_length_of_fieldAt data field next b hb
  have hil : i < data.length := Nat.lt_trans hnext hnl
  rw [fieldAt_interpolateMissingData, hmiss i hprev hnext]
  simp only [hil, if_true]
  unfold fillSpec
  rw [scanPrev_eq_some data field prev a ha i hprev (fun j h1 h2 => hmiss j h1 (Nat.lt_trans h2 hnext)),
    scanNext_eq data field next b hb data.length (i + 1) hnext (by omega)
      (fun j h1 h2 => hmiss j (Nat.lt_of_lt_of_le hprev (Nat.le_of_succ_le h1)) h2)]
  simp [fillValue, valueAt, ha, hb, hnl]

/-- C1, at a concrete input: the run `[0, null, null, null, 8]` of light balances is
filled with `2, 4, 6`; here the third missing index `3` receives `6`. -/
theorem interpolate_linear_witness :
    fieldAt (interpolateMissingData sampleRun) Field.light_Balance 3 = some 6 :=
  (interpolate_linear sampleRun Field.light_Balance 3 0 4 0 8 (by decide) (by decide) rfl rfl
    (fun j h1 h2 => by
      have : j = 1 ∨ j = 2 ∨ j = 3 := by omega
      rcases this with h | h | h <;> subst h <;> rfl)).trans (by norm_num)

/-- C2. All-missing case: when a field is null in every entry of the input, every entry
of the output has that field equal to `0` (and the output has as many entries). -/
theorem interpolate_all_missing (data : List Reading) (field : Field)
    (hall : ∀ r ∈ data, r.get field = none) :
    (interpolateMissingData data).length = data.length ∧
      ∀ r ∈ interpolateMissingData data, r.get field = some 0 := by
  refine ⟨interpolateMissingData_length data, fun r hr => ?_⟩
  obtain ⟨j, hj, hf⟩ := fieldAt_of_mem _ r hr field
  rw [interpolateMissingData_length] at hj
  have hnone := fieldAt_eq_none_of_forall data field hall
  rw [← hf, fieldAt_interpolateMissingData, hnone j]
  simp only [hj, if_true]
  unfold fillSpec
  have hn := length_le_scanNext data field data.length (j + 1) (Nat.sub_le _ _)
    (fun k _ => hnone k)
  rw [scanPrev_eq_none data field j (fun k _ => hnone k)]
  simp [fillValue, Nat.not_lt.mpr hn]

/-- C2, at a concrete input: three readings without any AC balance. -/
theorem interpolate_all_missing_witness :
    (interpolateMissingData sampleNoAc).length = sampleNoAc.length ∧
      ∀ r ∈ interpolateMissingData sampleNoAc, r.get Field.ac_Balance = some 0 :=
  interpolate_all_missing sampleNoAc Field.ac_Balance (by
    intro r hr
    simp only [sampleNoAc, List.mem_cons, List.mem_singleton, List.not_mem_nil, or_false] at hr
    rcases hr with h | h | h <;> subst h <;> rfl)

/-- C3. One-sided case (flat extrapolation): every index before the first known value
of a field receives that first known value, and every index of the array after the last
known value receives that last known value. -/
theorem interpolate_one_sided (data : List Reading) (field : Field) (k : Nat) (v : ℚ)
    (hk : fieldAt data field k = some v) :
    ((∀ j, j < k → fieldAt data field j = none) →
        ∀ i, i < k → fieldAt (interpolateMissingData data) field i = some v) ∧
      ((∀ j, k < j → fieldAt data field j = none) →
        ∀ i, k < i → i < data.length →
          fieldAt (interpolateMissingData data) field i = some v) := by
  have hkl := lt_length_of_fieldAt data field k v hk
  constructor
  · intro hnull i hi
    have hil : i < data.length := Nat.lt_trans hi hkl
    rw [fieldAt_interpolateMissingData, hnull i hi]
    simp only [hil, if_true]
    unfold fillSpec
    rw [scanPrev_eq_none data field i (fun j h => hnull j (Nat.lt_trans h hi)),
      scanNext_eq data field k v hk data.length (i + 1) hi (by omega)
        (fun j h1 h2 => hnull j h2)]
    simp [fillValue, valueAt, hk, hkl]
  · intro hnull i hi hil
    rw [fieldAt_interpolateMissingData, hnull i hi]
    simp only [hil, if_true]
    unfold fillSpec
    have hn := length_le_scanNext data field data.length (i + 1) (Nat.sub_le _ _)
      (fun j h => hnull j (Nat.lt_of_lt_of_le hi (Nat.le_of_succ_le h)))
    rw [scanPrev_eq_some data field k v hk i hi (fun j h1 _ => hnull j h1)]
    simp [fillValue, valueAt, hk, Nat.not_lt.mpr hn]

/-- C3, at a concrete input: light balances `[null, null, 7, null, null]`; index `0`
(before the only known value) and index `4` (after it) both receive `7`. -/
theorem interpolate_one_sided_witness :
    fieldAt (interpolateMissingData sampleOneSided) Field.light_Balance 0 = some 7 ∧
      fieldAt (interpolateMissingData sampleOneSided) Field.light_Balance 4 = some 7 :=
  ⟨(interpolate_one_sided sampleOneSided Field.light_Balance 2 7 rfl).1
      (fun j h => by
        have : j = 0 ∨ j = 1 := by omega
        rcases this with h | h <;> subst h <;> rfl) 0 (by decide),
    (interpolate_one_sided sampleOneSided Field.light_Balance 2 7 rfl).2
      (fun j h => by
        by_cases h3 : j = 3
        · subst h3; rfl
        · by_cases h4 : j = 4
          · subst h4; rfl
          · exact fieldAt_eq_none_of_le _ _ _ (by
              simp only [sampleOneSided, List.length_cons, List.length_nil]; omega))
      4 (by decide) (by decide)⟩

/-- C4. The output of `interpolateMissingData` has no missing value, for every input
(the empty one included): it has as many entries as the input and each entry has a
non-null `light_Balance` and a non-null `ac_Balance`. -/
theorem interpolate_no_missing (data : List Reading) :
    (interpolateMissingData data).length = data.length ∧
      ∀ r ∈ interpolateMissingData data, r.light_Balance ≠ none ∧ r.ac_Balance ≠ none := by
  refine ⟨interpolateMissingData_length data, fun r hr => ?_⟩
  have key : ∀ f : Field, r.get f ≠ none := by
    intro f
    obtain ⟨j, hj, hf⟩ := fieldAt_of_mem _ r hr f
    rw [interpolateMissingData_length] at hj
    rw [← hf, fieldAt_interpolateMissingData]
    cases fieldAt data f j with
    | some v => simp
    | none => simp [hj]
  exact ⟨key Field.light_Balance, key Field.ac_Balance⟩


/-! ## `calculateStats` -/

theorem fieldAt_cons_succ (a : Reading) (l : List Reading) (f : Field) (i : Nat) :
    fieldAt (a :: l) f (i + 1) = fieldAt l f i := by
  simp [fieldAt]

/-- Dropping the head of the window shifts the loop index by one. -/
theorem consumptionStep_cons (a : Reading) (l : List Reading) (acc : ℚ × ℚ) (i : Nat)
    (hi : 1 ≤ i) : consumptionStep (a :: l) acc (i + 1) = consumptionStep l acc i := by
  obtain ⟨k, rfl⟩ : ∃ k, i = k + 1 := ⟨i - 1, by omega⟩
  unfold consumptionStep
  simp only [Nat.add_sub_cancel, fieldAt_cons_succ]

theorem foldl_consumptionStep_cons (a : Reading) (l : List Reading) :
    ∀ n s (acc : ℚ × ℚ), 1 ≤ s →
      (List.range' (s + 1) n).foldl (consumptionStep (a :: l)) acc =
        (List.range' s n).foldl (consumptionStep l) acc := by
  intro n
  induction n with
  | zero => intro s acc _; rfl
  | succ m ih =>
    intro s acc hs
    rw [List.range'_succ, List.range'_succ, List.foldl_cons, List.foldl_cons,
      consumptionStep_cons a l acc s hs]
    exact ih (s + 1) _ (Nat.le_succ_of_le hs)

theorem add_max_zero_sub (acc x y : ℚ) :
    (if x > y then acc + (x - y) else acc) = acc + max 0 (x - y) := by
  by_cases h : x > y
  · rw [if_pos h, max_eq_right (by linarith)]
  · rw [if_neg h, max_eq_left (by linarith), add_zero]

/-- The accumulation loop started from any pair of totals adds, per field, the sum of
the per-step decreases of the sanitized balances. -/
theorem foldl_consumptionStep (l : List Reading) :
    ∀ (a : Reading) (acc : ℚ × ℚ),
      (List.range' 1 l.length).foldl (consumptionStep (a :: l)) acc =
        (acc.1 + decreaseSum (sanitizedBalances Field.light_Balance (a :: l)),
          acc.2 + decreaseSum (sanitizedBalances Field.ac_Balance (a :: l))) := by
  induction l with
  | nil => intro a acc; simp [sanitizedBalances, decreaseSum]
  | cons b rest ih =>
    intro a acc
    rw [List.length_cons, List.range'_succ, List.foldl_cons,
      foldl_consumptionStep_cons a (b :: rest) rest.length 1 _ (Nat.le_refl 1), ih b]
    simp only [consumptionStep, fieldAt, Nat.sub_self, List.getElem?_cons_zero,
      List.getElem?_cons_succ, Option.some_bind, add_max_zero_sub, sanitizedBalances,
      List.map_cons, decreaseSum, Reading.get, add_assoc]

theorem totalConsumption_eq (calcData : List Reading) :
    totalConsumption calcData =
      (decreaseSum (sanitizedBalances Field.light_Balance calcData),
        decreaseSum (sanitizedBalances Field.ac_Balance calcData)) := by
  cases calcData with
  | nil => simp [totalConsumption, sanitizedBalances, decreaseSum]
  | cons a l =>
    unfold totalConsumption
    rw [List.length_cons, Nat.add_sub_cancel, foldl_consumptionStep l a (0, 0)]
    simp

theorem decreaseSum_nonneg : ∀ l : List ℚ, 0 ≤ decreaseSum l
  | [] => by simp [decreaseSum]
  | [_] => by simp [decreaseSum]
  | a :: b :: rest => by
    rw [decreaseSum]
    exact add_nonneg (le_max_left _ _) (decreaseSum_nonneg (b :: rest))

theorem pick_totalConsumption (field : Field) (calcData : List Reading) :
    pick field (totalConsumption calcData) = decreaseSum (sanitizedBalances field calcData) := by
  rw [totalConsumption_eq]
  cases field <;> rfl


theorem one_le_daysDiff (h : Host) (calcData : List Reading) (dflt : Reading) :
    1 ≤ daysDiff h calcData dflt :=
  le_max_left _ _

theorem safeDivide_daysDiff (x : ℚ) (h : Host) (calcData : List Reading) (dflt : Reading) :
    safeDivide x (daysDiff h calcData dflt) 0 = x / daysDiff h calcData dflt := by
  have h1 := one_le_daysDiff h calcData dflt
  unfold safeDivide
  rw [if_neg (by linarith)]

theorem toFixed_nonneg (digits : ℕ) (x : ℚ) (hx : 0 ≤ x) : 0 ≤ toFixed digits x := by
  unfold toFixed
  rw [if_neg (not_lt.mpr hx)]
  have hp : (0 : ℚ) < 10 ^ digits := by positivity
  have hf : (0 : ℤ) ≤ ⌊x * 10 ^ digits + 1 / 2⌋ :=
    Int.floor_nonneg.mpr (by positivity)
  exact div_nonneg (by exact_mod_cast hf) (le_of_lt hp)

theorem toFixed_zero (digits : ℕ) : toFixed digits 0 = 0 := by
  unfold toFixed
  have : ⌊(1 / 2 : ℚ)⌋ = 0 := by
    rw [Int.floor_eq_iff]
    norm_num
  rw [if_neg (lt_irrefl 0), zero_mul, zero_add, this]
  simp

/-- What `calculateStats` computes for an input of at least 2 readings: a result whose
reported averages and days left are the ones of lines 432-441. -/
theorem calculateStats_of_two_le (h : Host) (data : List Reading) (latest : Reading)
    (hlast : data.getLast? = some latest) (hlen : 2 ≤ data.length) :
    ∃ s, calculateStats h data = some s ∧
      ∀ field,
        s.avgDaily field =
            toFixed 1 (pick field (totalConsumption (calcData h data latest)) /
              daysDiff h (calcData h data latest) latest) ∧
          s.daysLeft field = daysLeft (latest.get field) (s.avgDaily field) := by
  unfold calculateStats
  rw [hlast]
  simp only [ge_iff_le, hlen, not_true_eq_false, if_false]
  refine ⟨_, rfl, fun field => ?_⟩
  cases field
  · exact ⟨by simp only [Stats.avgDaily, pick, safeDivide_daysDiff], rfl⟩
  · exact ⟨by simp only [Stats.avgDaily, pick, safeDivide_daysDiff], rfl⟩

theorem getLast?_isSome_of_two_le (data : List Reading) (hlen : 2 ≤ data.length) :
    ∃ latest, data.getLast? = some latest := by
  cases data with
  | nil => simp at hlen
  | cons a l => exact ⟨_, List.getLast?_eq_getLast (a :: l) (List.cons_ne_nil a l)⟩


/-- A balance in range with at most two decimals is left unchanged by the
sanitizer. -/
theorem sanitize_hundredths (n : ℕ) (hn : n ≤ 100000) :
    sanitizeElectricityValue ((n : ℚ) / 100) = (n : ℚ) / 100 := by
  have h0 : (0 : ℚ) ≤ (n : ℚ) / 100 := by positivity
  have h1 : (n : ℚ) / 100 ≤ 1000 := by
    have : (n : ℚ) ≤ 100000 := by exact_mod_cast hn
    linarith
  have hr : mathRound ((n : ℚ) / 100 * 100) = (n : ℤ) := by
    unfold mathRound
    rw [Int.floor_eq_iff]
    constructor
    · push_cast; linarith
    · push_cast; linarith
  unfold sanitizeElectricityValue
  rw [if_neg (by simp only [MIN_VALUE, MAX_VALUE, not_not]; exact ⟨h0, h1⟩), hr]
  push_cast
  rfl

theorem parse_sample_13 : parseTimeString sampleHost "06-13 08:00" = 1749801600000 := by
  decide

theorem parse_sample_14 : parseTimeString sampleHost "06-14 08:00" = 1749888000000 := by
  decide

theorem parse_sample_15 : parseTimeString sampleHost "06-15 08:00" = 1749974400000 := by
  decide


theorem sanitize_100 : sanitizeElectricityValue 100 = 100 := by
  have h := sanitize_hundredths 10000 (by norm_num)
  norm_num at h
  exact h

theorem sanitize_120 : sanitizeElectricityValue 120 = 120 := by
  have h := sanitize_hundredths 12000 (by norm_num)
  norm_num at h
  exact h

theorem sanitize_90 : sanitizeElectricityValue 90 = 90 := by
  have h := sanitize_hundredths 9000 (by norm_num)
  norm_num at h
  exact h

theorem sanitize_50 : sanitizeElectricityValue 50 = 50 := by
  have h := sanitize_hundredths 5000 (by norm_num)
  norm_num at h
  exact h

/-- C5. The accumulation loop of `calculateStats` yields, per field, the sum over the
consecutive pairs of the window of `max 0 (previous - current)` on the sanitized
balances, and the reported daily average is computed from that sum; for the light
balances `[100, 120, 90]` the total is `30` (the recharge `100 → 120` contributes `0`),
not first-minus-last `10`. -/
theorem consumption_accumulation :
    (∀ (calcData : List Reading) (field : Field),
        pick field (totalConsumption calcData) =
          decreaseSum (sanitizedBalances field calcData)) ∧
      (∀ (h : Host) (data : List Reading) (latest : Reading),
        data.getLast? = some latest → 2 ≤ data.length →
          ∃ s, calculateStats h data = some s ∧
            ∀ field, s.avgDaily field =
              toFixed 1 (decreaseSum (sanitizedBalances field (calcData h data latest)) /
                daysDiff h (calcData h data latest) latest)) ∧
      sanitizedBalances Field.light_Balance sampleRecharge = [100, 120, 90] ∧
      pick Field.light_Balance (totalConsumption sampleRecharge) = 30 := by
  have hs : sanitizedBalances Field.light_Balance sampleRecharge = [100, 120, 90] := by
    simp [sanitizedBalances, sampleRecharge, Reading.get, orZero, sanitize_100, sanitize_120,
      sanitize_90]
  refine ⟨fun calcData field => pick_totalConsumption field calcData, ?_, hs, ?_⟩
  · intro h data latest hlast hlen
    obtain ⟨s, hs, hf⟩ := calculateStats_of_two_le h data latest hlast hlen
    refine ⟨s, hs, fun field => ?_⟩
    rw [(hf field).1, pick_totalConsumption]
  · rw [pick_totalConsumption, hs]
    norm_num [decreaseSum]

/-- C6. The daily average never divides by zero: `calculateStats` either returns the
unavailable result (fewer than 2 readings) or divides the accumulated consumption, which
is at least 0, by a number of days that is at least 1, whatever the timestamps are; the
reported average is at least 0. -/
theorem daily_average_safe (h : Host) (data : List Reading) :
    (calculateStats h data = none ∧ data.length < 2) ∨
      ∃ s latest, data.getLast? = some latest ∧ calculateStats h data = some s ∧
        1 ≤ daysDiff h (calcData h data latest) latest ∧
        ∀ field,
          0 ≤ pick field (totalConsumption (calcData h data latest)) ∧
            s.avgDaily field =
              toFixed 1 (pick field (totalConsumption (calcData h data latest)) /
                daysDiff h (calcData h data latest) latest) ∧
            0 ≤ s.avgDaily field := by
  by_cases hlen : 2 ≤ data.length
  · right
    obtain ⟨latest, hlast⟩ := getLast?_isSome_of_two_le data hlen
    obtain ⟨s, hs, hf⟩ := calculateStats_of_two_le h data latest hlast hlen
    have hd := one_le_daysDiff h (calcData h data latest) latest
    refine ⟨s, latest, hlast, hs, hd, fun field => ?_⟩
    have ht : 0 ≤ pick field (totalConsumption (calcData h data latest)) := by
      rw [pick_totalConsumption]
      exact decreaseSum_nonneg _
    refine ⟨ht, (hf field).1, ?_⟩
    rw [(hf field).1]
    exact toFixed_nonneg 1 _ (div_nonneg ht (by linarith))
  · left
    refine ⟨?_, Nat.lt_of_not_le hlen⟩
    unfold calculateStats
    cases data.getLast? with
    | none => rfl
    | some latest => simp only [ge_iff_le, hlen, not_false_eq_true, if_true]

/-- C9. `calculateStats` returns the unavailable (`null`) result exactly when the input
has fewer than 2 readings; for at least 2 readings it returns a `Stats` snapshot. -/
theorem calculateStats_none_iff (h : Host) (data : List Reading) :
    (calculateStats h data = none ↔ data.length < 2) ∧
      ((∃ s, calculateStats h data = some s) ↔ 2 ≤ data.length) := by
  have key : calculateStats h data = none ↔ data.length < 2 := by
    constructor
    · intro hnone
      by_contra hc
      have hlen : 2 ≤ data.length := Nat.le_of_not_lt hc
      obtain ⟨latest, hlast⟩ := getLast?_isSome_of_two_le data hlen
      obtain ⟨s, hs, _⟩ := calculateStats_of_two_le h data latest hlast hlen
      rw [hnone] at hs
      cases hs
    · intro hlt
      unfold calculateStats
      cases data.getLast? with
      | none => rfl
      | some latest =>
        simp only [ge_iff_le, Nat.not_le.mpr hlt, not_false_eq_true, if_true]
  refine ⟨key, ?_⟩
  constructor
  · rintro ⟨s, hs⟩
    by_contra hc
    rw [key.mpr (Nat.lt_of_not_le hc)] at hs
    cases hs
  · intro hlen
    obtain ⟨latest, hlast⟩ := getLast?_isSome_of_two_le data hlen
    obtain ⟨s, hs, _⟩ := calculateStats_of_two_le h data latest hlast hlen
    exact ⟨s, hs⟩


/-- Two readings one day apart on the sample host: the window is the whole input. -/
theorem calcData_two_days (a b c d : Option ℚ) :
    calcData sampleHost [⟨"06-14 08:00", a, b⟩, ⟨"06-15 08:00", c, d⟩] ⟨"06-15 08:00", c, d⟩ =
      [⟨"06-14 08:00", a, b⟩, ⟨"06-15 08:00", c, d⟩] := by
  simp [calcData, recentData, parse_sample_14, parse_sample_15, TWO_WEEKS_MS]

/-- Two readings one day apart on the sample host: the divisor is 1 day. -/
theorem daysDiff_two_days (a b c d : Option ℚ) :
    daysDiff sampleHost [⟨"06-14 08:00", a, b⟩, ⟨"06-15 08:00", c, d⟩] ⟨"06-15 08:00", c, d⟩ =
      1 := by
  simp [daysDiff, parse_sample_14, parse_sample_15, ONE_DAY_MS]

theorem exactAverage_two_days (a b c d : Option ℚ) (field : Field) :
    exactAverage sampleHost [⟨"06-14 08:00", a, b⟩, ⟨"06-15 08:00", c, d⟩]
        ⟨"06-15 08:00", c, d⟩ field =
      decreaseSum (sanitizedBalances field [⟨"06-14 08:00", a, b⟩, ⟨"06-15 08:00", c, d⟩]) := by
  unfold exactAverage
  rw [calcData_two_days, daysDiff_two_days, pick_totalConsumption, div_one]

/-- C7. When the daily average of a field is 0 (no balance decrease in the window), an
input of at least 2 readings gets the sentinel `'∞'` as that field's days left, whatever
the latest balance is: the branch taken contains no division. -/
theorem days_left_unbounded (h : Host) (data : List Reading) (latest : Reading) (field : Field)
    (hlast : data.getLast? = some latest) (hlen : 2 ≤ data.length)
    (hzero : exactAverage h data latest field = 0) :
    ∃ s, calculateStats h data = some s ∧ s.daysLeft field = DaysLeft.unbounded := by
  obtain ⟨s, hs, hf⟩ := calculateStats_of_two_le h data latest hlast hlen
  refine ⟨s, hs, ?_⟩
  have havg : s.avgDaily field = 0 := by
    rw [(hf field).1]
    unfold exactAverage at hzero
    rw [hzero, toFixed_zero]
  rw [(hf field).2, havg]
  simp [daysLeft]

/-- C7, at a concrete input: latest light balance 50 and no decrease. -/
theorem days_left_unbounded_witness :
    ∃ s, calculateStats sampleHost sampleFlat = some s ∧
      s.daysLeft Field.light_Balance = DaysLeft.unbounded :=
  days_left_unbounded sampleHost sampleFlat ⟨"06-15 08:00", some 50, some 20⟩
    Field.light_Balance rfl (by decide) (by
      unfold sampleFlat
      rw [exactAverage_two_days]
      simp [sanitizedBalances, decreaseSum, Reading.get])


theorem exactAverage_sampleQuarter :
    exactAverage sampleHost sampleQuarter ⟨"06-15 08:00", some 50, some 20⟩
      Field.light_Balance = 1 / 4 := by
  have h1 : sanitizeElectricityValue (201 / 4) = 201 / 4 := by
    have h := sanitize_hundredths 5025 (by norm_num)
    norm_num at h
    exact h
  unfold sampleQuarter
  rw [exactAverage_two_days]
  simp only [sanitizedBalances, List.map_cons, List.map_nil, Reading.get, orZero,
    Option.getD_some, decreaseSum, h1, sanitize_50]
  norm_num

theorem exactAverage_sampleTiny :
    exactAverage sampleHost sampleTiny ⟨"06-15 08:00", some 50, some 20⟩
      Field.light_Balance = 1 / 25 := by
  have h1 : sanitizeElectricityValue (1251 / 25) = 1251 / 25 := by
    have h := sanitize_hundredths 5004 (by norm_num)
    norm_num at h
    exact h
  unfold sampleTiny
  rw [exactAverage_two_days]
  simp only [sanitizedBalances, List.map_cons, List.map_nil, Reading.get, orZero,
    Option.getD_some, decreaseSum, h1, sanitize_50]
  norm_num

theorem toFixed_one_quarter : toFixed 1 (1 / 4) = 3 / 10 := by
  have hf : ⌊(1 / 4 : ℚ) * 10 ^ 1 + 1 / 2⌋ = 3 := by
    rw [Int.floor_eq_iff]
    norm_num
  unfold toFixed
  rw [if_neg (by norm_num), hf]
  norm_num

theorem toFixed_one_twentyfifth : toFixed 1 (1 / 25) = 0 := by
  have hf : ⌊(1 / 25 : ℚ) * 10 ^ 1 + 1 / 2⌋ = 0 := by
    rw [Int.floor_eq_iff]
    norm_num
  unfold toFixed
  rw [if_neg (by norm_num), hf]
  norm_num

/-- C8, as stated, fails: the light balance drops from 50.04 to 50 in one day, so the
daily average is 0.04, not zero, yet the days left are `'∞'` and not
`floor(50 / 0.04) = 1250`, because the average is rounded to one decimal first. -/
theorem days_left_floor_counterexample :
    2 ≤ sampleTiny.length ∧
      sampleTiny.getLast? = some ⟨"06-15 08:00", some 50, some 20⟩ ∧
      exactAverage sampleHost sampleTiny ⟨"06-15 08:00", some 50, some 20⟩
        Field.light_Balance = 1 / 25 ∧
      ∃ s, calculateStats sampleHost sampleTiny = some s ∧
        s.daysLeft Field.light_Balance = DaysLeft.unbounded ∧
        s.daysLeft Field.light_Balance ≠
          DaysLeft.days ⌊orZero (some 50) /
            exactAverage sampleHost sampleTiny ⟨"06-15 08:00", some 50, some 20⟩
              Field.light_Balance⌋ := by
  refine ⟨by decide, rfl, exactAverage_sampleTiny, ?_⟩
  obtain ⟨s, hs, hf⟩ := calculateStats_of_two_le sampleHost sampleTiny
    ⟨"06-15 08:00", some 50, some 20⟩ rfl (by decide)
  have hu : s.daysLeft Field.light_Balance = DaysLeft.unbounded := by
    have havg := (hf Field.light_Balance).1
    have hexact := exactAverage_sampleTiny
    unfold exactAverage at hexact
    rw [hexact, toFixed_one_twentyfifth] at havg
    rw [(hf Field.light_Balance).2, havg]
    simp [daysLeft]
  refine ⟨s, hs, hu, ?_⟩
  rw [hu]
  intro hc
  cases hc

/-- C8, amended. For at least 2 readings, when the reported daily average of a field
(the exact average rounded to one decimal by `toFixed(1)`) is not 0, the days left are
`floor(latest balance / reported average)`. -/
theorem days_left_floor_rounded (h : Host) (data : List Reading) (latest : Reading)
    (field : Field) (hlast : data.getLast? = some latest) (hlen : 2 ≤ data.length)
    (hne : toFixed 1 (exactAverage h data latest field) ≠ 0) :
    ∃ s, calculateStats h data = some s ∧
      s.avgDaily field = toFixed 1 (exactAverage h data latest field) ∧
      s.daysLeft field =
        DaysLeft.days ⌊orZero (latest.get field) /
          toFixed 1 (exactAverage h data latest field)⌋ := by
  obtain ⟨s, hs, hf⟩ := calculateStats_of_two_le h data latest hlast hlen
  have havg : s.avgDaily field = toFixed 1 (exactAverage h data latest field) := (hf field).1
  refine ⟨s, hs, havg, ?_⟩
  have hnonneg : 0 ≤ exactAverage h data latest field := by
    unfold exactAverage
    rw [pick_totalConsumption]
    exact div_nonneg (decreaseSum_nonneg _)
      (le_trans zero_le_one (one_le_daysDiff h _ latest))
  have hpos : 0 < toFixed 1 (exactAverage h data latest field) :=
    lt_of_le_of_ne (toFixed_nonneg 1 _ hnonneg) (Ne.symm hne)
  rw [(hf field).2, havg]
  unfold daysLeft safeDivide
  rw [if_pos hpos, if_neg hne]

/-- C8 amended, at a concrete input: the light balance drops from 50.25 to 50 in one
day; the reported average is 0.3 and the days left are `floor(50 / 0.3) = 166` (the
exact average 0.25 would give 200). -/
theorem days_left_floor_rounded_witness :
    ∃ s, calculateStats sampleHost sampleQuarter = some s ∧
      s.avgDaily Field.light_Balance = 3 / 10 ∧
      s.daysLeft Field.light_Balance = DaysLeft.days 166 := by
  have hfix : toFixed 1 (exactAverage sampleHost sampleQuarter
      ⟨"06-15 08:00", some 50, some 20⟩ Field.light_Balance) = 3 / 10 := by
    rw [exactAverage_sampleQuarter, toFixed_one_quarter]
  obtain ⟨s, hs, havg, hd⟩ := days_left_floor_rounded sampleHost sampleQuarter
    ⟨"06-15 08:00", some 50, some 20⟩ Field.light_Balance rfl (by decide)
    (by rw [hfix]; norm_num)
  refine ⟨s, hs, havg.trans hfix, ?_⟩
  rw [hd, hfix]
  have hfl : ⌊orZero (Reading.get ⟨"06-15 08:00", some 50, some 20⟩ Field.light_Balance) /
      (3 / 10 : ℚ)⌋ = 166 := by
    rw [Int.floor_eq_iff]
    norm_num [orZero, Reading.get]
  rw [hfl]


/-! ## `calculateYearlyStats`: per-day consumption -/

/-- The head of an insertion-sorted list is below every element, for a relation that is
total and transitive on the elements of the list. -/
theorem head_insertionSort_le {α : Type} (r : α → α → Prop) [DecidableRel r] :
    ∀ l : List α, (∀ x ∈ l, ∀ y ∈ l, r x y ∨ r y x) →
      (∀ x ∈ l, ∀ y ∈ l, ∀ z ∈ l, r x y → r y z → r x z) →
      ∀ x, (l.insertionSort r).head? = some x → ∀ y ∈ l, r x y := by
  intro l
  induction l with
  | nil => intro _ _ x hx; simp at hx
  | cons a l ih =>
    intro htot htrans x hx y hy
    have htot' : ∀ x ∈ l, ∀ y ∈ l, r x y ∨ r y x :=
      fun x hx y hy => htot x (List.mem_cons_of_mem a hx) y (List.mem_cons_of_mem a hy)
    have htrans' : ∀ x ∈ l, ∀ y ∈ l, ∀ z ∈ l, r x y → r y z → r x z :=
      fun x hx y hy z hz => htrans x (List.mem_cons_of_mem a hx) y (List.mem_cons_of_mem a hy)
        z (List.mem_cons_of_mem a hz)
    have haa : r a a := (htot a (List.mem_cons_self a l) a (List.mem_cons_self a l)).elim id id
    rw [List.insertionSort] at hx
    cases hS : l.insertionSort r with
    | nil =>
      have hl : l = [] := by
        have := List.length_insertionSort r l
        rw [hS] at this
        exact List.length_eq_zero.mp this.symm
      subst hl
      rw [hS] at hx
      simp only [List.orderedInsert, List.head?_cons, Option.some.injEq] at hx
      subst hx
      simp only [List.mem_singleton] at hy
      subst hy
      exact haa
    | cons b S =>
      rw [hS] at hx
      have hb : b ∈ l := (List.mem_insertionSort r).mp (by rw [hS]; exact List.mem_cons_self b S)
      have hbmin : ∀ y ∈ l, r b y := ih htot' htrans' b (by rw [hS]; rfl)
      by_cases hab : r a b
      · rw [List.orderedInsert_of_le r S hab] at hx
        simp only [List.head?_cons, Option.some.injEq] at hx
        subst hx
        rcases List.mem_cons.mp hy with hya | hyl
        · subst hya; exact haa
        · exact htrans _ (List.mem_cons_self _ l) b (List.mem_cons_of_mem _ hb) y hy hab
            (hbmin y hyl)
      · simp only [List.orderedInsert, hab, if_false, List.head?_cons, Option.some.injEq] at hx
        subst hx
        rcases List.mem_cons.mp hy with hya | hyl
        · subst hya
          exact (htot _ (List.mem_cons_self _ l) _ (List.mem_cons_of_mem _ hb)).resolve_left hab
        · exact hbmin y hyl

theorem stampAll_spec (h : Host) :
    ∀ (rs : List TaggedReading) (stamped : List (Option ℤ × TaggedReading)),
      stampAll h rs = some stamped →
        stamped.map Prod.snd = rs ∧ ∀ p ∈ stamped, parseTimestamp h p.2 = some p.1 := by
  intro rs
  induction rs with
  | nil =>
    intro stamped hst
    simp only [stampAll, Option.some.injEq] at hst
    subst hst
    simp
  | cons r rs ih =>
    intro stamped hst
    unfold stampAll at hst
    cases ht : parseTimestamp h r with
    | none => rw [ht] at hst; simp at hst
    | some t =>
      cases hl : stampAll h rs with
      | none => rw [ht, hl] at hst; simp at hst
      | some l =>
        rw [ht, hl] at hst
        simp only [Option.some.injEq] at hst
        subst hst
        obtain ⟨h1, h2⟩ := ih l hl
        refine ⟨by simp [h1], fun p hp => ?_⟩
        rcases List.mem_cons.mp hp with hp | hp
        · subst hp; exact ht
        · exact h2 p hp

/-- A successful sort returns a permutation of the records. -/
theorem sortRecords_perm (h : Host) (rs sorted : List TaggedReading)
    (hs : sortRecords h rs = some sorted) : sorted.Perm rs := by
  unfold sortRecords at hs
  by_cases hlen : rs.length ≤ 1
  · rw [if_pos hlen] at hs
    cases hs
    exact List.Perm.refl _
  · rw [if_neg hlen] at hs
    cases hst : stampAll h rs with
    | none => rw [hst] at hs; simp at hs
    | some stamped =>
      rw [hst] at hs
      simp only [Option.map_some', Option.some.injEq] at hs
      subst hs
      obtain ⟨h1, _⟩ := stampAll_spec h rs stamped hst
      have := (List.perm_insertionSort (fun a b => timestampLe a.1 b.1 = true) stamped).map Prod.snd
      rwa [h1] at this


theorem timestampLe_some (x y : ℤ) : timestampLe (some x) (some y) = true ↔ x ≤ y := by
  simp [timestampLe]

/-- When every timestamp of the day is a valid `Date`, the first record after the sort
has the least timestamp. -/
theorem sortRecords_head_min (h : Host) (rs sorted : List TaggedReading) (first : TaggedReading)
    (hs : sortRecords h rs = some sorted) (hf : sorted.head? = some first)
    (hvalid : ∀ r ∈ rs, ∃ t, parseTimestamp h r = some (some t)) :
    ∃ t, parseTimestamp h first = some (some t) ∧
      ∀ r ∈ rs, ∀ u, parseTimestamp h r = some (some u) → t ≤ u := by
  have hperm := sortRecords_perm h rs sorted hs
  have hfmem : first ∈ rs := hperm.subset (List.mem_of_mem_head? hf)
  obtain ⟨t, ht⟩ := hvalid first hfmem
  refine ⟨t, ht, fun r hr u hu => ?_⟩
  unfold sortRecords at hs
  by_cases hlen : rs.length ≤ 1
  · rw [if_pos hlen] at hs
    cases hs
    have : r = first := by
      cases rs with
      | nil => simp at hr
      | cons a l =>
        have hl : l = [] := List.length_eq_zero.mp (by simpa using hlen)
        subst hl
        simp only [List.head?_cons, Option.some.injEq] at hf
        simp only [List.mem_singleton] at hr
        rw [hr, hf]
    subst this
    rw [ht] at hu
    cases hu
    exact le_refl _
  · rw [if_neg hlen] at hs
    cases hst : stampAll h rs with
    | none => rw [hst] at hs; simp at hs
    | some stamped =>
      rw [hst] at hs
      simp only [Option.map_some', Option.some.injEq] at hs
      subst hs
      obtain ⟨h1, h2⟩ := stampAll_spec h rs stamped hst
      have hkey : ∀ p ∈ stamped, ∃ v, p.1 = some v ∧ parseTimestamp h p.2 = some (some v) := by
        intro p hp
        have hp2 : p.2 ∈ rs := by
          rw [← h1]
          exact List.mem_map_of_mem Prod.snd hp
        obtain ⟨v, hv⟩ := hvalid p.2 hp2
        have := h2 p hp
        rw [hv] at this
        exact ⟨v, (Option.some.inj this).symm, hv⟩
      rw [List.head?_map] at hf
      cases hhead : (stamped.insertionSort (fun a b => timestampLe a.1 b.1 = true)).head? with
      | none => rw [hhead] at hf; simp at hf
      | some p =>
        rw [hhead] at hf
        simp only [Option.map_some', Option.some.injEq] at hf
        have hmin := head_insertionSort_le (fun a b => timestampLe a.1 b.1 = true) stamped
          (by
            intro x hx y hy
            obtain ⟨vx, hvx, _⟩ := hkey x hx
            obtain ⟨vy, hvy, _⟩ := hkey y hy
            simp only [hvx, hvy, timestampLe_some]
            exact le_total vx vy)
          (by
            intro x hx y hy z hz
            obtain ⟨vx, hvx, _⟩ := hkey x hx
            obtain ⟨vy, hvy, _⟩ := hkey y hy
            obtain ⟨vz, hvz, _⟩ := hkey z hz
            simp only [hvx, hvy, hvz, timestampLe_some]
            exact le_trans)
          p hhead
        have hpmem : p ∈ stamped :=
          (List.mem_insertionSort _).mp (List.mem_of_mem_head? hhead)
        obtain ⟨vp, hvp, hvp2⟩ := hkey p hpmem
        rw [hf, ht] at hvp2
        have htv : t = vp := Option.some.inj (Option.some.inj hvp2)
        rw [← h1] at hr
        obtain ⟨q, hq, hqr⟩ := List.mem_map.mp hr
        obtain ⟨vq, hvq, hvq2⟩ := hkey q hq
        rw [hqr, hu] at hvq2
        have huv : u = vq := Option.some.inj (Option.some.inj hvq2)
        have := hmin q hq
        simp only [hvp, hvq, timestampLe_some] at this
        rw [htv, huv]
        exact this

/-- The keys collected by the grouping loop are distinct and are exactly the date keys of
the records. -/
theorem foldl_keys_spec :
    ∀ (ks init : List String), init.Nodup →
      (ks.foldl (fun keys k => if k ∈ keys then keys else keys ++ [k]) init).Nodup ∧
        ∀ x, x ∈ ks.foldl (fun keys k => if k ∈ keys then keys else keys ++ [k]) init ↔
          x ∈ init ∨ x ∈ ks := by
  intro ks
  induction ks with
  | nil => intro init hn; simp [hn]
  | cons k ks ih =>
    intro init hn
    simp only [List.foldl_cons]
    by_cases hk : k ∈ init
    · rw [if_pos hk]
      obtain ⟨h1, h2⟩ := ih init hn
      refine ⟨h1, fun x => ?_⟩
      rw [h2 x, List.mem_cons]
      constructor
      · rintro (h | h)
        · exact Or.inl h
        · exact Or.inr (Or.inr h)
      · rintro (h | h | h)
        · exact Or.inl h
        · exact Or.inl (h ▸ hk)
        · exact Or.inr h
    · rw [if_neg hk]
      have hn' : (init ++ [k]).Nodup := by
        rw [List.nodup_append]
        refine ⟨hn, List.nodup_singleton k, ?_⟩
        intro a ha hb
        rw [List.mem_singleton] at hb
        exact hk (hb ▸ ha)
      obtain ⟨h1, h2⟩ := ih (init ++ [k]) hn'
      refine ⟨h1, fun x => ?_⟩
      rw [h2 x, List.mem_append, List.mem_singleton, List.mem_cons]
      constructor
      · rintro ((h | h) | h)
        · exact Or.inl h
        · exact Or.inr (Or.inl h)
        · exact Or.inr (Or.inr h)
      · rintro (h | h | h)
        · exact Or.inl (Or.inl h)
        · exact Or.inl (Or.inr h)
        · exact Or.inr h

theorem nodup_dateKeys (data : List TaggedReading) : (dateKeys data).Nodup :=
  (foldl_keys_spec _ [] List.nodup_nil).1

theorem mem_dateKeys (data : List TaggedReading) (x : String) :
    x ∈ dateKeys data ↔ ∃ r ∈ data, parseDateStr r = x := by
  unfold dateKeys
  rw [(foldl_keys_spec _ [] List.nodup_nil).2 x]
  simp

theorem nodup_sortedDates (data : List TaggedReading) (year : ℕ) :
    (sortedDates data year).Nodup := by
  unfold sortedDates
  exact (List.perm_insertionSort _ _).nodup_iff.mpr ((nodup_dateKeys data).filter _)

/-- The dates of `sortedDates` are the date keys of the records that start with the
year. -/
theorem mem_sortedDates (data : List TaggedReading) (year : ℕ) (x : String) :
    x ∈ sortedDates data year ↔
      (∃ r ∈ data, parseDateStr r = x) ∧ (toString year).toList.isPrefixOf x.toList = true := by
  unfold sortedDates
  rw [List.mem_insertionSort, List.mem_filter, mem_dateKeys]

theorem recordsByDate_ne_nil (data : List TaggedReading) (year : ℕ) (x : String)
    (hx : x ∈ sortedDates data year) : recordsByDate data x ≠ [] := by
  obtain ⟨⟨r, hr, hrx⟩, _⟩ := (mem_sortedDates data year x).mp hx
  intro hnil
  have : r ∈ recordsByDate data x := by
    unfold recordsByDate
    rw [List.mem_filter]
    exact ⟨hr, by simp [hrx]⟩
  rw [hnil] at this
  simp at this

theorem mem_recordsByDate (data : List TaggedReading) (x : String) (r : TaggedReading) :
    r ∈ recordsByDate data x ↔ r ∈ data ∧ parseDateStr r = x := by
  unfold recordsByDate
  rw [List.mem_filter]
  simp


/-- The entry the loop writes for the date at position `k + j` is the entry found under
that key in the result, provided the key does not occur earlier in the list. -/
theorem collectDaily_lookup (h : Host) (data : List TaggedReading) (dates : List String) :
    ∀ (rest : List String) (k : ℕ) (dc : List (String × Consumption)),
      collectDaily h data dates k rest = some dc →
        ∀ (j : ℕ) (D : String), rest[j]? = some D → D ∉ rest.take j →
          ∃ e, consumptionOfDate h data dates (k + j) D = some e ∧
            ∀ c, e = some c → dc.lookup D = some c := by
  intro rest
  induction rest with
  | nil => intro k dc _ j D hj; simp at hj
  | cons d rest ih =>
    intro k dc hdc j D hj hnot
    unfold collectDaily at hdc
    cases he : consumptionOfDate h data dates k d with
    | none => rw [he] at hdc; simp at hdc
    | some entry =>
      cases hr : collectDaily h data dates (k + 1) rest with
      | none => rw [he, hr] at hdc; simp at hdc
      | some entries =>
        rw [he, hr] at hdc
        simp only [Option.some.injEq] at hdc
        cases j with
        | zero =>
          simp only [List.getElem?_cons_zero, Option.some.injEq] at hj
          subst hj
          refine ⟨entry, he, fun c hc => ?_⟩
          subst hc
          subst hdc
          simp [List.lookup]
        | succ j' =>
          simp only [List.getElem?_cons_succ] at hj
          simp only [List.take_succ_cons, List.mem_cons, not_or] at hnot
          obtain ⟨e, he', hlook⟩ := ih (k + 1) entries hr j' D hj hnot.2
          refine ⟨e, by rw [← he']; congr 1; omega, fun c hc => ?_⟩
          have hDd : (D == d) = false := by simpa using hnot.1
          subst hdc
          cases entry with
          | none => exact hlook c hc
          | some c' =>
            simp only [List.lookup, hDd]
            exact hlook c hc

theorem take_not_mem_of_nodup {α : Type} :
    ∀ (l : List α), l.Nodup → ∀ (j : ℕ) (x : α), l[j]? = some x → x ∉ l.take j := by
  intro l
  induction l with
  | nil => intro _ j x hj; simp at hj
  | cons a l ih =>
    intro hn j x hj
    cases j with
    | zero => simp
    | succ j' =>
      simp only [List.getElem?_cons_succ] at hj
      rw [List.nodup_cons] at hn
      simp only [List.take_succ_cons, List.mem_cons, not_or]
      refine ⟨?_, ih hn.2 j' x hj⟩
      intro hxa
      subst hxa
      exact hn.1 (List.getElem?_mem hj)

/-- The first record of a successfully sorted, non-empty day. -/
theorem sortRecords_head (h : Host) (rs sorted : List TaggedReading)
    (hs : sortRecords h rs = some sorted) (hne : rs ≠ []) :
    ∃ first, sorted.head? = some first := by
  have hperm := sortRecords_perm h rs sorted hs
  cases sorted with
  | nil => exact absurd (List.Perm.nil_eq hperm).symm hne
  | cons a l => exact ⟨a, rfl⟩

/-- The first record of a sorted day is the earliest record of that date. -/
theorem earliest_of_sortRecords (h : Host) (data : List TaggedReading) (dateStr : String)
    (sorted : List TaggedReading) (first : TaggedReading)
    (hs : sortRecords h (recordsByDate data dateStr) = some sorted)
    (hf : sorted.head? = some first) : Earliest h data dateStr first := by
  have hperm := sortRecords_perm h _ sorted hs
  have hmem : first ∈ recordsByDate data dateStr := hperm.subset (List.mem_of_mem_head? hf)
  rw [mem_recordsByDate] at hmem
  refine ⟨hmem.1, hmem.2, fun hvalid => ?_⟩
  obtain ⟨t, ht, hmin⟩ := sortRecords_head_min h _ sorted first hs hf
    (fun r hr => by
      rw [mem_recordsByDate] at hr
      exact hvalid r hr.1 hr.2)
  exact ⟨t, ht, fun r hr hrd u hu => hmin r ((mem_recordsByDate data dateStr r).mpr ⟨hr, hrd⟩) u hu⟩


theorem lexLe_refl : ∀ a : List ℕ, lexLe a a = true
  | [] => rfl
  | a :: as => by simp [lexLe, lexLe_refl as]

theorem lexLe_total : ∀ a b : List ℕ, lexLe a b = true ∨ lexLe b a = true
  | [], _ => Or.inl rfl
  | _ :: _, [] => Or.inr rfl
  | a :: as, b :: bs => by
    simp only [lexLe, Bool.or_eq_true, Bool.and_eq_true, decide_eq_true_eq]
    rcases Nat.lt_trichotomy a b with hlt | heq | hgt
    · exact Or.inl (Or.inl hlt)
    · rcases lexLe_total as bs with h | h
      · exact Or.inl (Or.inr ⟨heq, h⟩)
      · exact Or.inr (Or.inr ⟨heq.symm, h⟩)
    · exact Or.inr (Or.inl hgt)

theorem lexLe_trans : ∀ a b c : List ℕ, lexLe a b = true → lexLe b c = true → lexLe a c = true
  | [], _, _ => fun _ _ => rfl
  | _ :: _, [], _ => fun h _ => by simp [lexLe] at h
  | _ :: _, _ :: _, [] => fun _ h => by simp [lexLe] at h
  | a :: as, b :: bs, c :: cs => by
    simp only [lexLe, Bool.or_eq_true, Bool.and_eq_true, decide_eq_true_eq]
    rintro (hab | ⟨hab, hr⟩) (hbc | ⟨hbc, hr'⟩)
    · exact Or.inl (Nat.lt_trans hab hbc)
    · exact Or.inl (hbc ▸ hab)
    · exact Or.inl (hab ▸ hbc)
    · exact Or.inr ⟨hab.trans hbc, lexLe_trans as bs cs hr hr'⟩

/-- The list `sortedDates` is sorted for the string order of `sort()`. -/
theorem sorted_sortedDates (data : List TaggedReading) (year : ℕ) :
    (sortedDates data year).Sorted (fun a b => jsStringLe a b = true) := by
  haveI : IsTotal String (fun a b => jsStringLe a b = true) :=
    ⟨fun a b => lexLe_total _ _⟩
  haveI : IsTrans String (fun a b => jsStringLe a b = true) :=
    ⟨fun a b c => lexLe_trans _ _ _⟩
  exact List.sorted_insertionSort _ _

/-- Neighbours in `sortedDates`: the date at position `index + 1` is the next present
date after the one at position `index`; no date of the list lies strictly between. -/
theorem next_date_adjacent (data : List TaggedReading) (year : ℕ) (index : ℕ) (D N : String)
    (hD : (sortedDates data year)[index]? = some D)
    (hN : (sortedDates data year)[index + 1]? = some N) :
    jsStringLe D N = true ∧ D ≠ N ∧
      ∀ K ∈ sortedDates data year, jsStringLe K D = true ∨ jsStringLe N K = true := by
  have hs := sorted_sortedDates data year
  have hnd := nodup_sortedDates data year
  haveI : IsRefl String (fun a b => jsStringLe a b = true) := ⟨fun a => lexLe_refl _⟩
  obtain ⟨hi, hDe⟩ := List.getElem?_eq_some_iff.mp hD
  obtain ⟨hi1, hNe⟩ := List.getElem?_eq_some_iff.mp hN
  have hrel : ∀ a b : Fin (sortedDates data year).length, a ≤ b →
      jsStringLe ((sortedDates data year).get a) ((sortedDates data year).get b) = true :=
    fun a b hab => hs.rel_get_of_le hab
  refine ⟨?_, ?_, ?_⟩
  · have := hrel ⟨index, hi⟩ ⟨index + 1, hi1⟩ (by simp [Fin.le_def])
    simpa [hDe, hNe] using this
  · intro hDN
    have := (@List.Nodup.getElem_inj_iff _ _ hnd index hi (index + 1) hi1).mp
      (by rw [hDe, hNe, hDN])
    omega
  · intro K hK
    obtain ⟨j, hj, hKe⟩ := List.getElem_of_mem hK
    by_cases hji : j ≤ index
    · left
      have := hrel ⟨j, hj⟩ ⟨index, hi⟩ (by simpa [Fin.le_def] using hji)
      simpa [hDe, hKe] using this
    · right
      have := hrel ⟨index + 1, hi1⟩ ⟨j, hj⟩ (by simp only [Fin.le_def]; omega)
      simpa [hNe, hKe] using this


/-- C10. Continuous days: for a date `D` of `sortedDates` followed by the date `N`
(the next present date of the target year) at most 1.5 days later, the entry of `D` in
`dailyConsumption` is, per field, `max 0` of the balance of the earliest record of `D`
minus the balance of the earliest record of `N`. -/
theorem continuous_day_consumption (h : Host) (data : List TaggedReading) (year index : ℕ)
    (D N : String) (c n : ℤ) (dc : List (String × Consumption))
    (hres : dailyConsumption h data year = some dc)
    (hD : (sortedDates data year)[index]? = some D)
    (hN : (sortedDates data year)[index + 1]? = some N)
    (hc : h.dateParse D = some c) (hn : h.dateParse N = some n)
    (hgap : ((n - c : ℤ) : ℚ) / (ONE_DAY_MS : ℚ) ≤ CONTINUOUS_DAY_THRESHOLD) :
    (jsStringLe D N = true ∧ D ≠ N ∧
        ∀ K ∈ sortedDates data year, jsStringLe K D = true ∨ jsStringLe N K = true) ∧
      ∃ first nextFirst, Earliest h data D first ∧ Earliest h data N nextFirst ∧
        dc.lookup D =
          some ⟨max 0 (orZero first.light_Balance - orZero nextFirst.light_Balance),
            max 0 (orZero first.ac_Balance - orZero nextFirst.ac_Balance)⟩ := by
  refine ⟨next_date_adjacent data year index D N hD hN, ?_⟩
  have hDmem : D ∈ sortedDates data year := List.getElem?_mem hD
  have hNmem : N ∈ sortedDates data year := List.getElem?_mem hN
  have hnot := take_not_mem_of_nodup _ (nodup_sortedDates data year) index D hD
  obtain ⟨e, he, hlook⟩ := collectDaily_lookup h data (sortedDates data year)
    (sortedDates data year) 0 dc hres index D hD hnot
  rw [Nat.zero_add] at he
  obtain ⟨hi1, _⟩ := List.getElem?_eq_some_iff.mp hN
  unfold consumptionOfDate at he
  cases hsD : sortRecords h (recordsByDate data D) with
  | none => rw [hsD] at he; simp at he
  | some dayRecords =>
    obtain ⟨first, hfirst⟩ := sortRecords_head h _ dayRecords hsD
      (recordsByDate_ne_nil data year D hDmem)
    have hlast : ∃ lastRecord, dayRecords.getLast? = some lastRecord := by
      cases dayRecords with
      | nil => simp at hfirst
      | cons a l => exact ⟨_, List.getLast?_eq_getLast (a :: l) (List.cons_ne_nil a l)⟩
    obtain ⟨lastRecord, hlastRecord⟩ := hlast
    cases hsN : sortRecords h (recordsByDate data N) with
    | none =>
      rw [hsD] at he
      simp only [hfirst, hlastRecord, nextDayFirstRecord, hN, hsN, Option.map_none'] at he
      rw [if_pos (by omega)] at he
      simp at he
    | some nextRecords =>
      obtain ⟨nextFirst, hnextFirst⟩ := sortRecords_head h _ nextRecords hsN
        (recordsByDate_ne_nil data year N hNmem)
      have hget : (sortedDates data year).getD (index + 1) "" = N := by
        rw [List.getD_eq_getElem?_getD, hN]
        rfl
      have hdiff : dayDiff h D N = some (((n - c : ℤ) : ℚ) / (ONE_DAY_MS : ℚ)) := by
        simp only [dayDiff, hc, hn]
      rw [hsD] at he
      simp only [hfirst, hlastRecord, nextDayFirstRecord, hN, hsN, Option.map_some',
        hnextFirst, hget, hdiff] at he
      rw [if_pos (by omega)] at he
      simp only [decide_eq_true_eq, hgap, if_true, Option.some.injEq] at he
      refine ⟨first, nextFirst, earliest_of_sortRecords h data D dayRecords first hsD hfirst,
        earliest_of_sortRecords h data N nextRecords nextFirst hsN hnextFirst, ?_⟩
      have := hlook (dropBetween first nextFirst) he.symm
      rw [this]
      rfl


/-! ### The loop returns when no timestamp throws -/

theorem stampAll_isSome (h : Host) :
    ∀ rs : List TaggedReading, (∀ r ∈ rs, parseTimestamp h r ≠ none) →
      ∃ stamped, stampAll h rs = some stamped := by
  intro rs
  induction rs with
  | nil => intro _; exact ⟨[], rfl⟩
  | cons r rs ih =>
    intro hno
    obtain ⟨l, hl⟩ := ih (fun x hx => hno x (List.mem_cons_of_mem r hx))
    cases ht : parseTimestamp h r with
    | none => exact absurd ht (hno r (List.mem_cons_self r rs))
    | some t => exact ⟨(t, r) :: l, by simp [stampAll, ht, hl]⟩

theorem sortRecords_isSome (h : Host) (rs : List TaggedReading)
    (hno : ∀ r ∈ rs, parseTimestamp h r ≠ none) : ∃ sorted, sortRecords h rs = some sorted := by
  unfold sortRecords
  by_cases hlen : rs.length ≤ 1
  · exact ⟨rs, by rw [if_pos hlen]⟩
  · obtain ⟨stamped, hst⟩ := stampAll_isSome h rs hno
    rw [if_neg hlen, hst]
    exact ⟨_, rfl⟩

theorem consumptionOfDate_isSome (h : Host) (data : List TaggedReading)
    (hno : ∀ r ∈ data, parseTimestamp h r ≠ none) (dates : List String) (index : ℕ)
    (dateStr : String) : ∃ e, consumptionOfDate h data dates index dateStr = some e := by
  have hsort : ∀ x, ∃ sorted, sortRecords h (recordsByDate data x) = some sorted :=
    fun x => sortRecords_isSome h _ (fun r hr => hno r ((mem_recordsByDate data x r).mp hr).1)
  have hnext : ∃ v, nextDayFirstRecord h data dates index = some v := by
    unfold nextDayFirstRecord
    split
    · split
      · rename_i nextDateStr _
        obtain ⟨sorted, hs⟩ := hsort nextDateStr
        exact ⟨_, by rw [hs]; rfl⟩
      · exact ⟨_, rfl⟩
    · exact ⟨_, rfl⟩
  obtain ⟨sorted, hs⟩ := hsort dateStr
  obtain ⟨v, hv⟩ := hnext
  unfold consumptionOfDate
  rw [hs]
  simp only [hv]
  cases sorted.head? <;> cases sorted.getLast? <;> cases v <;> simp only <;>
    first
      | exact ⟨_, rfl⟩
      | (split <;> exact ⟨_, rfl⟩)

theorem collectDaily_isSome (h : Host) (data : List TaggedReading)
    (hno : ∀ r ∈ data, parseTimestamp h r ≠ none) (dates : List String) :
    ∀ (rest : List String) (k : ℕ), ∃ dc, collectDaily h data dates k rest = some dc := by
  intro rest
  induction rest with
  | nil => intro k; exact ⟨[], rfl⟩
  | cons d rest ih =>
    intro k
    obtain ⟨e, he⟩ := consumptionOfDate_isSome h data hno dates k d
    obtain ⟨entries, hentries⟩ := ih (k + 1)
    unfold collectDaily
    rw [he, hentries]
    exact ⟨_, rfl⟩

/-- The per-day loop of `calculateYearlyStats` completes when no record has a time
without a hyphen (the only way `parseTimestamp` throws). -/
theorem dailyConsumption_isSome (h : Host) (data : List TaggedReading) (year : ℕ)
    (hno : ∀ r ∈ data, parseTimestamp h r ≠ none) :
    ∃ dc, dailyConsumption h data year = some dc :=
  collectDaily_isSome h data hno _ _ 0


theorem sortedDates_sampleYear :
    sortedDates sampleYear 2025 = ["2025-06-01", "2025-06-02", "2025-06-10"] := by
  decide

/-- C10, at a concrete input: on the sample host the readings of 06-01 (80 at 08:00, 78
at 20:00) are followed one day later by 06-02 (70 at 08:00); the light consumption of
06-01 is `80 - 70 = 10` and the AC consumption `30 - 29 = 1`. -/
theorem continuous_day_consumption_witness :
    ∃ dc, dailyConsumption sampleHost sampleYear 2025 = some dc ∧
      dc.lookup "2025-06-01" = some ⟨10, 1⟩ := by
  obtain ⟨dc, hdc⟩ := dailyConsumption_isSome sampleHost sampleYear 2025 (by decide)
  obtain ⟨_, first, nextFirst, hfirst, hnext, hlook⟩ :=
    continuous_day_consumption sampleHost sampleYear 2025 0 "2025-06-01" "2025-06-02"
      1748736000000 1748822400000 dc hdc (by rw [sortedDates_sampleYear]; rfl)
      (by rw [sortedDates_sampleYear]; rfl) (by decide) (by decide)
      (by norm_num [ONE_DAY_MS, CONTINUOUS_DAY_THRESHOLD])
  refine ⟨dc, hdc, ?_⟩
  have hf : first = ⟨⟨"06-01 08:00", some 80, some 30⟩, "2025-06"⟩ := by
    obtain ⟨hmem, hdate, hmin⟩ := hfirst
    obtain ⟨t, ht, hle⟩ := hmin (by
      intro r hr _
      simp only [sampleYear, List.mem_cons, List.mem_singleton, List.not_mem_nil, or_false] at hr
      rcases hr with h | h | h | h <;> subst h <;> exact ⟨_, rfl⟩)
    simp only [sampleYear, List.mem_cons, List.mem_singleton, List.not_mem_nil, or_false] at hmem
    rcases hmem with h | h | h | h
    · subst h
      have h1 : parseTimestamp sampleHost ⟨⟨"06-01 20:00", some 78, some 30⟩, "2025-06"⟩ =
          some (some 1748808000000) := by decide
      have h2 : parseTimestamp sampleHost ⟨⟨"06-01 08:00", some 80, some 30⟩, "2025-06"⟩ =
          some (some 1748764800000) := by decide
      rw [h1] at ht
      have htv : (1748808000000 : ℤ) = t := Option.some.inj (Option.some.inj ht)
      have := hle ⟨⟨"06-01 08:00", some 80, some 30⟩, "2025-06"⟩
        (by simp [sampleYear]) (by decide) 1748764800000 h2
      omega
    · exact h
    · subst h
      exact absurd hdate (by decide)
    · subst h
      exact absurd hdate (by decide)
  have hn : nextFirst = ⟨⟨"06-02 08:00", some 70, some 29⟩, "2025-06"⟩ := by
    obtain ⟨hmem, hdate, _⟩ := hnext
    simp only [sampleYear, List.mem_cons, List.mem_singleton, List.not_mem_nil, or_false] at hmem
    rcases hmem with h | h | h | h
    · subst h
      exact absurd hdate (by decide)
    · subst h
      exact absurd hdate (by decide)
    · exact h
    · subst h
      exact absurd hdate (by decide)
  rw [hlook, hf, hn]
  norm_num [orZero]


/-! ### Sorting a day twice -/

theorem chain_orderedInsert {α : Type} (r : α → α → Prop) [DecidableRel r]
    (htot : ∀ x y, r x y ∨ r y x) (a : α) :
    ∀ l : List α, l.Chain' r → (l.orderedInsert r a).Chain' r := by
  intro l
  induction l with
  | nil => intro _; simp [List.orderedInsert]
  | cons b l ih =>
    intro hc
    by_cases hab : r a b
    · rw [List.orderedInsert_of_le r l hab]
      exact List.chain'_cons.mpr ⟨hab, hc⟩
    · have hba : r b a := (htot a b).resolve_left hab
      simp only [List.orderedInsert, hab, if_false]
      cases l with
      | nil =>
        simp only [List.orderedInsert]
        exact List.chain'_cons.mpr ⟨hba, List.chain'_singleton a⟩
      | cons c l =>
        have hbc := (List.chain'_cons.mp hc).1
        have hcl := (List.chain'_cons.mp hc).2
        have ih' := ih hcl
        by_cases hac : r a c
        · rw [List.orderedInsert_of_le r l hac] at ih' ⊢
          exact List.chain'_cons.mpr ⟨hba, ih'⟩
        · simp only [List.orderedInsert, hac, if_false] at ih' ⊢
          exact List.chain'_cons.mpr ⟨hbc, ih'⟩

theorem chain_insertionSort {α : Type} (r : α → α → Prop) [DecidableRel r]
    (htot : ∀ x y, r x y ∨ r y x) : ∀ l : List α, (l.insertionSort r).Chain' r
  | [] => List.chain'_nil
  | a :: l => chain_orderedInsert r htot a _ (chain_insertionSort r htot l)

theorem insertionSort_of_chain {α : Type} (r : α → α → Prop) [DecidableRel r] :
    ∀ l : List α, l.Chain' r → l.insertionSort r = l
  | [], _ => rfl
  | [a], _ => rfl
  | a :: b :: l, hc => by
    rw [List.insertionSort, insertionSort_of_chain r (b :: l) (List.chain'_cons.mp hc).2]
    exact List.orderedInsert_of_le r l (List.chain'_cons.mp hc).1

theorem timestampLe_total (a b : Option ℤ) : timestampLe a b = true ∨ timestampLe b a = true := by
  cases a <;> cases b <;> simp [timestampLe, le_total]

theorem stampAll_map_snd (h : Host) :
    ∀ L : List (Option ℤ × TaggedReading), (∀ p ∈ L, parseTimestamp h p.2 = some p.1) →
      stampAll h (L.map Prod.snd) = some L := by
  intro L
  induction L with
  | nil => intro _; rfl
  | cons p L ih =>
    intro hp
    simp only [List.map_cons, stampAll, hp p (List.mem_cons_self p L),
      ih (fun q hq => hp q (List.mem_cons_of_mem p hq))]

/-- The source sorts the array of a day in place twice (once as the next day of the
previous date, once as the current day); sorting a sorted day again changes nothing. -/
theorem sortRecords_idem (h : Host) (rs sorted : List TaggedReading)
    (hs : sortRecords h rs = some sorted) : sortRecords h sorted = some sorted := by
  have hlen : sorted.length = rs.length := (sortRecords_perm h rs sorted hs).length_eq
  unfold sortRecords at hs ⊢
  by_cases hle : rs.length ≤ 1
  · rw [if_pos (by omega)]
  · rw [if_neg hle] at hs
    rw [if_neg (by omega)]
    cases hst : stampAll h rs with
    | none => rw [hst] at hs; simp at hs
    | some stamped =>
      rw [hst] at hs
      simp only [Option.map_some', Option.some.injEq] at hs
      obtain ⟨_, h2⟩ := stampAll_spec h rs stamped hst
      have hL : stampAll h
          ((stamped.insertionSort (fun a b => timestampLe a.1 b.1 = true)).map Prod.snd) =
          some (stamped.insertionSort (fun a b => timestampLe a.1 b.1 = true)) :=
        stampAll_map_snd h _ (fun p hp => h2 p ((List.mem_insertionSort _).mp hp))
      rw [← hs, hL]
      simp only [Option.map_some', Option.some.injEq]
      rw [insertionSort_of_chain _ _
        (chain_insertionSort _ (fun x y => timestampLe_total x.1 y.1) stamped)]


/-! ## `calculateYearlyStats`: days after a gap and the last day -/

theorem pairwise_orderedInsert_of {α : Type} (r : α → α → Prop) [DecidableRel r] (a : α) :
    ∀ S : List α, S.Pairwise r → (∀ b ∈ S, r a b ∨ r b a) →
      (∀ y ∈ S, ∀ z ∈ S, r a y → r y z → r a z) → (S.orderedInsert r a).Pairwise r := by
  intro S
  induction S with
  | nil => intro _ _ _; simp [List.orderedInsert]
  | cons b S ih =>
    intro hS htot htrans
    have hb := List.pairwise_cons.mp hS
    by_cases hab : r a b
    · rw [List.orderedInsert_of_le r S hab]
      refine List.pairwise_cons.mpr ⟨fun y hy => ?_, hS⟩
      rcases List.mem_cons.mp hy with hyb | hyS
      · rw [hyb]; exact hab
      · exact htrans b (List.mem_cons_self b S) y (List.mem_cons_of_mem b hyS) hab (hb.1 y hyS)
    · simp only [List.orderedInsert, hab, if_false]
      refine List.pairwise_cons.mpr ⟨fun y hy => ?_, ?_⟩
      · rcases (List.mem_orderedInsert r).mp hy with hya | hyS
        · rw [hya]
          exact (htot b (List.mem_cons_self b S)).resolve_left hab
        · exact hb.1 y hyS
      · exact ih hb.2 (fun c hc => htot c (List.mem_cons_of_mem b hc))
          (fun y hy z hz => htrans y (List.mem_cons_of_mem b hy) z (List.mem_cons_of_mem b hz))

/-- Insertion sort yields a pairwise ordered list for a relation that is total and
transitive on the elements of the list. -/
theorem pairwise_insertionSort_of {α : Type} (r : α → α → Prop) [DecidableRel r] :
    ∀ l : List α, (∀ x ∈ l, ∀ y ∈ l, r x y ∨ r y x) →
      (∀ x ∈ l, ∀ y ∈ l, ∀ z ∈ l, r x y → r y z → r x z) →
      (l.insertionSort r).Pairwise r := by
  intro l
  induction l with
  | nil => intro _ _; simp
  | cons a l ih =>
    intro htot htrans
    rw [List.insertionSort]
    have hmem : ∀ x, x ∈ l.insertionSort r → x ∈ a :: l :=
      fun x hx => List.mem_cons_of_mem a ((List.mem_insertionSort r).mp hx)
    refine pairwise_orderedInsert_of r a _
      (ih (fun x hx y hy => htot x (List.mem_cons_of_mem a hx) y (List.mem_cons_of_mem a hy))
        (fun x hx y hy z hz => htrans x (List.mem_cons_of_mem a hx) y
          (List.mem_cons_of_mem a hy) z (List.mem_cons_of_mem a hz)))
      (fun b hb => htot a (List.mem_cons_self a l) b (hmem b hb))
      (fun y hy z hz => htrans a (List.mem_cons_self a l) y (hmem y hy) z (hmem z hz))

theorem pairwise_getLast {α : Type} (r : α → α → Prop) :
    ∀ (L : List α) (x : α), L.Pairwise r → L.getLast? = some x → ∀ y ∈ L, y = x ∨ r y x := by
  intro L
  induction L with
  | nil => intro x _ hx; simp at hx
  | cons a L ih =>
    intro x hp hx y hy
    cases L with
    | nil =>
      simp only [List.getLast?_singleton, Option.some.injEq] at hx
      simp only [List.mem_singleton] at hy
      exact Or.inl (hy.trans hx)
    | cons b L =>
      rw [List.getLast?_cons_cons] at hx
      have hpc := List.pairwise_cons.mp hp
      rcases List.mem_cons.mp hy with hya | hyL
      · right
        rw [hya]
        exact hpc.1 x (List.mem_of_mem_getLast? hx)
      · exact ih x hpc.2 hx y hyL


/-- When every timestamp of the day is a valid `Date`, the last record after the sort
has the greatest timestamp. -/
theorem sortRecords_last_max (h : Host) (rs sorted : List TaggedReading) (last : TaggedReading)
    (hs : sortRecords h rs = some sorted) (hl : sorted.getLast? = some last)
    (hvalid : ∀ r ∈ rs, ∃ t, parseTimestamp h r = some (some t)) :
    ∃ t, parseTimestamp h last = some (some t) ∧
      ∀ r ∈ rs, ∀ u, parseTimestamp h r = some (some u) → u ≤ t := by
  have hperm := sortRecords_perm h rs sorted hs
  have hlmem : last ∈ rs := hperm.subset (List.mem_of_mem_getLast? hl)
  obtain ⟨t, ht⟩ := hvalid last hlmem
  refine ⟨t, ht, fun r hr u hu => ?_⟩
  unfold sortRecords at hs
  by_cases hlen : rs.length ≤ 1
  · rw [if_pos hlen] at hs
    cases hs
    have : r = last := by
      cases rs with
      | nil => simp at hr
      | cons a l =>
        have hnil : l = [] := List.length_eq_zero.mp (by simpa using hlen)
        subst hnil
        simp only [List.getLast?_singleton, Option.some.injEq] at hl
        simp only [List.mem_singleton] at hr
        rw [hr, hl]
    subst this
    rw [ht] at hu
    cases hu
    exact le_refl _
  · rw [if_neg hlen] at hs
    cases hst : stampAll h rs with
    | none => rw [hst] at hs; simp at hs
    | some stamped =>
      rw [hst] at hs
      simp only [Option.map_some', Option.some.injEq] at hs
      subst hs
      obtain ⟨h1, h2⟩ := stampAll_spec h rs stamped hst
      have hkey : ∀ p ∈ stamped, ∃ v, p.1 = some v ∧ parseTimestamp h p.2 = some (some v) := by
        intro p hp
        have hp2 : p.2 ∈ rs := by
          rw [← h1]
          exact List.mem_map_of_mem Prod.snd hp
        obtain ⟨v, hv⟩ := hvalid p.2 hp2
        have := h2 p hp
        rw [hv] at this
        exact ⟨v, (Option.some.inj this).symm, hv⟩
      rw [List.getLast?_map] at hl
      cases hlast : (stamped.insertionSort (fun a b => timestampLe a.1 b.1 = true)).getLast? with
      | none => rw [hlast] at hl; simp at hl
      | some p =>
        rw [hlast] at hl
        simp only [Option.map_some', Option.some.injEq] at hl
        have hpw := pairwise_insertionSort_of (fun a b => timestampLe a.1 b.1 = true) stamped
          (by
            intro x hx y hy
            obtain ⟨vx, hvx, _⟩ := hkey x hx
            obtain ⟨vy, hvy, _⟩ := hkey y hy
            simp only [hvx, hvy, timestampLe_some]
            exact le_total vx vy)
          (by
            intro x hx y hy z hz
            obtain ⟨vx, hvx, _⟩ := hkey x hx
            obtain ⟨vy, hvy, _⟩ := hkey y hy
            obtain ⟨vz, hvz, _⟩ := hkey z hz
            simp only [hvx, hvy, hvz, timestampLe_some]
            exact le_trans)
        have hpmem : p ∈ stamped :=
          (List.mem_insertionSort _).mp (List.mem_of_mem_getLast? hlast)
        obtain ⟨vp, hvp, hvp2⟩ := hkey p hpmem
        rw [hl, ht] at hvp2
        have htv : t = vp := Option.some.inj (Option.some.inj hvp2)
        rw [← h1] at hr
        obtain ⟨q, hq, hqr⟩ := List.mem_map.mp hr
        obtain ⟨vq, hvq, hvq2⟩ := hkey q hq
        rw [hqr, hu] at hvq2
        have huv : u = vq := Option.some.inj (Option.some.inj hvq2)
        rw [htv, huv]
        rcases pairwise_getLast _ _ p hpw hlast q ((List.mem_insertionSort _).mpr hq) with
          hqp | hrel
        · rw [hqp, hvp] at hvq
          exact le_of_eq (Option.some.inj hvq).symm
        · simp only [hvp, hvq, timestampLe_some] at hrel
          exact hrel

/-- The last record of a sorted day is the latest record of that date. -/
theorem latest_of_sortRecords (h : Host) (data : List TaggedReading) (dateStr : String)
    (sorted : List TaggedReading) (last : TaggedReading)
    (hs : sortRecords h (recordsByDate data dateStr) = some sorted)
    (hl : sorted.getLast? = some last) : Latest h data dateStr last := by
  have hperm := sortRecords_perm h _ sorted hs
  have hmem : last ∈ recordsByDate data dateStr :=
    hperm.subset (List.mem_of_mem_getLast? hl)
  rw [mem_recordsByDate] at hmem
  refine ⟨hmem.1, hmem.2, fun hvalid => ?_⟩
  obtain ⟨t, ht, hmax⟩ := sortRecords_last_max h _ sorted last hs hl
    (fun r hr => by
      rw [mem_recordsByDate] at hr
      exact hvalid r hr.1 hr.2)
  exact ⟨t, ht, fun r hr hrd u hu => hmax r ((mem_recordsByDate data dateStr r).mpr ⟨hr, hrd⟩) u hu⟩

/-- The same-day value: first minus last record, `0` for a single record. -/
theorem sameDay_eq_dropBetween (dayRecords : List TaggedReading)
    (firstRecord lastRecord : TaggedReading) (hf : dayRecords.head? = some firstRecord)
    (hl : dayRecords.getLast? = some lastRecord) :
    sameDay dayRecords firstRecord lastRecord = dropBetween firstRecord lastRecord ∧
      (dayRecords.length < 2 → sameDay dayRecords firstRecord lastRecord = ⟨0, 0⟩) := by
  unfold sameDay
  by_cases hlen : dayRecords.length ≥ 2
  · rw [if_pos hlen]
    exact ⟨rfl, fun hlt => absurd hlen (Nat.not_le.mpr hlt)⟩
  · rw [if_neg hlen]
    refine ⟨?_, fun _ => rfl⟩
    cases dayRecords with
    | nil => simp at hf
    | cons a l =>
      have hnil : l = [] :=
        List.length_eq_zero.mp (by simp only [List.length_cons] at hlen; omega)
      subst hnil
      simp only [List.head?_cons, Option.some.injEq] at hf
      simp only [List.getLast?_singleton, Option.some.injEq] at hl
      subst hf
      subst hl
      simp [dropBetween]


/-- The entry of a date of `sortedDates` in `dailyConsumption`, in all three cases of the
loop body: no next date, a next date within the threshold, a next date after a gap. -/
theorem daily_lookup (h : Host) (data : List TaggedReading) (year index : ℕ) (D : String)
    (dc : List (String × Consumption))
    (hres : dailyConsumption h data year = some dc)
    (hD : (sortedDates data year)[index]? = some D) :
    ∃ dayRecords first last c,
      sortRecords h (recordsByDate data D) = some dayRecords ∧
      dayRecords.head? = some first ∧ dayRecords.getLast? = some last ∧
      dc.lookup D = some c ∧
      ((sortedDates data year)[index + 1]? = none → c = sameDay dayRecords first last) ∧
      ∀ N, (sortedDates data year)[index + 1]? = some N →
        ∃ nextRecords nextFirst,
          sortRecords h (recordsByDate data N) = some nextRecords ∧
          nextRecords.head? = some nextFirst ∧
          c = if (match dayDiff h D N with
                | some d => decide (d ≤ CONTINUOUS_DAY_THRESHOLD)
                | none => false) = true then dropBetween first nextFirst
              else sameDay dayRecords first last := by
  have hDmem : D ∈ sortedDates data year := List.getElem?_mem hD
  have hnot := take_not_mem_of_nodup _ (nodup_sortedDates data year) index D hD
  obtain ⟨e, he, hlook⟩ := collectDaily_lookup h data (sortedDates data year)
    (sortedDates data year) 0 dc hres index D hD hnot
  rw [Nat.zero_add] at he
  unfold consumptionOfDate at he
  cases hsD : sortRecords h (recordsByDate data D) with
  | none => rw [hsD] at he; simp at he
  | some dayRecords =>
    obtain ⟨first, hfirst⟩ := sortRecords_head h _ dayRecords hsD
      (recordsByDate_ne_nil data year D hDmem)
    have hlast : ∃ lastRecord, dayRecords.getLast? = some lastRecord := by
      cases dayRecords with
      | nil => simp at hfirst
      | cons a l => exact ⟨_, List.getLast?_eq_getLast (a :: l) (List.cons_ne_nil a l)⟩
    obtain ⟨last, hlastRecord⟩ := hlast
    rw [hsD] at he
    simp only [hfirst, hlastRecord] at he
    cases hnx : (sortedDates data year)[index + 1]? with
    | none =>
      have hlen : ¬ index < (sortedDates data year).length - 1 := by
        have := List.getElem?_eq_none_iff.mp hnx
        omega
      simp only [nextDayFirstRecord, hlen, if_false] at he
      refine ⟨dayRecords, first, last, sameDay dayRecords first last, rfl, hfirst,
        hlastRecord, hlook _ (Option.some.inj he).symm, fun _ => rfl, fun N hN => ?_⟩
      cases hN
    | some N =>
      have hNmem : N ∈ sortedDates data year := List.getElem?_mem hnx
      obtain ⟨hi1, _⟩ := List.getElem?_eq_some_iff.mp hnx
      have hget : (sortedDates data year).getD (index + 1) "" = N := by
        rw [List.getD_eq_getElem?_getD, hnx]
        rfl
      cases hsN : sortRecords h (recordsByDate data N) with
      | none =>
        simp only [nextDayFirstRecord, hnx, hsN, Option.map_none'] at he
        rw [if_pos (by omega)] at he
        simp at he
      | some nextRecords =>
        obtain ⟨nextFirst, hnextFirst⟩ := sortRecords_head h _ nextRecords hsN
          (recordsByDate_ne_nil data year N hNmem)
        simp only [nextDayFirstRecord, hnx, hsN, Option.map_some', hnextFirst, hget] at he
        rw [if_pos (by omega)] at he
        simp only at he
        by_cases hcont : (match dayDiff h D N with
              | some d => decide (d ≤ CONTINUOUS_DAY_THRESHOLD)
              | none => false) = true
        · rw [if_pos hcont] at he
          refine ⟨dayRecords, first, last, dropBetween first nextFirst, rfl, hfirst,
            hlastRecord, hlook _ (Option.some.inj he).symm, (fun hc => by cases hc),
            fun N' hN' => ?_⟩
          cases hN'
          exact ⟨nextRecords, nextFirst, hsN, hnextFirst, by rw [if_pos hcont]⟩
        · rw [if_neg hcont] at he
          refine ⟨dayRecords, first, last, sameDay dayRecords first last, rfl, hfirst,
            hlastRecord, hlook _ (Option.some.inj he).symm, (fun hc => by cases hc),
            fun N' hN' => ?_⟩
          cases hN'
          exact ⟨nextRecords, nextFirst, hsN, hnextFirst, by rw [if_neg hcont]⟩


/-- After a gap of more than 1.5 days, or on the last date, the entry of the date is the
same-day value. -/
theorem daily_lookup_sameDay (h : Host) (data : List TaggedReading) (year index : ℕ)
    (D : String) (dc : List (String × Consumption))
    (hres : dailyConsumption h data year = some dc)
    (hD : (sortedDates data year)[index]? = some D)
    (hgap : ∀ N, (sortedDates data year)[index + 1]? = some N →
      ∃ c n, h.dateParse D = some c ∧ h.dateParse N = some n ∧
        CONTINUOUS_DAY_THRESHOLD < ((n - c : ℤ) : ℚ) / (ONE_DAY_MS : ℚ)) :
    ∃ dayRecords first last,
      sortRecords h (recordsByDate data D) = some dayRecords ∧
      dayRecords.head? = some first ∧ dayRecords.getLast? = some last ∧
      dc.lookup D = some (sameDay dayRecords first last) := by
  obtain ⟨dayRecords, first, last, c, hs, hf, hl, hlook, hnone, hsome⟩ :=
    daily_lookup h data year index D dc hres hD
  refine ⟨dayRecords, first, last, hs, hf, hl, ?_⟩
  rw [hlook]
  congr 1
  cases hnx : (sortedDates data year)[index + 1]? with
  | none => exact hnone hnx
  | some N =>
    obtain ⟨_, _, _, _, hc⟩ := hsome N hnx
    obtain ⟨c0, n0, hc0, hn0, hlt⟩ := hgap N hnx
    have hdiff : dayDiff h D N = some (((n0 - c0 : ℤ) : ℚ) / (ONE_DAY_MS : ℚ)) := by
      simp only [dayDiff, hc0, hn0]
    rw [hc, hdiff]
    simp only [decide_eq_true_eq, not_le.mpr hlt, if_false]

/-- C11. Gap or last date: for a date `D` of `sortedDates` that is the last one, or whose
next date is more than 1.5 days later, the entry of `D` in `dailyConsumption` is, per
field, `max 0` of the balance of the earliest record of `D` minus the balance of the
latest record of `D` (records of the next date play no part), and it is `0` for both
fields when `D` has a single record. -/
theorem gap_day_consumption (h : Host) (data : List TaggedReading) (year index : ℕ)
    (D : String) (dc : List (String × Consumption))
    (hres : dailyConsumption h data year = some dc)
    (hD : (sortedDates data year)[index]? = some D)
    (hgap : ∀ N, (sortedDates data year)[index + 1]? = some N →
      ∃ c n, h.dateParse D = some c ∧ h.dateParse N = some n ∧
        CONTINUOUS_DAY_THRESHOLD < ((n - c : ℤ) : ℚ) / (ONE_DAY_MS : ℚ)) :
    ∃ first last, Earliest h data D first ∧ Latest h data D last ∧
      dc.lookup D =
        some ⟨max 0 (orZero first.light_Balance - orZero last.light_Balance),
          max 0 (orZero first.ac_Balance - orZero last.ac_Balance)⟩ ∧
      ((recordsByDate data D).length < 2 → dc.lookup D = some ⟨0, 0⟩) := by
  obtain ⟨dayRecords, first, last, hs, hf, hl, hlook⟩ :=
    daily_lookup_sameDay h data year index D dc hres hD hgap
  have hsame := sameDay_eq_dropBetween dayRecords first last hf hl
  have hlen : dayRecords.length = (recordsByDate data D).length :=
    (sortRecords_perm h _ dayRecords hs).length_eq
  refine ⟨first, last, earliest_of_sortRecords h data D dayRecords first hs hf,
    latest_of_sortRecords h data D dayRecords last hs hl, ?_, fun hlt => ?_⟩
  · rw [hlook, hsame.1]
    rfl
  · rw [hlook, hsame.2 (by omega)]

theorem sortedDates_sampleThreeDays :
    sortedDates sampleThreeDays 2025 = ["2025-06-01", "2025-06-02", "2025-06-10"] := by
  decide

theorem dailyConsumption_sampleThreeDays_isSome :
    ∃ dc, dailyConsumption sampleHost sampleThreeDays 2025 = some dc :=
  dailyConsumption_isSome sampleHost sampleThreeDays 2025 (by decide)

/-- C11, at the input of the specification: readings 06-01: 80, 06-02: 70, 06-10: 40.
The next date after 06-02 is 8 days later, so the consumption of 06-02 is `0`, not
`70 - 40 = 30`. -/
theorem gap_day_consumption_witness :
    ∃ dc, dailyConsumption sampleHost sampleThreeDays 2025 = some dc ∧
      dc.lookup "2025-06-02" = some ⟨0, 0⟩ := by
  obtain ⟨dc, hdc⟩ := dailyConsumption_sampleThreeDays_isSome
  obtain ⟨_, _, _, _, _, hzero⟩ :=
    gap_day_consumption sampleHost sampleThreeDays 2025 1 "2025-06-02" dc hdc
      (by rw [sortedDates_sampleThreeDays]; rfl)
      (by
        intro N hN
        rw [sortedDates_sampleThreeDays] at hN
        have hN' : N = "2025-06-10" := (Option.some.inj hN).symm
        subst hN'
        exact ⟨1748822400000, 1749513600000, by decide, by decide,
          by norm_num [ONE_DAY_MS, CONTINUOUS_DAY_THRESHOLD]⟩)
  exact ⟨dc, hdc, hzero (by decide)⟩


/-- C12, as stated, fails: in the readings 06-01: 80, 06-02: 70, 06-10: 40 the date 06-01
has a single record, yet its light consumption is `80 - 70 = 10`, because the next date
is one day later and the cross-day rule applies before the number of records is
looked at. -/
theorem single_record_day_counterexample :
    (recordsByDate sampleThreeDays "2025-06-01").length < 2 ∧
      ∃ dc, dailyConsumption sampleHost sampleThreeDays 2025 = some dc ∧
        dc.lookup "2025-06-01" = some ⟨10, 0⟩ ∧
        dc.lookup "2025-06-01" ≠ some ⟨0, 0⟩ := by
  refine ⟨by decide, ?_⟩
  obtain ⟨dc, hdc⟩ := dailyConsumption_sampleThreeDays_isSome
  obtain ⟨dayRecords, first, last, c, hs, hf, _, hlook, _, hsome⟩ :=
    daily_lookup sampleHost sampleThreeDays 2025 0 "2025-06-01" dc hdc
      (by rw [sortedDates_sampleThreeDays]; rfl)
  obtain ⟨nextRecords, nextFirst, hsN, hnf, hc⟩ := hsome "2025-06-02"
    (by rw [sortedDates_sampleThreeDays]; rfl)
  have h1 : sortRecords sampleHost (recordsByDate sampleThreeDays "2025-06-01") =
      some [⟨⟨"06-01", some 80, none⟩, "2025-06"⟩] := by decide
  have h2 : sortRecords sampleHost (recordsByDate sampleThreeDays "2025-06-02") =
      some [⟨⟨"06-02", some 70, none⟩, "2025-06"⟩] := by decide
  rw [h1] at hs
  rw [h2] at hsN
  have hd := Option.some.inj hs
  have hdN := Option.some.inj hsN
  subst hd
  subst hdN
  simp only [List.head?_cons, Option.some.injEq] at hf hnf
  subst hf
  subst hnf
  have hdiff : dayDiff sampleHost "2025-06-01" "2025-06-02" =
      some (((1748822400000 - 1748736000000 : ℤ) : ℚ) / (ONE_DAY_MS : ℚ)) := by
    have e1 : sampleHost.dateParse "2025-06-01" = some 1748736000000 := by decide
    have e2 : sampleHost.dateParse "2025-06-02" = some 1748822400000 := by decide
    simp only [dayDiff, e1, e2]
  have hcont : ((1748822400000 - 1748736000000 : ℤ) : ℚ) / (ONE_DAY_MS : ℚ) ≤
      CONTINUOUS_DAY_THRESHOLD := by
    norm_num [ONE_DAY_MS, CONTINUOUS_DAY_THRESHOLD]
  rw [hdiff] at hc
  simp only [decide_eq_true_eq, hcont, if_true] at hc
  have hval : c = ⟨10, 0⟩ := by
    rw [hc]
    norm_num [dropBetween, orZero]
  rw [hval] at hlook
  refine ⟨dc, hdc, hlook, ?_⟩
  rw [hlook]
  intro hcontra
  have := congrArg Consumption.light (Option.some.inj hcontra)
  norm_num at this

/-- C12, amended. A date with fewer than 2 records that is the last date of
`sortedDates`, or whose next date is more than 1.5 days later, has a consumption of `0`
for both fields. -/
theorem single_record_day_zero (h : Host) (data : List TaggedReading) (year index : ℕ)
    (D : String) (dc : List (String × Consumption))
    (hres : dailyConsumption h data year = some dc)
    (hD : (sortedDates data year)[index]? = some D)
    (hsingle : (recordsByDate data D).length < 2)
    (hgap : ∀ N, (sortedDates data year)[index + 1]? = some N →
      ∃ c n, h.dateParse D = some c ∧ h.dateParse N = some n ∧
        CONTINUOUS_DAY_THRESHOLD < ((n - c : ℤ) : ℚ) / (ONE_DAY_MS : ℚ)) :
    dc.lookup D = some ⟨0, 0⟩ := by
  obtain ⟨dayRecords, first, last, hs, hf, hl, hlook⟩ :=
    daily_lookup_sameDay h data year index D dc hres hD hgap
  have hlen : dayRecords.length = (recordsByDate data D).length :=
    (sortRecords_perm h _ dayRecords hs).length_eq
  rw [hlook, (sameDay_eq_dropBetween dayRecords first last hf hl).2 (by omega)]

/-- C12 amended, at a concrete input: 06-10 is the last date of the readings 06-01: 80,
06-02: 70, 06-10: 40 and has one record; its consumption is `0`. -/
theorem single_record_day_zero_witness :
    ∃ dc, dailyConsumption sampleHost sampleThreeDays 2025 = some dc ∧
      dc.lookup "2025-06-10" = some ⟨0, 0⟩ := by
  obtain ⟨dc, hdc⟩ := dailyConsumption_sampleThreeDays_isSome
  exact ⟨dc, hdc,
    single_record_day_zero sampleHost sampleThreeDays 2025 2 "2025-06-10" dc hdc
      (by rw [sortedDates_sampleThreeDays]; rfl) (by decide)
      (by
        intro N hN
        rw [sortedDates_sampleThreeDays] at hN
        cases hN)⟩


/-! ## `calculateYearlyStats`: the entries of the dates with readings -/

theorem consumptionOfDate_entry (h : Host) (data : List TaggedReading) (dates : List String)
    (k : ℕ) (D : String) (e : Option Consumption)
    (he : consumptionOfDate h data dates k D = some e) (hne : recordsByDate data D ≠ []) :
    ∃ c, e = some c := by
  unfold consumptionOfDate at he
  cases hsD : sortRecords h (recordsByDate data D) with
  | none => rw [hsD] at he; simp at he
  | some dayRecords =>
    obtain ⟨first, hfirst⟩ := sortRecords_head h _ dayRecords hsD hne
    have hlast : ∃ lastRecord, dayRecords.getLast? = some lastRecord := by
      cases dayRecords with
      | nil => simp at hfirst
      | cons a l => exact ⟨_, List.getLast?_eq_getLast (a :: l) (List.cons_ne_nil a l)⟩
    obtain ⟨last, hlastRecord⟩ := hlast
    rw [hsD] at he
    simp only [hfirst, hlastRecord] at he
    cases hnx : nextDayFirstRecord h data dates k with
    | none => rw [hnx] at he; simp at he
    | some v =>
      rw [hnx] at he
      cases v with
      | none => exact ⟨_, (Option.some.inj he).symm⟩
      | some nextFirst =>
        simp only at he
        split at he
        · exact ⟨_, (Option.some.inj he).symm⟩
        · exact ⟨_, (Option.some.inj he).symm⟩

/-- Every date of the list with at least one record gets an entry, in order. -/
theorem collectDaily_keys (h : Host) (data : List TaggedReading) (dates : List String) :
    ∀ (rest : List String) (k : ℕ) (dc : List (String × Consumption)),
      collectDaily h data dates k rest = some dc →
        (∀ D ∈ rest, recordsByDate data D ≠ []) → dc.map Prod.fst = rest := by
  intro rest
  induction rest with
  | nil =>
    intro k dc hdc _
    simp only [collectDaily, Option.some.injEq] at hdc
    subst hdc
    rfl
  | cons d rest ih =>
    intro k dc hdc hne
    unfold collectDaily at hdc
    cases he : consumptionOfDate h data dates k d with
    | none => rw [he] at hdc; simp at hdc
    | some entry =>
      cases hr : collectDaily h data dates (k + 1) rest with
      | none => rw [he, hr] at hdc; simp at hdc
      | some entries =>
        rw [he, hr] at hdc
        simp only [Option.some.injEq] at hdc
        obtain ⟨c, hc⟩ := consumptionOfDate_entry h data dates k d entry he
          (hne d (List.mem_cons_self d rest))
        subst hc
        subst hdc
        simp only [List.map_cons]
        rw [ih (k + 1) entries hr (fun D hD => hne D (List.mem_cons_of_mem d hD))]

/-- The keys of `dailyConsumption` after the first loop are exactly the dates of
`sortedDates`: the dates of the target year that have at least one reading. -/
theorem dailyConsumption_keys (h : Host) (data : List TaggedReading) (year : ℕ)
    (dc : List (String × Consumption)) (hres : dailyConsumption h data year = some dc) :
    dc.map Prod.fst = sortedDates data year :=
  collectDaily_keys h data _ _ 0 dc hres (fun D hD => recordsByDate_ne_nil data year D hD)

theorem lookup_of_mem_nodup {β : Type} :
    ∀ (l : List (String × β)) (k : String) (v : β), (l.map Prod.fst).Nodup → (k, v) ∈ l →
      l.lookup k = some v := by
  intro l
  induction l with
  | nil => intro k v _ hm; simp at hm
  | cons p l ih =>
    intro k v hn hm
    obtain ⟨pk, pv⟩ := p
    simp only [List.map_cons, List.nodup_cons] at hn
    rcases List.mem_cons.mp hm with heq | hl
    · cases heq
      simp [List.lookup]
    · have hne : (k == pk) = false := by
        rw [beq_eq_false_iff_ne]
        intro hk
        subst hk
        exact hn.1 (List.mem_map_of_mem Prod.fst hl)
      simp only [List.lookup, hne]
      exact ih k v hn.2 hl

theorem mem_keys_of_lookup {β : Type} (l : List (String × β)) (k : String) (v : β)
    (hl : l.lookup k = some v) : (k, v) ∈ l := by
  obtain ⟨l₁, l₂, rfl, _⟩ := List.lookup_eq_some_iff.mp hl
  simp

theorem lookup_eq_none_iff_not_mem {β : Type} (l : List (String × β)) (k : String) :
    l.lookup k = none ↔ k ∉ l.map Prod.fst := by
  rw [List.lookup_eq_none_iff]
  constructor
  · intro hall hmem
    obtain ⟨p, hp, hpk⟩ := List.mem_map.mp hmem
    have := hall p hp
    rw [hpk] at this
    simp at this
  · intro hnot p hp
    rw [bne_iff_ne]
    intro hk
    exact hnot (hk ▸ List.mem_map_of_mem Prod.fst hp)

theorem dropBetween_nonneg (a b : TaggedReading) :
    0 ≤ (dropBetween a b).light ∧ 0 ≤ (dropBetween a b).ac :=
  ⟨le_max_left _ _, le_max_left _ _⟩

theorem sameDay_nonneg (dayRecords : List TaggedReading) (a b : TaggedReading) :
    0 ≤ (sameDay dayRecords a b).light ∧ 0 ≤ (sameDay dayRecords a b).ac := by
  unfold sameDay
  split
  · exact dropBetween_nonneg a b
  · exact ⟨le_refl _, le_refl _⟩

/-- Every entry computed from readings is at least `0` in both fields. -/
theorem dailyConsumption_nonneg (h : Host) (data : List TaggedReading) (year : ℕ)
    (dc : List (String × Consumption)) (hres : dailyConsumption h data year = some dc) :
    ∀ e ∈ dc, 0 ≤ e.2.light ∧ 0 ≤ e.2.ac := by
  intro e he
  have hkeys := dailyConsumption_keys h data year dc hres
  have hmem : e.1 ∈ sortedDates data year := by
    rw [← hkeys]
    exact List.mem_map_of_mem Prod.fst he
  obtain ⟨index, hi, hidx⟩ := List.getElem_of_mem hmem
  have hD : (sortedDates data year)[index]? = some e.1 := by
    rw [List.getElem?_eq_getElem hi, hidx]
  obtain ⟨dayRecords, first, last, c, _, _, _, hlook, hnone, hsome⟩ :=
    daily_lookup h data year index e.1 dc hres hD
  have hlook' : dc.lookup e.1 = some e.2 :=
    lookup_of_mem_nodup dc e.1 e.2 (by rw [hkeys]; exact nodup_sortedDates data year) he
  rw [hlook'] at hlook
  have hc : e.2 = c := Option.some.inj hlook
  rw [hc]
  cases hnx : (sortedDates data year)[index + 1]? with
  | none =>
    rw [hnone hnx]
    exact sameDay_nonneg _ _ _
  | some N =>
    obtain ⟨_, nextFirst, _, _, hcN⟩ := hsome N hnx
    rw [hcN]
    split
    · exact dropBetween_nonneg _ _
    · exact sameDay_nonneg _ _ _


/-! ## `calculateYearlyStats`: gap filling -/

theorem clamp_bounds (value lo hi : ℚ) (hlohi : lo ≤ hi) :
    lo ≤ clamp value lo hi ∧ clamp value lo hi ≤ hi :=
  ⟨le_max_left _ _, max_le hlohi (min_le_left _ _)⟩

/-- The loop body of the gap filling either leaves the object alone (the date has an
entry) or appends one entry for the date, with both values clamped to `[0, 50]`. -/
theorem fillDate_cases (existingDates : List String) (avgLight avgAc : ℚ)
    (daily : List (String × Consumption)) (d : String) :
    (d ∈ daily.map Prod.fst ∧ fillDate existingDates avgLight avgAc daily d = daily) ∨
      (d ∉ daily.map Prod.fst ∧
        ∃ c, fillDate existingDates avgLight avgAc daily d = daily ++ [(d, c)] ∧
          WithinDailyRange c) := by
  unfold fillDate
  cases hl : daily.lookup d with
  | some c =>
    left
    exact ⟨List.mem_map_of_mem Prod.fst (mem_keys_of_lookup daily d c hl), rfl⟩
  | none =>
    right
    refine ⟨(lookup_eq_none_iff_not_mem daily d).mp hl, _, rfl, ?_⟩
    have h50 : (0 : ℚ) ≤ MAX_DAILY_CONSUMPTION := by norm_num [MAX_DAILY_CONSUMPTION]
    exact ⟨(clamp_bounds _ 0 _ h50).1, (clamp_bounds _ 0 _ h50).2,
      (clamp_bounds _ 0 _ h50).1, (clamp_bounds _ 0 _ h50).2⟩

/-- The filling loop appends entries to the object: the appended entries are for dates
of `allDates` without entry, they are clamped, and afterwards every date of `allDates`
has an entry. -/
theorem foldl_fillDate_spec (existingDates : List String) (avgLight avgAc : ℚ) :
    ∀ (allDates : List String) (daily : List (String × Consumption)),
      ∃ filled,
        allDates.foldl (fillDate existingDates avgLight avgAc) daily = daily ++ filled ∧
        (∀ e ∈ filled, e.1 ∈ allDates ∧ e.1 ∉ daily.map Prod.fst ∧ WithinDailyRange e.2) ∧
        (∀ d ∈ allDates, d ∈ (daily ++ filled).map Prod.fst) ∧
        ((daily.map Prod.fst).Nodup → ((daily ++ filled).map Prod.fst).Nodup) := by
  intro allDates
  induction allDates with
  | nil =>
    intro daily
    exact ⟨[], by simp, by simp, by simp, by simp⟩
  | cons d rest ih =>
    intro daily
    rw [List.foldl_cons]
    rcases fillDate_cases existingDates avgLight avgAc daily d with ⟨hmem, heq⟩ | ⟨hnot, c, heq, hc⟩
    · rw [heq]
      obtain ⟨filled, hf, hprop, hall, hnd⟩ := ih daily
      refine ⟨filled, hf, fun e he => ?_, fun x hx => ?_, hnd⟩
      · obtain ⟨h1, h2, h3⟩ := hprop e he
        exact ⟨List.mem_cons_of_mem d h1, h2, h3⟩
      · rcases List.mem_cons.mp hx with hxd | hxr
        · rw [hxd, List.map_append, List.mem_append]
          exact Or.inl hmem
        · exact hall x hxr
    · rw [heq]
      obtain ⟨filled, hf, hprop, hall, hnd⟩ := ih (daily ++ [(d, c)])
      refine ⟨(d, c) :: filled, ?_, fun e he => ?_, fun x hx => ?_, fun hn => ?_⟩
      · rw [hf, List.append_assoc, List.singleton_append]
      · rcases List.mem_cons.mp he with hed | hef
        · rw [hed]
          exact ⟨List.mem_cons_self d rest, hnot, hc⟩
        · obtain ⟨h1, h2, h3⟩ := hprop e hef
          refine ⟨List.mem_cons_of_mem d h1, fun hin => h2 ?_, h3⟩
          rw [List.map_append, List.mem_append]
          exact Or.inl hin
      · have hassoc : daily ++ (d, c) :: filled = (daily ++ [(d, c)]) ++ filled := by
          rw [List.append_assoc, List.singleton_append]
        rw [hassoc]
        rcases List.mem_cons.mp hx with hxd | hxr
        · rw [hxd, List.map_append, List.mem_append]
          left
          simp
        · exact hall x hxr
      · have hassoc : daily ++ (d, c) :: filled = (daily ++ [(d, c)]) ++ filled := by
          rw [List.append_assoc, List.singleton_append]
        rw [hassoc]
        apply hnd
        rw [List.map_append, List.nodup_append]
        refine ⟨hn, by simp, ?_⟩
        intro a ha hb
        simp only [List.map_cons, List.map_nil, List.mem_singleton] at hb
        exact hnot (hb ▸ ha)


/-- The gap filling only appends entries: the object afterwards is the object before
followed by the filled entries, whose dates had no entry and whose values are
clamped. -/
theorem fillGaps_spec (h : Host) (daily out : List (String × Consumption))
    (hfill : fillGaps h daily = some out) :
    ∃ filled, out = daily ++ filled ∧
      (∀ e ∈ filled, e.1 ∉ daily.map Prod.fst ∧ WithinDailyRange e.2) ∧
      ((daily.map Prod.fst).Nodup → (out.map Prod.fst).Nodup) := by
  unfold fillGaps at hfill
  simp only at hfill
  split at hfill
  · split at hfill
    · cases hfill
    · rename_i allDates _
      obtain ⟨filled, hf, hprop, _, hnd⟩ := foldl_fillDate_spec
        ((daily.map Prod.fst).insertionSort (fun a b => jsStringLe a b = true))
        (averageOf (daily.map (fun e => e.2.light))) (averageOf (daily.map (fun e => e.2.ac)))
        allDates daily
      rw [hf] at hfill
      have hout := (Option.some.inj hfill).symm
      subst hout
      exact ⟨filled, rfl, fun e he => ⟨(hprop e he).2.1, (hprop e he).2.2⟩, hnd⟩
  · have hout := (Option.some.inj hfill).symm
    subst hout
    exact ⟨[], by simp, by simp, by simp⟩

/-- What `calculateYearlyStats` leaves behind, in terms of its three phases: the entries
of the dates with readings, the totals and the peak computed from them, and the entries
appended by the gap filling. -/
theorem calculateYearlyStats_spec (h : Host) (data : List TaggedReading) (year : ℕ)
    (ys : YearlyStats) (hres : calculateYearlyStats h data year = some ys) :
    ∃ daily filled,
      dailyConsumption h data year = some daily ∧
      fillGaps h daily = some (daily ++ filled) ∧
      ys.dailyConsumption = daily ++ filled ∧
      (∀ e ∈ filled, e.1 ∉ sortedDates data year ∧ WithinDailyRange e.2) ∧
      (ys.dailyConsumption.map Prod.fst).Nodup ∧
      ys.totalLight = (computeTotals daily).totalLight ∧
      ys.totalAc = (computeTotals daily).totalAc ∧
      ys.peakDay = (computeTotals daily).peakDay ∧
      ys.peakValue = (computeTotals daily).peakValue := by
  unfold calculateYearlyStats at hres
  cases hd : dailyConsumption h data year with
  | none => rw [hd] at hres; simp at hres
  | some daily =>
    rw [hd] at hres
    simp only at hres
    cases hfill : fillGaps h daily with
    | none => rw [hfill] at hres; simp at hres
    | some out =>
      rw [hfill] at hres
      simp only [Option.some.injEq] at hres
      obtain ⟨filled, hout, hprop, hnd⟩ := fillGaps_spec h daily out hfill
      have hkeys := dailyConsumption_keys h data year daily hd
      subst hres
      subst hout
      refine ⟨daily, filled, rfl, hfill, rfl, fun e he => ?_, ?_, rfl, rfl, rfl, rfl⟩
      · rw [← hkeys]
        exact hprop e he
      · exact hnd (by rw [hkeys]; exact nodup_sortedDates data year)


/-! ### The date loop ends when `setDate` moves the date forward -/

theorem datesFrom_isSome (h : Host) (endDate : ℤ) (hstep : ∀ t, t < h.nextDay t) :
    ∀ (fuel : ℕ) (d : ℤ), (endDate < d ∨ (endDate - d).toNat + 1 ≤ fuel) →
      ∃ l, datesFrom h endDate fuel d = some l := by
  intro fuel
  induction fuel with
  | zero =>
    intro d hd
    have hlt : endDate < d := by
      rcases hd with hd | hd
      · exact hd
      · omega
    exact ⟨[], by simp [datesFrom, not_le.mpr hlt]⟩
  | succ n ih =>
    intro d hd
    unfold datesFrom
    by_cases hle : d ≤ endDate
    · rw [if_pos hle]
      have hnext := hstep d
      obtain ⟨l, hl⟩ := ih (h.nextDay d) (by
        rcases hd with hd | hd
        · omega
        · by_cases hn : endDate < h.nextDay d
          · exact Or.inl hn
          · right
            omega)
      exact ⟨_, by rw [hl]; rfl⟩
    · rw [if_neg hle]
      exact ⟨[], rfl⟩

theorem allDatesInRange_isSome (h : Host) (hstep : ∀ t, t < h.nextDay t)
    (firstDate lastDate : String) : ∃ l, allDatesInRange h firstDate lastDate = some l := by
  unfold allDatesInRange
  cases h.dateParse firstDate with
  | none => exact ⟨[], rfl⟩
  | some startDate =>
    cases h.dateParse lastDate with
    | none => exact ⟨[], rfl⟩
    | some endDate =>
      exact datesFrom_isSome h endDate hstep _ startDate (Or.inr (le_refl _))

theorem fillGaps_isSome (h : Host) (hstep : ∀ t, t < h.nextDay t)
    (daily : List (String × Consumption)) : ∃ out, fillGaps h daily = some out := by
  unfold fillGaps
  simp only
  split
  · rename_i hlen
    obtain ⟨l, hl⟩ := allDatesInRange_isSome h hstep
      (((daily.map Prod.fst).insertionSort (fun a b => jsStringLe a b = true)).headD "")
      (((daily.map Prod.fst).insertionSort (fun a b => jsStringLe a b = true)).getLastD "")
    rw [hl]
    exact ⟨_, rfl⟩
  · exact ⟨_, rfl⟩

/-- The function `calculateYearlyStats` completes when no record has a time without a
hyphen and `setDate(getDate() + 1)` moves a date forward. -/
theorem calculateYearlyStats_isSome (h : Host) (data : List TaggedReading) (year : ℕ)
    (hno : ∀ r ∈ data, parseTimestamp h r ≠ none) (hstep : ∀ t, t < h.nextDay t) :
    ∃ ys, calculateYearlyStats h data year = some ys := by
  obtain ⟨daily, hd⟩ := dailyConsumption_isSome h data year hno
  obtain ⟨out, hout⟩ := fillGaps_isSome h hstep daily
  unfold calculateYearlyStats
  rw [hd]
  simp only [hout]
  exact ⟨_, rfl⟩

theorem sampleHost_nextDay_lt : ∀ t, t < sampleHost.nextDay t := by
  intro t
  simp only [sampleHost, ONE_DAY_MS]
  omega


/-! ### The dates of the object after the gap filling -/

/-- On a host whose `setDate(getDate() + 1)` adds 24 hours, the date loop pushes the
ISO dates of the instants `d`, `d + 1 day`, ... up to `endDate`. -/
theorem datesFrom_mem (h : Host) (endDate : ℤ)
    (hstep : ∀ t, h.nextDay t = t + ONE_DAY_MS) :
    ∀ (fuel : ℕ) (d : ℤ) (l : List String), datesFrom h endDate fuel d = some l →
      ∀ x, x ∈ l ↔
        ∃ k : ℕ, d + (k : ℤ) * ONE_DAY_MS ≤ endDate ∧
          x = h.toISODate (d + (k : ℤ) * ONE_DAY_MS) := by
  have hday : (0 : ℤ) < ONE_DAY_MS := by norm_num [ONE_DAY_MS]
  have hempty : ∀ d : ℤ, ¬ d ≤ endDate → ∀ x,
      x ∈ ([] : List String) ↔
        ∃ k : ℕ, d + (k : ℤ) * ONE_DAY_MS ≤ endDate ∧
          x = h.toISODate (d + (k : ℤ) * ONE_DAY_MS) := by
    intro d hd x
    constructor
    · intro hx; simp at hx
    · rintro ⟨k, hk, _⟩
      have : (0 : ℤ) ≤ (k : ℤ) * ONE_DAY_MS :=
        mul_nonneg (Int.ofNat_nonneg k) (le_of_lt hday)
      exact absurd (by linarith) hd
  intro fuel
  induction fuel with
  | zero =>
    intro d l hl x
    unfold datesFrom at hl
    by_cases hle : d ≤ endDate
    · rw [if_pos hle] at hl; cases hl
    · rw [if_neg hle] at hl
      cases hl
      exact hempty d hle x
  | succ n ih =>
    intro d l hl x
    unfold datesFrom at hl
    by_cases hle : d ≤ endDate
    · rw [if_pos hle] at hl
      cases hrest : datesFrom h endDate n (h.nextDay d) with
      | none => rw [hrest] at hl; simp at hl
      | some rest =>
        rw [hrest] at hl
        simp only [Option.map_some', Option.some.injEq] at hl
        subst hl
        rw [hstep d] at hrest
        rw [List.mem_cons, ih _ rest hrest x]
        constructor
        · rintro (hx | ⟨k, hk, hxk⟩)
          · exact ⟨0, by simpa using hle, by simpa using hx⟩
          · refine ⟨k + 1, ?_, ?_⟩
            · push_cast
              linarith
            · rw [hxk]
              congr 1
              push_cast
              ring
        · rintro ⟨k, hk, hxk⟩
          cases k with
          | zero => left; simpa using hxk
          | succ k' =>
            right
            refine ⟨k', ?_, ?_⟩
            · push_cast at hk
              linarith
            · rw [hxk]
              congr 1
              push_cast
              ring
    · rw [if_neg hle] at hl
      cases hl
      exact hempty d hle x

/-- The dates of the object after the gap filling: with fewer than 2 dates nothing
changes; else the dates are the dates before together with the dates of
`allDatesInRange` between the first and the last of them. -/
theorem fillGaps_keys (h : Host) (daily out : List (String × Consumption))
    (hsorted : (daily.map Prod.fst).Sorted (fun a b => jsStringLe a b = true))
    (hfill : fillGaps h daily = some out) :
    (daily.length < 2 → out = daily) ∧
      (2 ≤ daily.length →
        ∃ allDates,
          allDatesInRange h ((daily.map Prod.fst).headD "") ((daily.map Prod.fst).getLastD "") =
            some allDates ∧
          ∀ x, x ∈ out.map Prod.fst ↔ x ∈ daily.map Prod.fst ∨ x ∈ allDates) := by
  have hsame : (daily.map Prod.fst).insertionSort (fun a b => jsStringLe a b = true) =
      daily.map Prod.fst := List.Sorted.insertionSort_eq hsorted
  unfold fillGaps at hfill
  simp only [hsame, List.length_map] at hfill
  constructor
  · intro hlt
    rw [if_neg (by omega)] at hfill
    exact (Option.some.inj hfill).symm
  · intro hge
    rw [if_pos (by omega)] at hfill
    cases hall : allDatesInRange h ((daily.map Prod.fst).headD "")
        ((daily.map Prod.fst).getLastD "") with
    | none => rw [hall] at hfill; simp at hfill
    | some allDates =>
      rw [hall] at hfill
      simp only [Option.some.injEq] at hfill
      obtain ⟨filled, hf, hprop, hcover, _⟩ := foldl_fillDate_spec (daily.map Prod.fst)
        (averageOf (daily.map (fun e => e.2.light))) (averageOf (daily.map (fun e => e.2.ac)))
        allDates daily
      rw [hf] at hfill
      subst hfill
      refine ⟨allDates, rfl, fun x => ?_⟩
      constructor
      · intro hx
        rw [List.map_append, List.mem_append] at hx
        rcases hx with hx | hx
        · exact Or.inl hx
        · obtain ⟨e, he, hex⟩ := List.mem_map.mp hx
          exact Or.inr (hex ▸ (hprop e he).1)
      · rintro (hx | hx)
        · rw [List.map_append, List.mem_append]
          exact Or.inl hx
        · exact hcover x hx


theorem headD_of_head? {α : Type} (l : List α) (a d : α) (hl : l.head? = some a) :
    l.headD d = a := by
  cases l with
  | nil => simp at hl
  | cons b l => simpa using hl

theorem getLastD_of_getLast? {α : Type} (l : List α) (a d : α) (hl : l.getLast? = some a) :
    l.getLastD d = a := by
  cases l with
  | nil => simp at hl
  | cons b l =>
    rw [List.getLast?_cons] at hl
    simp only [List.getLastD_cons]
    rw [List.getLastD_eq_getLast?]
    exact Option.some.inj hl

theorem calculateYearlyStats_sampleYear_isSome :
    ∃ ys, calculateYearlyStats sampleHost sampleYear 2025 = some ys :=
  calculateYearlyStats_isSome sampleHost sampleYear 2025 (by decide) sampleHost_nextDay_lt

/-! ## `calculateYearlyStats`: totals and peak day -/

theorem foldl_totalsStep_totals :
    ∀ (entries : List (String × Consumption)) (acc : Totals),
      (entries.foldl totalsStep acc).totalLight =
          acc.totalLight + (entries.map (fun e => e.2.light)).sum ∧
        (entries.foldl totalsStep acc).totalAc =
          acc.totalAc + (entries.map (fun e => e.2.ac)).sum := by
  intro entries
  induction entries with
  | nil => intro acc; simp
  | cons e rest ih =>
    intro acc
    rw [List.foldl_cons]
    obtain ⟨h1, h2⟩ := ih (totalsStep acc e)
    rw [h1, h2]
    simp only [totalsStep, List.map_cons, List.sum_cons]
    exact ⟨by ring, by ring⟩

/-- The peak after the loop: it is at least the starting value and at least every day
total, and it is either the starting pair or the pair of one of the entries. -/
theorem foldl_totalsStep_peak :
    ∀ (entries : List (String × Consumption)) (acc : Totals),
      acc.peakValue ≤ (entries.foldl totalsStep acc).peakValue ∧
        (∀ e ∈ entries, e.2.light + e.2.ac ≤ (entries.foldl totalsStep acc).peakValue) ∧
        (((entries.foldl totalsStep acc).peakValue = acc.peakValue ∧
            (entries.foldl totalsStep acc).peakDay = acc.peakDay) ∨
          ∃ e ∈ entries, (entries.foldl totalsStep acc).peakDay = e.1 ∧
            (entries.foldl totalsStep acc).peakValue = e.2.light + e.2.ac) := by
  intro entries
  induction entries with
  | nil => intro acc; simp
  | cons e rest ih =>
    intro acc
    rw [List.foldl_cons]
    obtain ⟨h1, h2, h3⟩ := ih (totalsStep acc e)
    have hstep : acc.peakValue ≤ (totalsStep acc e).peakValue ∧
        e.2.light + e.2.ac ≤ (totalsStep acc e).peakValue := by
      simp only [totalsStep]
      by_cases hgt : e.2.light + e.2.ac > acc.peakValue
      · simp only [hgt, if_true]
        exact ⟨le_of_lt hgt, le_refl _⟩
      · simp only [hgt, if_false]
        exact ⟨le_refl _, not_lt.mp hgt⟩
    refine ⟨le_trans hstep.1 h1, fun x hx => ?_, ?_⟩
    · rcases List.mem_cons.mp hx with hxe | hxr
      · rw [hxe]
        exact le_trans hstep.2 h1
      · exact h2 x hxr
    · rcases h3 with ⟨hv, hd⟩ | ⟨x, hx, hd, hv⟩
      · by_cases hgt : e.2.light + e.2.ac > acc.peakValue
        · right
          refine ⟨e, List.mem_cons_self e rest, ?_, ?_⟩
          · rw [hd]
            simp only [totalsStep, hgt, if_true]
          · rw [hv]
            simp only [totalsStep, hgt, if_true]
        · left
          constructor
          · rw [hv]
            simp only [totalsStep, hgt, if_false]
          · rw [hd]
            simp only [totalsStep, hgt, if_false]
      · right
        exact ⟨x, List.mem_cons_of_mem e hx, hd, hv⟩

theorem computeTotals_totals (entries : List (String × Consumption)) :
    (computeTotals entries).totalLight = (entries.map (fun e => e.2.light)).sum ∧
      (computeTotals entries).totalAc = (entries.map (fun e => e.2.ac)).sum := by
  obtain ⟨h1, h2⟩ := foldl_totalsStep_totals entries ⟨0, 0, "", 0⟩
  unfold computeTotals
  rw [h1, h2]
  simp

/-- A sum over the entries of an object with distinct keys is the sum over its keys of
the values found under them. -/
theorem sum_eq_sum_lookup (f : Consumption → ℚ) :
    ∀ (l : List (String × Consumption)), (l.map Prod.fst).Nodup →
      ∀ (extra : List (String × Consumption)),
        (l.map (fun e => f e.2)).sum =
          ((l.map Prod.fst).map
            (fun D => (((l ++ extra).lookup D).map f).getD 0)).sum := by
  intro l hn extra
  rw [List.map_map]
  congr 1
  apply List.map_congr_left
  intro e he
  have hlook : l.lookup e.1 = some e.2 := lookup_of_mem_nodup l e.1 e.2 hn he
  simp only [Function.comp, List.lookup_append, hlook, Option.or_some, Option.map_some',
    Option.getD_some]


/-! ## Claims about the yearly totals, the peak day and the filled values -/

/-- C13. Every entry of `dailyConsumption` left by `calculateYearlyStats`, computed from
readings or filled in for a missing date, has `light ≥ 0` and `ac ≥ 0`; a balance that
does not decrease between the two compared records gives `0`. -/
theorem yearly_entries_nonneg (h : Host) (data : List TaggedReading) (year : ℕ)
    (ys : YearlyStats) (hres : calculateYearlyStats h data year = some ys) :
    (∀ e ∈ ys.dailyConsumption, 0 ≤ e.2.light ∧ 0 ≤ e.2.ac) ∧
      ∀ a b : TaggedReading,
        (orZero a.light_Balance ≤ orZero b.light_Balance → (dropBetween a b).light = 0) ∧
          (orZero a.ac_Balance ≤ orZero b.ac_Balance → (dropBetween a b).ac = 0) := by
  obtain ⟨daily, filled, hd, _, hys, hfilled, _, _, _, _, _⟩ :=
    calculateYearlyStats_spec h data year ys hres
  constructor
  · intro e he
    rw [hys, List.mem_append] at he
    rcases he with he | he
    · exact dailyConsumption_nonneg h data year daily hd e he
    · obtain ⟨_, h1, _, h3, _⟩ := hfilled e he
      exact ⟨h1, h3⟩
  · intro a b
    constructor
    · intro hle
      simp only [dropBetween]
      exact max_eq_left (by linarith)
    · intro hle
      simp only [dropBetween]
      exact max_eq_left (by linarith)

/-- C13, at a concrete input: the readings of 06-01, 06-02 and 06-10, with seven filled
dates in between. -/
theorem yearly_entries_nonneg_witness :
    ∃ ys, calculateYearlyStats sampleHost sampleYear 2025 = some ys ∧
      ∀ e ∈ ys.dailyConsumption, 0 ≤ e.2.light ∧ 0 ≤ e.2.ac := by
  obtain ⟨ys, hys⟩ := calculateYearlyStats_sampleYear_isSome
  exact ⟨ys, hys, (yearly_entries_nonneg sampleHost sampleYear 2025 ys hys).1⟩

/-- C14. The yearly totals are the sums of the per-day consumption over the entries of
the dates of `sortedDates` (the dates of the target year with at least one reading),
also when read from the final object; the entries appended by the gap filling belong to
other dates and are not part of the sums. -/
theorem yearly_totals (h : Host) (data : List TaggedReading) (year : ℕ)
    (ys : YearlyStats) (hres : calculateYearlyStats h data year = some ys) :
    ∃ daily filled,
      dailyConsumption h data year = some daily ∧
      daily.map Prod.fst = sortedDates data year ∧
      ys.dailyConsumption = daily ++ filled ∧
      (∀ e ∈ filled, e.1 ∉ sortedDates data year) ∧
      ys.totalLight = (daily.map (fun e => e.2.light)).sum ∧
      ys.totalAc = (daily.map (fun e => e.2.ac)).sum ∧
      ys.totalLight = ((sortedDates data year).map (fun D =>
        ((ys.dailyConsumption.lookup D).map Consumption.light).getD 0)).sum ∧
      ys.totalAc = ((sortedDates data year).map (fun D =>
        ((ys.dailyConsumption.lookup D).map Consumption.ac).getD 0)).sum := by
  obtain ⟨daily, filled, hd, _, hys, hfilled, _, htl, hta, _, _⟩ :=
    calculateYearlyStats_spec h data year ys hres
  have hkeys := dailyConsumption_keys h data year daily hd
  have hnd : (daily.map Prod.fst).Nodup := by
    rw [hkeys]
    exact nodup_sortedDates data year
  have hsum := computeTotals_totals daily
  refine ⟨daily, filled, hd, hkeys, hys, fun e he => (hfilled e he).1, ?_, ?_, ?_, ?_⟩
  · rw [htl, hsum.1]
  · rw [hta, hsum.2]
  · rw [htl, hsum.1, hys, ← hkeys]
    exact sum_eq_sum_lookup Consumption.light daily hnd filled
  · rw [hta, hsum.2, hys, ← hkeys]
    exact sum_eq_sum_lookup Consumption.ac daily hnd filled

/-- C15. The reported peak value is the greatest day total `light + ac` among the entries
of the dates with readings (`0` when there is none), and when it is positive the
reported peak date is a date with readings whose entry attains it. -/
theorem yearly_peak (h : Host) (data : List TaggedReading) (year : ℕ)
    (ys : YearlyStats) (hres : calculateYearlyStats h data year = some ys) :
    ∃ daily filled,
      dailyConsumption h data year = some daily ∧
      daily.map Prod.fst = sortedDates data year ∧
      ys.dailyConsumption = daily ++ filled ∧
      (∀ e ∈ daily, e.2.light + e.2.ac ≤ ys.peakValue) ∧
      (daily ≠ [] → ∃ e ∈ daily, e.2.light + e.2.ac = ys.peakValue) ∧
      (daily = [] → ys.peakValue = 0) ∧
      (0 < ys.peakValue →
        ys.peakDay ∈ sortedDates data year ∧
          ∃ c, daily.lookup ys.peakDay = some c ∧
            ys.dailyConsumption.lookup ys.peakDay = some c ∧
            c.light + c.ac = ys.peakValue) := by
  obtain ⟨daily, filled, hd, _, hys, _, _, _, _, hpd, hpv⟩ :=
    calculateYearlyStats_spec h data year ys hres
  have hkeys := dailyConsumption_keys h data year daily hd
  have hnd : (daily.map Prod.fst).Nodup := by
    rw [hkeys]
    exact nodup_sortedDates data year
  have hnonneg := dailyConsumption_nonneg h data year daily hd
  obtain ⟨hge, hall, hcase⟩ := foldl_totalsStep_peak daily ⟨0, 0, "", 0⟩
  have hpv' : ys.peakValue = (daily.foldl totalsStep ⟨0, 0, "", 0⟩).peakValue := hpv
  have hpd' : ys.peakDay = (daily.foldl totalsStep ⟨0, 0, "", 0⟩).peakDay := hpd
  rw [← hpv'] at hge hall hcase
  rw [← hpd'] at hcase
  simp only at hge hcase
  refine ⟨daily, filled, hd, hkeys, hys, hall, fun hne => ?_, fun hnil => ?_, fun hpos => ?_⟩
  · rcases hcase with ⟨hv, _⟩ | ⟨e, he, _, hv⟩
    · obtain ⟨e, he⟩ := List.exists_mem_of_ne_nil daily hne
      refine ⟨e, he, ?_⟩
      have h1 := hall e he
      have h2 := hnonneg e he
      rw [hv] at h1 ⊢
      linarith [h2.1, h2.2]
    · exact ⟨e, he, hv.symm⟩
  · rcases hcase with ⟨hv, _⟩ | ⟨e, he, _, _⟩
    · exact hv
    · rw [hnil] at he
      simp at he
  · rcases hcase with ⟨hv, _⟩ | ⟨e, he, hday, hv⟩
    · rw [hv] at hpos
      exact absurd hpos (lt_irrefl 0)
    · have hlook : daily.lookup e.1 = some e.2 := lookup_of_mem_nodup daily e.1 e.2 hnd he
      refine ⟨?_, e.2, ?_, ?_, hv.symm⟩
      · rw [hday, ← hkeys]
        exact List.mem_map_of_mem Prod.fst he
      · rw [hday, hlook]
      · rw [hday, hys, List.lookup_append, hlook]
        rfl

/-- C16. Every value that the gap filling writes (an entry of a date that is not in
`sortedDates`) lies in `[0, 50]`, for both fields. -/
theorem filled_values_clamped (h : Host) (data : List TaggedReading) (year : ℕ)
    (ys : YearlyStats) (hres : calculateYearlyStats h data year = some ys) :
    ∀ e ∈ ys.dailyConsumption, e.1 ∉ sortedDates data year →
      0 ≤ e.2.light ∧ e.2.light ≤ 50 ∧ 0 ≤ e.2.ac ∧ e.2.ac ≤ 50 := by
  obtain ⟨daily, filled, hd, _, hys, hfilled, _, _, _, _, _⟩ :=
    calculateYearlyStats_spec h data year ys hres
  have hkeys := dailyConsumption_keys h data year daily hd
  intro e he hnot
  rw [hys, List.mem_append] at he
  rcases he with he | he
  · exact absurd (hkeys ▸ List.mem_map_of_mem Prod.fst he) hnot
  · obtain ⟨_, h1, h2, h3, h4⟩ := hfilled e he
    simp only [MAX_DAILY_CONSUMPTION] at h2 h4
    exact ⟨h1, h2, h3, h4⟩

/-! ## The yearly report at the sample input with a gap -/

theorem sortedDates_sampleGap :
    sortedDates sampleGap 2025 = ["2025-06-01", "2025-06-02", "2025-06-05"] := by decide

theorem sortRecords_sampleGap_01 :
    sortRecords sampleHost (recordsByDate sampleGap "2025-06-01") =
      some [⟨⟨"06-01 08:00", some 80, some 30⟩, "2025-06"⟩] := by decide

theorem sortRecords_sampleGap_02 :
    sortRecords sampleHost (recordsByDate sampleGap "2025-06-02") =
      some [⟨⟨"06-02 08:00", some 70, some 30⟩, "2025-06"⟩,
        ⟨⟨"06-02 20:00", some 66, some 30⟩, "2025-06"⟩] := by decide

theorem sortRecords_sampleGap_05 :
    sortRecords sampleHost (recordsByDate sampleGap "2025-06-05") =
      some [⟨⟨"06-05 08:00", some 60, some 30⟩, "2025-06"⟩,
        ⟨⟨"06-05 20:00", some 58, some 30⟩, "2025-06"⟩] := by decide

theorem dayDiff_01_02 : dayDiff sampleHost "2025-06-01" "2025-06-02" = some 1 := by
  have p1 : sampleHost.dateParse "2025-06-01" = some 1748736000000 := by decide
  have p2 : sampleHost.dateParse "2025-06-02" = some 1748822400000 := by decide
  unfold dayDiff
  rw [p1, p2]
  norm_num [ONE_DAY_MS]

theorem dayDiff_02_05 : dayDiff sampleHost "2025-06-02" "2025-06-05" = some 3 := by
  have p1 : sampleHost.dateParse "2025-06-02" = some 1748822400000 := by decide
  have p2 : sampleHost.dateParse "2025-06-05" = some 1749081600000 := by decide
  unfold dayDiff
  rw [p1, p2]
  norm_num [ONE_DAY_MS]

theorem consumptionOfDate_sampleGap_01 :
    consumptionOfDate sampleHost sampleGap ["2025-06-01", "2025-06-02", "2025-06-05"] 0
      "2025-06-01" = some (some ⟨10, 0⟩) := by
  unfold consumptionOfDate
  rw [sortRecords_sampleGap_01]
  simp only [List.head?_cons, List.getLast?_singleton, nextDayFirstRecord]
  simp only [List.length_cons, List.length_nil, List.getElem?_cons_succ,
    List.getElem?_cons_zero, sortRecords_sampleGap_02]
  simp only [Nat.reduceAdd, Nat.reduceSub, Nat.reduceLT, if_true, Option.map_some',
    List.head?_cons, zero_add, List.getD_cons_succ, List.getD_cons_zero, dayDiff_01_02]
  norm_num [CONTINUOUS_DAY_THRESHOLD, dropBetween, orZero]

theorem consumptionOfDate_sampleGap_02 :
    consumptionOfDate sampleHost sampleGap ["2025-06-01", "2025-06-02", "2025-06-05"] 1
      "2025-06-02" = some (some ⟨4, 0⟩) := by
  unfold consumptionOfDate
  rw [sortRecords_sampleGap_02]
  simp only [List.head?_cons, List.getLast?_cons_cons, List.getLast?_singleton,
    nextDayFirstRecord]
  simp only [List.length_cons, List.length_nil, List.getElem?_cons_succ,
    List.getElem?_cons_zero, sortRecords_sampleGap_05]
  simp only [Nat.reduceAdd, Nat.reduceSub, Nat.reduceLT, if_true, Option.map_some',
    List.head?_cons, zero_add, List.getD_cons_succ, List.getD_cons_zero, dayDiff_02_05]
  norm_num [CONTINUOUS_DAY_THRESHOLD, sameDay, dropBetween, orZero]

theorem consumptionOfDate_sampleGap_05 :
    consumptionOfDate sampleHost sampleGap ["2025-06-01", "2025-06-02", "2025-06-05"] 2
      "2025-06-05" = some (some ⟨2, 0⟩) := by
  unfold consumptionOfDate
  rw [sortRecords_sampleGap_05]
  simp only [List.head?_cons, List.getLast?_cons_cons, List.getLast?_singleton,
    nextDayFirstRecord]
  simp only [List.length_cons, List.length_nil, List.getElem?_cons_succ,
    List.getElem?_cons_zero]
  simp only [Nat.reduceAdd, Nat.reduceSub, Nat.reduceLT, Nat.lt_irrefl, if_false]
  norm_num [sameDay, dropBetween, orZero]

theorem dailyConsumption_sampleGap :
    dailyConsumption sampleHost sampleGap 2025 =
      some [("2025-06-01", ⟨10, 0⟩), ("2025-06-02", ⟨4, 0⟩), ("2025-06-05", ⟨2, 0⟩)] := by
  unfold dailyConsumption
  rw [sortedDates_sampleGap]
  simp only [collectDaily, consumptionOfDate_sampleGap_01, consumptionOfDate_sampleGap_02,
    consumptionOfDate_sampleGap_05, zero_add, Nat.reduceAdd]


theorem allDatesInRange_sampleGap :
    allDatesInRange sampleHost "2025-06-01" "2025-06-05" =
      some ["2025-06-01", "2025-06-02", "2025-06-03", "2025-06-04", "2025-06-05"] := by
  decide

theorem fillDate_present (existingDates : List String) (avgLight avgAc : ℚ)
    (daily : List (String × Consumption)) (dateStr : String) (c : Consumption)
    (hc : daily.lookup dateStr = some c) :
    fillDate existingDates avgLight avgAc daily dateStr = daily := by
  unfold fillDate
  rw [hc]

theorem fillDate_between (existingDates : List String) (avgLight avgAc : ℚ)
    (daily : List (String × Consumption)) (dateStr P N : String) (p n : Consumption)
    (hc : daily.lookup dateStr = none)
    (hP : existingDates.reverse.find? (fun e => jsStringLt e dateStr) = some P)
    (hN : existingDates.find? (fun e => jsStringLt dateStr e) = some N)
    (hp : daily.lookup P = some p) (hn : daily.lookup N = some n) :
    fillDate existingDates avgLight avgAc daily dateStr =
      daily ++ [(dateStr,
        ⟨clamp (min ((p.light + n.light) / 2) (avgLight * 2)) 0 MAX_DAILY_CONSUMPTION,
          clamp (min ((p.ac + n.ac) / 2) (avgAc * 2)) 0 MAX_DAILY_CONSUMPTION⟩)] := by
  unfold fillDate
  rw [hc]
  simp only [hP, hN, Option.some_bind, hp, hn, Option.map_some', fillChoice]

theorem fillGaps_sampleGap :
    fillGaps sampleHost
        [("2025-06-01", ⟨10, 0⟩), ("2025-06-02", ⟨4, 0⟩), ("2025-06-05", ⟨2, 0⟩)] =
      some [("2025-06-01", ⟨10, 0⟩), ("2025-06-02", ⟨4, 0⟩), ("2025-06-05", ⟨2, 0⟩),
        ("2025-06-03", ⟨3, 0⟩), ("2025-06-04", ⟨3, 0⟩)] := by
  have hsort : (["2025-06-01", "2025-06-02", "2025-06-05"] : List String).insertionSort
      (fun a b => jsStringLe a b = true) = ["2025-06-01", "2025-06-02", "2025-06-05"] := by
    decide
  unfold fillGaps
  simp only [List.map_cons, List.map_nil, hsort, List.length_cons, List.length_nil,
    Nat.reduceAdd, Nat.one_lt_ofNat, gt_iff_lt, Nat.reduceLT, if_true, List.headD_cons,
    List.getLastD_cons, List.getLastD_nil, allDatesInRange_sampleGap, List.foldl_cons,
    List.foldl_nil]
  have havgL : averageOf [(10 : ℚ), 4, 2] = 16 / 3 := by norm_num [averageOf]
  have havgA : averageOf [(0 : ℚ), 0, 0] = 0 := by norm_num [averageOf]
  rw [havgL, havgA]
  rw [fillDate_present _ _ _ _ "2025-06-01" ⟨10, 0⟩ (by decide),
    fillDate_present _ _ _ _ "2025-06-02" ⟨4, 0⟩ (by decide),
    fillDate_between _ _ _ _ "2025-06-03" "2025-06-02" "2025-06-05" ⟨4, 0⟩ ⟨2, 0⟩
      (by decide) (by decide) (by decide) (by decide) (by decide)]
  have e3 : clamp (min (((4 : ℚ) + 2) / 2) (16 / 3 * 2)) 0 MAX_DAILY_CONSUMPTION = 3 := by
    norm_num [clamp, MAX_DAILY_CONSUMPTION]
  have e0 : clamp (min (((0 : ℚ) + 0) / 2) (0 * 2)) 0 MAX_DAILY_CONSUMPTION = 0 := by
    norm_num [clamp, MAX_DAILY_CONSUMPTION]
  simp only [e3, e0, List.cons_append, List.nil_append]
  rw [fillDate_between _ _ _ _ "2025-06-04" "2025-06-02" "2025-06-05" ⟨4, 0⟩ ⟨2, 0⟩
      (by decide) (by decide) (by decide) (by decide) (by decide)]
  simp only [e3, e0, List.cons_append, List.nil_append]
  rw [fillDate_present _ _ _ _ "2025-06-05" ⟨2, 0⟩ (by decide)]

theorem computeTotals_sampleGap :
    computeTotals [("2025-06-01", ⟨10, 0⟩), ("2025-06-02", ⟨4, 0⟩), ("2025-06-05", ⟨2, 0⟩)] =
      ⟨16, 0, "2025-06-01", 10⟩ := by
  norm_num [computeTotals, totalsStep]

theorem calculateYearlyStats_sampleGap :
    calculateYearlyStats sampleHost sampleGap 2025 = some sampleGapStats := by
  unfold calculateYearlyStats sampleGapStats sampleGapDaily sampleGapFilled
  rw [dailyConsumption_sampleGap]
  simp only [fillGaps_sampleGap, computeTotals_sampleGap]
  norm_num [toFixed, mathRound]

theorem monthlyStats_sampleGap :
    monthlyStats [("2025-06-01", ⟨10, 0⟩), ("2025-06-02", ⟨4, 0⟩), ("2025-06-05", ⟨2, 0⟩),
        ("2025-06-03", ⟨3, 0⟩), ("2025-06-04", ⟨3, 0⟩)] = [("2025-06", ⟨22, 0⟩)] := by
  have m1 : monthOf "2025-06-01" = "2025-06" := by decide
  have m2 : monthOf "2025-06-02" = "2025-06" := by decide
  have m3 : monthOf "2025-06-03" = "2025-06" := by decide
  have m4 : monthOf "2025-06-04" = "2025-06" := by decide
  have m5 : monthOf "2025-06-05" = "2025-06" := by decide
  simp only [monthlyStats, List.foldl_cons, List.foldl_nil, monthlyStep, m1, m2, m3, m4, m5,
    List.lookup_nil, List.nil_append, List.lookup_cons, beq_self_eq_true, List.map_cons,
    List.map_nil, if_true]
  norm_num

/-- C14, at a concrete input: for `sampleGap` the totals are the sums over 06-01, 06-02
and 06-05; the filled entries of 06-03 and 06-04 are not part of them. -/
theorem yearly_totals_witness :
    calculateYearlyStats sampleHost sampleGap 2025 = some sampleGapStats ∧
      ∃ daily filled,
        dailyConsumption sampleHost sampleGap 2025 = some daily ∧
        daily.map Prod.fst = sortedDates sampleGap 2025 ∧
        sampleGapStats.dailyConsumption = daily ++ filled ∧
        (∀ e ∈ filled, e.1 ∉ sortedDates sampleGap 2025) ∧
        sampleGapStats.totalLight = (daily.map (fun e => e.2.light)).sum ∧
        sampleGapStats.totalAc = (daily.map (fun e => e.2.ac)).sum ∧
        sampleGapStats.totalLight = ((sortedDates sampleGap 2025).map (fun D =>
          ((sampleGapStats.dailyConsumption.lookup D).map Consumption.light).getD 0)).sum ∧
        sampleGapStats.totalAc = ((sortedDates sampleGap 2025).map (fun D =>
          ((sampleGapStats.dailyConsumption.lookup D).map Consumption.ac).getD 0)).sum :=
  ⟨calculateYearlyStats_sampleGap,
    yearly_totals sampleHost sampleGap 2025 sampleGapStats calculateYearlyStats_sampleGap⟩

/-- C15, at a concrete input: for `sampleGap` the peak value 10 is positive and the peak
date 06-01 is a date with readings. -/
theorem yearly_peak_witness :
    calculateYearlyStats sampleHost sampleGap 2025 = some sampleGapStats ∧
      sampleGapStats.peakValue = 10 ∧ sampleGapStats.peakDay = "2025-06-01" ∧
      ∃ daily filled,
        dailyConsumption sampleHost sampleGap 2025 = some daily ∧
        daily.map Prod.fst = sortedDates sampleGap 2025 ∧
        sampleGapStats.dailyConsumption = daily ++ filled ∧
        (∀ e ∈ daily, e.2.light + e.2.ac ≤ sampleGapStats.peakValue) ∧
        (daily ≠ [] → ∃ e ∈ daily, e.2.light + e.2.ac = sampleGapStats.peakValue) ∧
        (daily = [] → sampleGapStats.peakValue = 0) ∧
        (0 < sampleGapStats.peakValue →
          sampleGapStats.peakDay ∈ sortedDates sampleGap 2025 ∧
            ∃ c, daily.lookup sampleGapStats.peakDay = some c ∧
              sampleGapStats.dailyConsumption.lookup sampleGapStats.peakDay = some c ∧
              c.light + c.ac = sampleGapStats.peakValue) :=
  ⟨calculateYearlyStats_sampleGap, rfl, rfl,
    yearly_peak sampleHost sampleGap 2025 sampleGapStats calculateYearlyStats_sampleGap⟩

/-- C16, at a concrete input: the entry filled in for 06-03 of `sampleGap`. -/
theorem filled_values_clamped_witness :
    calculateYearlyStats sampleHost sampleGap 2025 = some sampleGapStats ∧
      (("2025-06-03", ⟨3, 0⟩) : String × Consumption) ∈ sampleGapStats.dailyConsumption ∧
      "2025-06-03" ∉ sortedDates sampleGap 2025 ∧
      (0 : ℚ) ≤ 3 ∧ (3 : ℚ) ≤ 50 ∧ (0 : ℚ) ≤ 0 ∧ (0 : ℚ) ≤ 50 :=
  ⟨calculateYearlyStats_sampleGap, by decide, by decide,
    filled_values_clamped sampleHost sampleGap 2025 sampleGapStats
      calculateYearlyStats_sampleGap ("2025-06-03", ⟨3, 0⟩) (by decide) (by decide)⟩

/-- C18. The claim fails in the code: for `sampleGap` the object that `renderMonthlyChart`
reads holds the filled entries of 06-03 and 06-04, and the monthly sum of `2025-06` is 22
for light, the 16 of the dates with readings (the yearly total) plus the two filled
values of 3. -/
theorem monthly_sums_include_filled :
    calculateYearlyStats sampleHost sampleGap 2025 = some sampleGapStats ∧
      sortedDates sampleGap 2025 = ["2025-06-01", "2025-06-02", "2025-06-05"] ∧
      sampleGapStats.totalLight = 16 ∧
      monthlyStats sampleGapStats.dailyConsumption = [("2025-06", ⟨22, 0⟩)] :=
  ⟨calculateYearlyStats_sampleGap, sortedDates_sampleGap, rfl, monthlyStats_sampleGap⟩

/-! ## `sanitizeElectricityValue` -/

theorem sanitize_number (x : ℚ) :
    ValidationUtils.sanitizeElectricityValue (JsValue.number x) =
      JsValue.number (sanitizeElectricityValue x) := by
  unfold ValidationUtils.sanitizeElectricityValue sanitizeElectricityValue
    ValidationUtils.isValidNumber roundHundredths
  by_cases hx : MIN_VALUE ≤ x ∧ x ≤ MAX_VALUE
  · simp [hx]
  · simp only [ge_iff_le, Bool.and_eq_true, decide_eq_true_eq, hx, not_false_eq_true, if_true]

theorem sanitize_in_range (x : ℚ) (h0 : 0 ≤ x) (h1 : x ≤ 1000) :
    sanitizeElectricityValue x = ((⌊x * 100 + 1 / 2⌋ : ℤ) : ℚ) / 100 := by
  unfold sanitizeElectricityValue mathRound
  rw [if_neg (by simp only [MIN_VALUE, MAX_VALUE, not_not]; exact ⟨h0, h1⟩)]

theorem sanitize_out_of_range (x : ℚ) (h : ¬ (0 ≤ x ∧ x ≤ 1000)) :
    sanitizeElectricityValue x = 0 := by
  unfold sanitizeElectricityValue
  rw [if_pos (by simp only [MIN_VALUE, MAX_VALUE]; exact h)]

/-- C19. For every value, `sanitizeElectricityValue` returns a finite number in
`[0, 1000]`: `0` when the value is not a finite number within `[0, 1000]`, and else the
value rounded to two decimals, that is the multiple of `1/100` nearest to it (a tie
going up). -/
theorem sanitize_contract (value : JsValue) :
    ∃ r : ℚ, ValidationUtils.sanitizeElectricityValue value = JsValue.number r ∧
      0 ≤ r ∧ r ≤ 1000 ∧
      ((∀ x, value = JsValue.number x → ¬ (0 ≤ x ∧ x ≤ 1000)) → r = 0) ∧
      ∀ x, value = JsValue.number x → 0 ≤ x → x ≤ 1000 →
        r = sanitizeElectricityValue x ∧
          (∃ n : ℤ, r = (n : ℚ) / 100) ∧ x - 1 / 200 < r ∧ r ≤ x + 1 / 200 := by
  cases value with
  | number x =>
    refine ⟨sanitizeElectricityValue x, sanitize_number x, ?_⟩
    by_cases hx : 0 ≤ x ∧ x ≤ 1000
    · have hr := sanitize_in_range x hx.1 hx.2
      have hfl := Int.floor_le (x * 100 + 1 / 2)
      have hlt := Int.lt_floor_add_one (x * 100 + 1 / 2)
      have hlo : (0 : ℤ) ≤ ⌊x * 100 + 1 / 2⌋ := Int.floor_nonneg.mpr (by linarith [hx.1])
      have hhi : ⌊x * 100 + 1 / 2⌋ ≤ (100000 : ℤ) := by
        have : ⌊x * 100 + 1 / 2⌋ < (100000 : ℤ) + 1 := by
          rw [Int.floor_lt]
          push_cast
          linarith [hx.2]
        omega
      have hlo' : (0 : ℚ) ≤ ((⌊x * 100 + 1 / 2⌋ : ℤ) : ℚ) := by exact_mod_cast hlo
      have hhi' : ((⌊x * 100 + 1 / 2⌋ : ℤ) : ℚ) ≤ 100000 := by exact_mod_cast hhi
      rw [hr]
      refine ⟨by positivity, by linarith, fun hall => absurd hx (hall x rfl), ?_⟩
      intro y hy _ _
      cases hy
      exact ⟨hr.symm, ⟨_, rfl⟩, by linarith, by linarith⟩
    · rw [sanitize_out_of_range x hx]
      refine ⟨le_refl 0, by norm_num, fun _ => rfl, ?_⟩
      intro y hy h0 h1
      cases hy
      exact absurd ⟨h0, h1⟩ hx
  | nan => exact ⟨0, rfl, le_refl 0, by norm_num, fun _ => rfl, fun x hx => by cases hx⟩
  | posInfinity => exact ⟨0, rfl, le_refl 0, by norm_num, fun _ => rfl, fun x hx => by cases hx⟩
  | negInfinity => exact ⟨0, rfl, le_refl 0, by norm_num, fun _ => rfl, fun x hx => by cases hx⟩
  | notNumber => exact ⟨0, rfl, le_refl 0, by norm_num, fun _ => rfl, fun x hx => by cases hx⟩

/-! ## Balances above `MAX_VALUE` in the consumption computations -/

/-- What `calculateStats` reports as today's and yesterday's light consumption and as
the light daily average, when today's first record and yesterday's first record are
found. -/
theorem calculateStats_trends (h : Host) (data : List Reading) (latest today yesterday : Reading)
    (hlast : data.getLast? = some latest) (hlen : 2 ≤ data.length)
    (htoday : data.find? (fun d =>
      decide (parseTimeString h d.time ≥ h.startOfDay (parseTimeString h latest.time))) =
        some today)
    (hyesterday : data.find? (fun d =>
      decide (parseTimeString h d.time ≥
          h.previousDay (h.startOfDay (parseTimeString h latest.time))) &&
        decide (parseTimeString h d.time < h.startOfDay (parseTimeString h latest.time))) =
        some yesterday) :
    ∃ s, calculateStats h data = some s ∧
      s.lightAvgDaily = toFixed 1 (exactAverage h data latest Field.light_Balance) ∧
      s.lightTrend = toFixed 1 (orZero today.light_Balance - orZero latest.light_Balance) ∧
      s.lightYesterdayTrend =
        toFixed 1 (max 0 (orZero yesterday.light_Balance - orZero today.light_Balance)) := by
  unfold calculateStats
  rw [hlast]
  simp only [ge_iff_le, hlen, not_true_eq_false, if_false] at htoday hyesterday ⊢
  rw [htoday, hyesterday]
  refine ⟨_, rfl, ?_, rfl, rfl⟩
  simp only [exactAverage, pick, safeDivide_daysDiff]

theorem parse_sample_15_06 : parseTimeString sampleHost "06-15 06:00" = 1749967200000 := by
  decide

theorem exactAverage_sampleOverRange :
    exactAverage sampleHost sampleOverRange ⟨"06-15 08:00", some 1100, some 20⟩
      Field.light_Balance = 0 := by
  have hc : calcData sampleHost sampleOverRange ⟨"06-15 08:00", some 1100, some 20⟩ =
      sampleOverRange := by
    simp [calcData, recentData, sampleOverRange, parse_sample_14, parse_sample_15,
      parse_sample_15_06, TWO_WEEKS_MS]
  have h1 : sanitizeElectricityValue 1300 = 0 := by
    norm_num [sanitizeElectricityValue, MIN_VALUE, MAX_VALUE]
  have h2 : sanitizeElectricityValue 1200 = 0 := by
    norm_num [sanitizeElectricityValue, MIN_VALUE, MAX_VALUE]
  have h3 : sanitizeElectricityValue 1100 = 0 := by
    norm_num [sanitizeElectricityValue, MIN_VALUE, MAX_VALUE]
  unfold exactAverage
  rw [hc, pick_totalConsumption]
  simp only [sampleOverRange, sanitizedBalances, List.map_cons, List.map_nil, Reading.get,
    orZero, Option.getD_some, h1, h2, h3, decreaseSum]
  norm_num

theorem toFixed_hundred : toFixed 1 100 = 100 := by
  have hf : ⌊(100 : ℚ) * 10 ^ 1 + 1 / 2⌋ = 1000 := by
    rw [Int.floor_eq_iff]
    norm_num
  unfold toFixed
  rw [if_neg (by norm_num), hf]
  norm_num

theorem calculateStats_sampleOverRange :
    ∃ s, calculateStats sampleHost sampleOverRange = some s ∧
      s.lightAvgDaily = 0 ∧ s.lightTrend = 100 ∧ s.lightYesterdayTrend = 100 := by
  obtain ⟨s, hs, havg, htrend, hyest⟩ := calculateStats_trends sampleHost sampleOverRange
    ⟨"06-15 08:00", some 1100, some 20⟩ ⟨"06-15 06:00", some 1200, some 20⟩
    ⟨"06-14 08:00", some 1300, some 20⟩ rfl (by decide) (by decide) (by decide)
  refine ⟨s, hs, ?_, ?_, ?_⟩
  · rw [havg, exactAverage_sampleOverRange, toFixed_zero]
  · rw [htrend]
    norm_num [orZero, toFixed_hundred]
  · rw [hyest]
    norm_num [orZero, toFixed_hundred]

theorem sortedDates_sampleOverRangeYear :
    sortedDates sampleOverRangeYear 2025 = ["2025-06-14", "2025-06-15"] := by decide

theorem sortRecords_sampleOverRangeYear_14 :
    sortRecords sampleHost (recordsByDate sampleOverRangeYear "2025-06-14") =
      some [⟨⟨"06-14 08:00", some 1300, some 20⟩, "2025-06"⟩] := by decide

theorem sortRecords_sampleOverRangeYear_15 :
    sortRecords sampleHost (recordsByDate sampleOverRangeYear "2025-06-15") =
      some [⟨⟨"06-15 06:00", some 1200, some 20⟩, "2025-06"⟩,
        ⟨⟨"06-15 08:00", some 1100, some 20⟩, "2025-06"⟩] := by decide

theorem dayDiff_14_15 : dayDiff sampleHost "2025-06-14" "2025-06-15" = some 1 := by
  have p1 : sampleHost.dateParse "2025-06-14" = some 1749859200000 := by decide
  have p2 : sampleHost.dateParse "2025-06-15" = some 1749945600000 := by decide
  unfold dayDiff
  rw [p1, p2]
  norm_num [ONE_DAY_MS]

theorem consumptionOfDate_sampleOverRangeYear_14 :
    consumptionOfDate sampleHost sampleOverRangeYear ["2025-06-14", "2025-06-15"] 0
      "2025-06-14" = some (some ⟨100, 0⟩) := by
  unfold consumptionOfDate
  rw [sortRecords_sampleOverRangeYear_14]
  simp only [List.head?_cons, List.getLast?_singleton, nextDayFirstRecord]
  simp only [List.length_cons, List.length_nil, List.getElem?_cons_succ,
    List.getElem?_cons_zero, sortRecords_sampleOverRangeYear_15]
  simp only [Nat.reduceAdd, Nat.reduceSub, Nat.reduceLT, if_true, Option.map_some',
    List.head?_cons, zero_add, List.getD_cons_succ, List.getD_cons_zero, dayDiff_14_15]
  norm_num [CONTINUOUS_DAY_THRESHOLD, dropBetween, orZero]

theorem consumptionOfDate_sampleOverRangeYear_15 :
    consumptionOfDate sampleHost sampleOverRangeYear ["2025-06-14", "2025-06-15"] 1
      "2025-06-15" = some (some ⟨100, 0⟩) := by
  unfold consumptionOfDate
  rw [sortRecords_sampleOverRangeYear_15]
  simp only [List.head?_cons, List.getLast?_cons_cons, List.getLast?_singleton,
    nextDayFirstRecord]
  simp only [List.length_cons, List.length_nil, List.getElem?_cons_succ,
    List.getElem?_cons_zero]
  simp only [Nat.reduceAdd, Nat.reduceSub, Nat.reduceLT, Nat.lt_irrefl, if_false]
  norm_num [sameDay, dropBetween, orZero]

theorem dailyConsumption_sampleOverRangeYear :
    dailyConsumption sampleHost sampleOverRangeYear 2025 =
      some [("2025-06-14", ⟨100, 0⟩), ("2025-06-15", ⟨100, 0⟩)] := by
  unfold dailyConsumption
  rw [sortedDates_sampleOverRangeYear]
  simp only [collectDaily, consumptionOfDate_sampleOverRangeYear_14,
    consumptionOfDate_sampleOverRangeYear_15, zero_add, Nat.reduceAdd]

/-- C20. The claim fails in the code: for the light balances 1300, 1200 and 1100, each
of which `sanitizeElectricityValue` turns into 0, the daily average is 0 (its loop
sanitizes), but today's and yesterday's consumption of `calculateStats` are 100 and the
per-day consumption of `calculateYearlyStats` is 100 for both days: these
subtractions take the balances as they are. -/
theorem consumption_without_sanitizing :
    sanitizeElectricityValue 1300 = 0 ∧ sanitizeElectricityValue 1200 = 0 ∧
      sanitizeElectricityValue 1100 = 0 ∧
      (∃ s, calculateStats sampleHost sampleOverRange = some s ∧
        s.lightAvgDaily = 0 ∧ s.lightTrend = 100 ∧ s.lightYesterdayTrend = 100) ∧
      dailyConsumption sampleHost sampleOverRangeYear 2025 =
        some [("2025-06-14", ⟨100, 0⟩), ("2025-06-15", ⟨100, 0⟩)] :=
  ⟨sanitize_out_of_range 1300 (by norm_num), sanitize_out_of_range 1200 (by norm_num),
    sanitize_out_of_range 1100 (by norm_num), calculateStats_sampleOverRange,
    dailyConsumption_sampleOverRangeYear⟩

/-! ## `interpolateMissingData`: what is known is kept -/

theorem time_complete (data : List Reading) (f : Field) (j : ℕ) (r : Reading) :
    (complete data f j r).time = r.time := by
  unfold complete
  split
  · exact time_set r f _
  · rfl

theorem interpolateField_time (f : Field) (data : List Reading) (j : ℕ) :
    ((interpolateField f data)[j]?).map Reading.time = (data[j]?).map Reading.time := by
  rw [interpolateField_getElem?]
  cases data[j]? with
  | none => rfl
  | some r => simp only [Option.map_some', time_complete]

theorem interpolateMissingData_time (data : List Reading) (j : ℕ) :
    ((interpolateMissingData data)[j]?).map Reading.time = (data[j]?).map Reading.time := by
  unfold interpolateMissingData
  simp only [List.foldl_cons, List.foldl_nil]
  rw [interpolateField_time, interpolateField_time]

/-- C28. `interpolateMissingData` keeps what is known: the output has the length of the
input, the same `time` at every index, and at every index where a field is not null in
the input the same value of that field. -/
theorem interpolate_preserves_known (data : List Reading) :
    (interpolateMissingData data).length = data.length ∧
      (∀ j : ℕ, ((interpolateMissingData data)[j]?).map Reading.time =
        (data[j]?).map Reading.time) ∧
      ∀ (field : Field) (j : ℕ) (v : ℚ), fieldAt data field j = some v →
        fieldAt (interpolateMissingData data) field j = some v := by
  refine ⟨interpolateMissingData_length data, interpolateMissingData_time data, ?_⟩
  intro field j v hv
  rw [fieldAt_interpolateMissingData, hv]

/-- C28, at a concrete input: light balances `[0, null, null, null, 8]`. -/
theorem interpolate_preserves_known_witness :
    (interpolateMissingData sampleRun).length = 5 ∧
      ((interpolateMissingData sampleRun)[2]?).map Reading.time = some "06-03" ∧
      fieldAt (interpolateMissingData sampleRun) Field.light_Balance 4 = some 8 :=
  ⟨(interpolate_preserves_known sampleRun).1,
    (interpolate_preserves_known sampleRun).2.1 2,
    (interpolate_preserves_known sampleRun).2.2 Field.light_Balance 4 8 (by decide)⟩

/-! ## The accumulated consumption and the net drop -/

theorem decreaseSum_ge_drop :
    ∀ (a : ℚ) (l : List ℚ), max 0 (a - (a :: l).getLastD 0) ≤ decreaseSum (a :: l)
  | a, [] => by simp [decreaseSum]
  | a, b :: rest => by
    have ih := decreaseSum_ge_drop b rest
    have hnn := decreaseSum_nonneg (b :: rest)
    have hlast : (a :: b :: rest).getLastD 0 = (b :: rest).getLastD 0 := by
      simp [List.getLastD]
    rw [decreaseSum, hlast]
    have h1 : (0 : ℚ) ≤ max 0 (a - b) := le_max_left _ _
    have h2 : a - b ≤ max 0 (a - b) := le_max_right _ _
    have h3 : b - (b :: rest).getLastD 0 ≤ max 0 (b - (b :: rest).getLastD 0) :=
      le_max_right _ _
    apply max_le
    · linarith
    · linarith

theorem decreaseSum_of_nonincreasing :
    ∀ (a : ℚ) (l : List ℚ), (a :: l).Chain' (fun x y => y ≤ x) →
      decreaseSum (a :: l) = a - (a :: l).getLastD 0
  | a, [], _ => by simp [decreaseSum]
  | a, b :: rest, hc => by
    have hab : b ≤ a := (List.chain'_cons.mp hc).1
    have ih := decreaseSum_of_nonincreasing b rest (List.chain'_cons.mp hc).2
    have hlast : (a :: b :: rest).getLastD 0 = (b :: rest).getLastD 0 := by
      simp [List.getLastD]
    rw [decreaseSum, hlast, ih, max_eq_right (by linarith)]
    ring

/-- C29. The consumption that the loop of `calculateStats` accumulates over a window, for
a field with sanitized balances `b_0 .. b_n`, is at least `max(0, b_0 - b_n)`, and it is
`b_0 - b_n` when the balances never increase. -/
theorem consumption_at_least_net_drop (calcData : List Reading) (field : Field) :
    max 0 ((sanitizedBalances field calcData).headD 0 -
        (sanitizedBalances field calcData).getLastD 0) ≤
        pick field (totalConsumption calcData) ∧
      ((sanitizedBalances field calcData).Chain' (fun x y => y ≤ x) →
        pick field (totalConsumption calcData) =
          (sanitizedBalances field calcData).headD 0 -
            (sanitizedBalances field calcData).getLastD 0) := by
  rw [pick_totalConsumption]
  cases hbs : sanitizedBalances field calcData with
  | nil => simp [decreaseSum]
  | cons a l =>
    exact ⟨decreaseSum_ge_drop a l, fun hc => decreaseSum_of_nonincreasing a l hc⟩

/-- C29, at a concrete input: for the light balances `[100, 120, 90]` the accumulated
consumption is at least the net drop `max(0, 100 - 90)`. -/
theorem consumption_at_least_net_drop_witness :
    max 0 ((sanitizedBalances Field.light_Balance sampleRecharge).headD 0 -
        (sanitizedBalances Field.light_Balance sampleRecharge).getLastD 0) ≤
      pick Field.light_Balance (totalConsumption sampleRecharge) :=
  (consumption_at_least_net_drop sampleRecharge Field.light_Balance).1

/-! ## `parseTimeString`: fallback and year inference -/

theorem parseTimeString_invalid (h : Host) (timeStr : String)
    (hbad : isValidTimeString timeStr = false) : parseTimeString h timeStr = h.now := by
  unfold parseTimeString
  rw [if_pos (by simp [hbad])]

theorem parseTimeString_bad_month (h : Host) (timeStr : String) (m : ℕ)
    (hmonth : parseInt ((jsSplit '-' timeStr.toList).headD []) = some m)
    (hm : m < 1 ∨ 12 < m) : parseTimeString h timeStr = h.now := by
  unfold parseTimeString
  split
  · rfl
  · simp only [hmonth]
    rw [if_pos (by simpa using hm)]

theorem parseTimeString_of_month (h : Host) (timeStr : String) (m : ℕ)
    (hvalid : isValidTimeString timeStr = true)
    (hmonth : parseInt ((jsSplit '-' timeStr.toList).headD []) = some m)
    (hm : 1 ≤ m ∧ m ≤ 12) :
    parseTimeString h timeStr =
      match h.dateParse (toString (if m > h.currentMonth then h.currentYear - 1
          else h.currentYear) ++ "-" ++ timeStr) with
      | none => h.now
      | some t => t := by
  unfold parseTimeString
  rw [if_neg (by simp [hvalid])]
  simp only [hmonth]
  rw [if_neg (by simp; omega)]
  by_cases hc : m > h.currentMonth
  · simp only [hc, decide_True, if_true]
  · simp only [hc, decide_False, if_false, Bool.false_eq_true]

theorem parseTimeString_now_or_parse (h : Host) (timeStr : String) :
    parseTimeString h timeStr = h.now ∨
      ∃ year : ℤ, (year = h.currentYear ∨ year = h.currentYear - 1) ∧
        h.dateParse (toString year ++ "-" ++ timeStr) = some (parseTimeString h timeStr) := by
  unfold parseTimeString
  by_cases hv : ¬ isValidTimeString timeStr
  · rw [if_pos hv]
    exact Or.inl rfl
  · rw [if_neg hv]
    simp only []
    split_ifs with h1 h2
    · exact Or.inl rfl
    · cases hp : h.dateParse (toString (h.currentYear - 1) ++ "-" ++ timeStr) with
      | none => exact Or.inl rfl
      | some t => exact Or.inr ⟨_, Or.inr rfl, hp⟩
    · cases hp : h.dateParse (toString h.currentYear ++ "-" ++ timeStr) with
      | none => exact Or.inl rfl
      | some t => exact Or.inr ⟨_, Or.inl rfl, hp⟩

/-- C24. `parseTimeString` fails soft: a string that fails the validation pattern, or
whose month is outside 1..12, gives the current instant; and for every string the
function returns a time value, either the current instant or what `Date` made of the
string with a year in front. -/
theorem parseTimeString_fails_soft (h : Host) (timeStr : String) :
    (isValidTimeString timeStr = false → parseTimeString h timeStr = h.now) ∧
      (∀ m, parseInt ((jsSplit '-' timeStr.toList).headD []) = some m → (m < 1 ∨ 12 < m) →
        parseTimeString h timeStr = h.now) ∧
      (parseTimeString h timeStr = h.now ∨
        ∃ year : ℤ, (year = h.currentYear ∨ year = h.currentYear - 1) ∧
          h.dateParse (toString year ++ "-" ++ timeStr) =
            some (parseTimeString h timeStr)) :=
  ⟨parseTimeString_invalid h timeStr, fun m => parseTimeString_bad_month h timeStr m,
    parseTimeString_now_or_parse h timeStr⟩

/-- C24, at concrete inputs: `"13-45"` passes the pattern and has month 13; `"yesterday"`
fails the pattern. -/
theorem parseTimeString_fails_soft_witness :
    isValidTimeString "13-45" = true ∧
      parseInt ((jsSplit '-' "13-45".toList).headD []) = some 13 ∧
      parseTimeString sampleHost "13-45" = sampleHost.now ∧
      isValidTimeString "yesterday" = false ∧
      parseTimeString sampleHost "yesterday" = sampleHost.now :=
  ⟨by decide, by decide,
    (parseTimeString_fails_soft sampleHost "13-45").2.1 13 (by decide) (Or.inr (by decide)),
    by decide, (parseTimeString_fails_soft sampleHost "yesterday").1 (by decide)⟩

/-- C23, as stated, fails: `"12-45"` passes the validation pattern and its month 12 is
after the current month 6, yet `Date` cannot parse `2024-12-45` and the result is the
current instant, which lies in 2025, not in 2024. -/
theorem year_inference_counterexample :
    isValidTimeString "12-45" = true ∧
      parseInt ((jsSplit '-' "12-45".toList).headD []) = some 12 ∧
      12 > sampleHost.currentMonth ∧
      sampleHost.dateParse "2024-12-45" = none ∧
      parseTimeString sampleHost "12-45" = sampleHost.now ∧
      utcYear (parseTimeString sampleHost "12-45") = 2025 ∧
      (utcYear (parseTimeString sampleHost "12-45") : ℤ) ≠ sampleHost.currentYear - 1 := by
  decide

/-- C23, amended. For a string that passes the validation pattern, with month `m` in
1..12, and whose date string `year-timeStr` is parsed by `Date`, the result is that
parse, the year in front being the previous year when `m` is after the current month
and the current year otherwise. -/
theorem year_inference (h : Host) (timeStr : String) (m : ℕ) (t : ℤ)
    (hvalid : isValidTimeString timeStr = true)
    (hmonth : parseInt ((jsSplit '-' timeStr.toList).headD []) = some m)
    (hm : 1 ≤ m ∧ m ≤ 12)
    (hparse : h.dateParse (toString (if m > h.currentMonth then h.currentYear - 1
        else h.currentYear) ++ "-" ++ timeStr) = some t) :
    parseTimeString h timeStr = t ∧
      (m > h.currentMonth →
        h.dateParse (toString (h.currentYear - 1) ++ "-" ++ timeStr) =
          some (parseTimeString h timeStr)) ∧
      (m ≤ h.currentMonth →
        h.dateParse (toString h.currentYear ++ "-" ++ timeStr) =
          some (parseTimeString h timeStr)) := by
  have hres : parseTimeString h timeStr = t := by
    rw [parseTimeString_of_month h timeStr m hvalid hmonth hm, hparse]
  refine ⟨hres, fun hgt => ?_, fun hle => ?_⟩
  · rw [hres, ← hparse, if_pos hgt]
  · rw [hres, ← hparse, if_neg (by omega)]

/-- C23 amended, at concrete inputs on a host whose clock shows June 2025: `"12-25 08:00"`
is read in 2024 and `"06-14 08:00"` in 2025. -/
theorem year_inference_witness :
    parseTimeString sampleHost "12-25 08:00" = 1735113600000 ∧
      utcYear 1735113600000 = 2024 ∧
      parseTimeString sampleHost "06-14 08:00" = 1749888000000 ∧
      utcYear 1749888000000 = 2025 :=
  ⟨(year_inference sampleHost "12-25 08:00" 12 1735113600000 (by decide) (by decide)
      (by decide) (by decide)).1, by decide,
    (year_inference sampleHost "06-14 08:00" 6 1749888000000 (by decide) (by decide)
      (by decide) (by decide)).1, by decide⟩

/-! ## `calculateStats`: the baseline and yesterday's consumption -/

/-- What `calculateStats` reports as today's and yesterday's consumption, in terms of
`baseline` and `yesterdayFirstRecord`. -/
theorem calculateStats_baseline (h : Host) (data : List Reading) (latest : Reading)
    (hlast : data.getLast? = some latest) (hlen : 2 ≤ data.length) :
    ∃ s, calculateStats h data = some s ∧
      (∀ field, s.trend field =
        toFixed 1 (orZero ((baseline h data latest).get field) - orZero (latest.get field))) ∧
      ∀ field, s.yesterdayTrend field =
        match yesterdayFirstRecord h data latest with
        | some y =>
          toFixed 1 (max 0 (orZero (y.get field) -
            orZero ((baseline h data latest).get field)))
        | none => 0 := by
  unfold calculateStats
  rw [hlast]
  simp only [ge_iff_le, hlen, not_true_eq_false, if_false]
  refine ⟨_, rfl, fun field => ?_, fun field => ?_⟩
  · cases field <;> rfl
  · cases field
    · simp only [Stats.yesterdayTrend, yesterdayFirstRecord, yesterdayStart, todayStart,
        baseline, todayFirstRecord, ge_iff_le, Reading.get]
    · simp only [Stats.yesterdayTrend, yesterdayFirstRecord, yesterdayStart, todayStart,
        baseline, todayFirstRecord, ge_iff_le, Reading.get]

theorem mem_of_getLast?_eq (data : List Reading) (latest : Reading)
    (hlast : data.getLast? = some latest) : latest ∈ data :=
  List.mem_of_mem_getLast? (by rw [hlast]; exact rfl)

/-- The search for today's first record finds a record when the day's start is not
after the instant it was taken from. -/
theorem todayFirstRecord_isSome (h : Host) (data : List Reading) (latest : Reading)
    (hlast : data.getLast? = some latest) (hday : ∀ t, h.startOfDay t ≤ t) :
    ∃ r, todayFirstRecord h data latest = some r ∧ r ∈ data ∧
      todayStart h latest ≤ parseTimeString h r.time := by
  have hmem := mem_of_getLast?_eq data latest hlast
  have hsome : (todayFirstRecord h data latest).isSome = true := by
    unfold todayFirstRecord
    rw [List.find?_isSome]
    exact ⟨latest, hmem, by simpa [todayStart] using hday (parseTimeString h latest.time)⟩
  obtain ⟨r, hr⟩ := Option.isSome_iff_exists.mp hsome
  refine ⟨r, hr, List.mem_of_find?_eq_some hr, ?_⟩
  have := List.find?_some hr
  simpa using this

/-- In a list sorted by a key, the first element that satisfies a test has the least key
among the elements that satisfy it. -/
theorem find?_least (key : Reading → ℤ) (p : Reading → Bool) (data : List Reading)
    (y : Reading) (hsorted : data.Pairwise (fun a b => key a ≤ key b))
    (hy : data.find? p = some y) : ∀ r ∈ data, p r = true → key y ≤ key r := by
  obtain ⟨_, front, back, hdata, hfront⟩ := List.find?_eq_some.mp hy
  intro r hr hpr
  rw [hdata] at hr hsorted
  rcases List.mem_append.mp hr with hr | hr
  · have := hfront r hr
    rw [hpr] at this
    simp at this
  · rcases List.mem_cons.mp hr with hr | hr
    · rw [hr]
    · exact List.rel_of_pairwise_cons (List.pairwise_append.mp hsorted).2.1 hr


theorem toFixed_natCast (n : ℕ) : toFixed 1 (n : ℚ) = n := by
  have hf : ⌊(n : ℚ) * 10 ^ 1 + 1 / 2⌋ = (10 * n : ℤ) := by
    rw [Int.floor_eq_iff]
    constructor
    · push_cast; linarith
    · push_cast; linarith
  unfold toFixed
  rw [if_neg (by push_neg; exact Nat.cast_nonneg n), hf]
  push_cast
  ring

theorem sampleHost_startOfDay_le (t : ℤ) : sampleHost.startOfDay t ≤ t := by
  have h0 : (0 : ℤ) ≤ t % ONE_DAY_MS := Int.emod_nonneg t (by decide)
  show t - t % ONE_DAY_MS ≤ t
  omega

/-- C27. For at least 2 readings, on a host whose `setHours(0, 0, 0, 0)` never moves a
`Date` forward, the search for today's first record finds a record of the input (the
latest reading itself passes the test), so the baseline is that record and the fallback
to the second-to-last reading is not used. -/
theorem today_baseline_found (h : Host) (data : List Reading) (latest : Reading)
    (hlast : data.getLast? = some latest) (hlen : 2 ≤ data.length)
    (hday : ∀ t, h.startOfDay t ≤ t) :
    ∃ r, todayFirstRecord h data latest = some r ∧ baseline h data latest = r ∧ r ∈ data ∧
      todayStart h latest ≤ parseTimeString h r.time ∧
      ∃ s, calculateStats h data = some s ∧
        ∀ field, s.trend field =
          toFixed 1 (orZero (r.get field) - orZero (latest.get field)) := by
  obtain ⟨r, hr, hmem, hge⟩ := todayFirstRecord_isSome h data latest hlast hday
  have hb : baseline h data latest = r := by
    unfold baseline
    rw [hr]
    rfl
  obtain ⟨s, hs, htrend, _⟩ := calculateStats_baseline h data latest hlast hlen
  refine ⟨r, hr, hb, hmem, hge, s, hs, fun field => ?_⟩
  rw [htrend field, hb]

/-- C27, at a concrete input: two readings one day apart on the sample host. -/
theorem today_baseline_found_witness :
    ∃ r, todayFirstRecord sampleHost sampleFlat ⟨"06-15 08:00", some 50, some 20⟩ = some r ∧
      baseline sampleHost sampleFlat ⟨"06-15 08:00", some 50, some 20⟩ = r ∧ r ∈ sampleFlat ∧
      todayStart sampleHost ⟨"06-15 08:00", some 50, some 20⟩ ≤
        parseTimeString sampleHost r.time ∧
      ∃ s, calculateStats sampleHost sampleFlat = some s ∧
        ∀ field, s.trend field =
          toFixed 1 (orZero (r.get field) -
            orZero ((⟨"06-15 08:00", some 50, some 20⟩ : Reading).get field)) :=
  today_baseline_found sampleHost sampleFlat ⟨"06-15 08:00", some 50, some 20⟩ rfl
    (by decide) sampleHost_startOfDay_le

/-- C21. The claim fails in the code: for the readings 08:00, 06:00, 10:00 of 06-15, in
this order, the baseline is the reading of 08:00, the first one in array order at or
after midnight, although the reading of 06:00 is at or after midnight too and earlier;
today's light consumption is reported as `50 - 49 = 1`. -/
theorem baseline_not_earliest :
    sampleUnordered.getLast? = some ⟨"06-15 10:00", some 49, some 20⟩ ∧
      baseline sampleHost sampleUnordered ⟨"06-15 10:00", some 49, some 20⟩ =
        ⟨"06-15 08:00", some 50, some 20⟩ ∧
      (⟨"06-15 06:00", some 52, some 20⟩ : Reading) ∈ sampleUnordered ∧
      todayStart sampleHost ⟨"06-15 10:00", some 49, some 20⟩ ≤
        parseTimeString sampleHost "06-15 06:00" ∧
      parseTimeString sampleHost "06-15 06:00" < parseTimeString sampleHost "06-15 08:00" ∧
      ∃ s, calculateStats sampleHost sampleUnordered = some s ∧ s.lightTrend = 1 := by
  refine ⟨rfl, by decide, by decide, by decide, by decide, ?_⟩
  obtain ⟨s, hs, htrend, _⟩ := calculateStats_baseline sampleHost sampleUnordered
    ⟨"06-15 10:00", some 49, some 20⟩ rfl (by decide)
  refine ⟨s, hs, ?_⟩
  have hb : baseline sampleHost sampleUnordered ⟨"06-15 10:00", some 49, some 20⟩ =
      ⟨"06-15 08:00", some 50, some 20⟩ := by decide
  have h1 := htrend Field.light_Balance
  rw [hb] at h1
  have h2 := toFixed_natCast 1
  simp only [Stats.trend, Reading.get, orZero, Option.getD_some] at h1
  rw [h1]
  norm_num at h2 ⊢
  exact h2


/-- C22. The claim fails in the code: for the readings 06-14 20:00 (light 60), 06-14 08:00
(light 70), 06-15 08:00 (light 50), in this order, the reading of yesterday that is used
is the one of 20:00, the first in array order inside `[yesterdayStart, todayStart)`,
although the reading of 08:00 lies in the interval too and is earlier; yesterday's light
consumption is reported as `60 - 50 = 10`, not as `70 - 50 = 20`. -/
theorem yesterday_not_earliest :
    sampleUnorderedYesterday.getLast? = some ⟨"06-15 08:00", some 50, some 20⟩ ∧
      yesterdayFirstRecord sampleHost sampleUnorderedYesterday
        ⟨"06-15 08:00", some 50, some 20⟩ = some ⟨"06-14 20:00", some 60, some 20⟩ ∧
      baseline sampleHost sampleUnorderedYesterday ⟨"06-15 08:00", some 50, some 20⟩ =
        ⟨"06-15 08:00", some 50, some 20⟩ ∧
      (⟨"06-14 08:00", some 70, some 20⟩ : Reading) ∈ sampleUnorderedYesterday ∧
      InYesterday sampleHost ⟨"06-15 08:00", some 50, some 20⟩
        ⟨"06-14 08:00", some 70, some 20⟩ ∧
      parseTimeString sampleHost "06-14 08:00" < parseTimeString sampleHost "06-14 20:00" ∧
      ∃ s, calculateStats sampleHost sampleUnorderedYesterday = some s ∧
        s.lightYesterdayTrend = 10 := by
  have hy : yesterdayFirstRecord sampleHost sampleUnorderedYesterday
      ⟨"06-15 08:00", some 50, some 20⟩ = some ⟨"06-14 20:00", some 60, some 20⟩ := by
    decide
  have hb : baseline sampleHost sampleUnorderedYesterday
      ⟨"06-15 08:00", some 50, some 20⟩ = ⟨"06-15 08:00", some 50, some 20⟩ := by decide
  refine ⟨rfl, hy, hb, by decide, by unfold InYesterday; decide, by decide, ?_⟩
  obtain ⟨s, hs, _, hyest⟩ := calculateStats_baseline sampleHost sampleUnorderedYesterday
    ⟨"06-15 08:00", some 50, some 20⟩ rfl (by decide)
  refine ⟨s, hs, ?_⟩
  have h1 := hyest Field.light_Balance
  rw [hy, hb] at h1
  simp only [Stats.yesterdayTrend, Reading.get, orZero, Option.getD_some] at h1
  rw [h1]
  have h2 := toFixed_natCast 10
  norm_num at h2 ⊢
  exact h2

/-- For readings in chronological order the first reading in array order inside
`[yesterdayStart, todayStart)` is an earliest one of that interval; the reported value
is never negative and is 0 when no reading lies in the interval. -/
theorem yesterdayTrend_of_sorted (h : Host) (data : List Reading) (latest : Reading)
    (field : Field) (hlast : data.getLast? = some latest) (hlen : 2 ≤ data.length)
    (hsorted : data.Pairwise
      (fun a b => parseTimeString h a.time ≤ parseTimeString h b.time)) :
    ∃ s, calculateStats h data = some s ∧ 0 ≤ s.yesterdayTrend field ∧
      ((∀ r ∈ data, ¬ InYesterday h latest r) → s.yesterdayTrend field = 0) ∧
      ((∃ r ∈ data, InYesterday h latest r) →
        ∃ y ∈ data, InYesterday h latest y ∧
          (∀ r ∈ data, InYesterday h latest r →
            parseTimeString h y.time ≤ parseTimeString h r.time) ∧
          s.yesterdayTrend field =
            toFixed 1 (max 0 (orZero (y.get field) -
              orZero ((baseline h data latest).get field)))) := by
  obtain ⟨s, hs, _, hyest⟩ := calculateStats_baseline h data latest hlast hlen
  have hp : ∀ r : Reading,
      (decide (parseTimeString h r.time ≥ yesterdayStart h latest) &&
        decide (parseTimeString h r.time < todayStart h latest)) = true ↔
        InYesterday h latest r := by
    intro r
    simp [InYesterday]
  refine ⟨s, hs, ?_, fun hnone => ?_, fun hsome => ?_⟩
  · rw [hyest field]
    cases yesterdayFirstRecord h data latest with
    | none => exact le_refl 0
    | some y => exact toFixed_nonneg 1 _ (le_max_left _ _)
  · have hfind : yesterdayFirstRecord h data latest = none := by
      unfold yesterdayFirstRecord
      rw [List.find?_eq_none]
      intro r hr hpr
      exact hnone r hr ((hp r).mp hpr)
    rw [hyest field, hfind]
  · have hisSome : (yesterdayFirstRecord h data latest).isSome = true := by
      unfold yesterdayFirstRecord
      rw [List.find?_isSome]
      obtain ⟨r, hr, hin⟩ := hsome
      exact ⟨r, hr, (hp r).mpr hin⟩
    obtain ⟨y, hy⟩ := Option.isSome_iff_exists.mp hisSome
    have hy' := hy
    unfold yesterdayFirstRecord at hy'
    have hpy := List.find?_some hy'
    refine ⟨y, List.mem_of_find?_eq_some hy', (hp y).mp hpy, ?_, ?_⟩
    · intro r hr hin
      exact find?_least (fun r => parseTimeString h r.time) _ data y hsorted hy' r hr
        ((hp r).mpr hin)
    · rw [hyest field, hy]

/-! ## The string order of `sort()` is antisymmetric -/

theorem lexLe_antisymm : ∀ a b : List ℕ, lexLe a b = true → lexLe b a = true → a = b
  | [], [] => fun _ _ => rfl
  | [], _ :: _ => fun _ h => by simp [lexLe] at h
  | _ :: _, [] => fun h _ => by simp [lexLe] at h
  | a :: as, b :: bs => by
    simp only [lexLe, Bool.or_eq_true, Bool.and_eq_true, decide_eq_true_eq]
    rintro (hab | ⟨hab, hr⟩) (hba | ⟨hba, hr'⟩)
    · omega
    · omega
    · omega
    · rw [hab, lexLe_antisymm as bs hr hr']

theorem char_not_surrogate (c : Char) (hc : c.toNat < 65536) :
    c.toNat < 55296 ∨ 57343 < c.toNat := by
  have hv := c.valid
  unfold UInt32.isValidChar Nat.isValidChar at hv
  have : c.toNat = c.val.toNat := rfl
  omega

theorem char_lt_max (c : Char) : c.toNat < 1114112 := by
  have hv := c.valid
  unfold UInt32.isValidChar Nat.isValidChar at hv
  have : c.toNat = c.val.toNat := rfl
  omega

theorem char_eq_of_toNat (c d : Char) (h : c.toNat = d.toNat) : c = d := by
  apply Char.ext
  apply UInt32.ext
  exact h

theorem utf16_flatMap_inj : ∀ l1 l2 : List Char,
    l1.flatMap utf16Units = l2.flatMap utf16Units → l1 = l2
  | [], [] => fun _ => rfl
  | [], c :: l2 => by
    intro h
    simp only [List.flatMap_nil, List.flatMap_cons, utf16Units] at h
    split at h <;> simp at h
  | c :: l1, [] => by
    intro h
    simp only [List.flatMap_nil, List.flatMap_cons, utf16Units] at h
    split at h <;> simp at h
  | c :: l1, d :: l2 => by
    intro h
    have hc := char_lt_max c
    have hd := char_lt_max d
    simp only [List.flatMap_cons, utf16Units] at h
    by_cases h1 : c.toNat < 65536 <;> by_cases h2 : d.toNat < 65536
    · rw [if_pos h1, if_pos h2] at h
      simp only [List.singleton_append, List.cons.injEq] at h
      rw [char_eq_of_toNat c d h.1, utf16_flatMap_inj l1 l2 h.2]
    · rw [if_pos h1, if_neg h2] at h
      simp only [List.singleton_append, List.cons_append, List.nil_append,
        List.cons.injEq] at h
      have := char_not_surrogate c h1
      omega
    · rw [if_neg h1, if_pos h2] at h
      simp only [List.singleton_append, List.cons_append, List.nil_append,
        List.cons.injEq] at h
      have := char_not_surrogate d h2
      omega
    · rw [if_neg h1, if_neg h2] at h
      simp only [List.cons_append, List.nil_append, List.cons.injEq] at h
      have hcd : c.toNat = d.toNat := by omega
      rw [char_eq_of_toNat c d hcd, utf16_flatMap_inj l1 l2 h.2.2]

theorem jsStringLe_antisymm (a b : String) (hab : jsStringLe a b = true)
    (hba : jsStringLe b a = true) : a = b := by
  unfold jsStringLe at hab hba
  have := utf16_flatMap_inj _ _ (lexLe_antisymm _ _ hab hba)
  exact String.ext this

theorem jsStringLe_trans (a b c : String) (hab : jsStringLe a b = true)
    (hbc : jsStringLe b c = true) : jsStringLe a c = true :=
  lexLe_trans _ _ _ hab hbc

theorem jsStringLt_of_le_of_ne (a b : String) (hab : jsStringLe a b = true) (hne : a ≠ b) :
    jsStringLt a b = true := by
  unfold jsStringLt
  cases hba : jsStringLe b a with
  | false => rfl
  | true => exact absurd (jsStringLe_antisymm a b hab hba) hne

theorem jsStringLe_of_lt (a b : String) (hab : jsStringLt a b = true) :
    jsStringLe a b = true := by
  unfold jsStringLt at hab
  unfold jsStringLe at hab ⊢
  rcases lexLe_total (a.toList.flatMap utf16Units) (b.toList.flatMap utf16Units) with h | h
  · exact h
  · rw [h] at hab
    simp at hab


/-! ## Gap filling: the values written -/

/-- The neighbours of a date are looked up among the entries of `existingDates`, so
entries appended for other dates do not change what `fillDate` computes. -/
theorem fillDate_append (existingDates : List String) (avgLight avgAc : ℚ)
    (daily extra : List (String × Consumption)) (d : String)
    (hsub : ∀ x ∈ existingDates, x ∈ daily.map Prod.fst)
    (hd : d ∉ (daily ++ extra).map Prod.fst) :
    ∃ c, fillDate existingDates avgLight avgAc daily d = daily ++ [(d, c)] ∧
      fillDate existingDates avgLight avgAc (daily ++ extra) d = (daily ++ extra) ++ [(d, c)] := by
  have hd1 : daily.lookup d = none := by
    rw [lookup_eq_none_iff_not_mem]
    intro hin
    exact hd (by rw [List.map_append, List.mem_append]; exact Or.inl hin)
  have hd2 : (daily ++ extra).lookup d = none := (lookup_eq_none_iff_not_mem _ _).mpr hd
  have hlook : ∀ x ∈ existingDates, (daily ++ extra).lookup x = daily.lookup x := by
    intro x hx
    rw [List.lookup_append]
    cases hl : daily.lookup x with
    | none => exact absurd (hsub x hx) ((lookup_eq_none_iff_not_mem _ _).mp hl)
    | some v => rfl
  have hbind : ∀ (o : Option String), (∀ x, o = some x → x ∈ existingDates) →
      o.bind (fun e => (daily ++ extra).lookup e) = o.bind (fun e => daily.lookup e) := by
    intro o ho
    cases o with
    | none => rfl
    | some x => exact hlook x (ho x rfl)
  have hprev := hbind (existingDates.reverse.find? (fun e => jsStringLt e d))
    (fun x hx => List.mem_reverse.mp (List.mem_of_find?_eq_some hx))
  have hnext := hbind (existingDates.find? (fun e => jsStringLt d e))
    (fun x hx => List.mem_of_find?_eq_some hx)
  unfold fillDate
  rw [hd1, hd2]
  simp only [hprev, hnext]
  exact ⟨_, rfl, rfl⟩

theorem foldl_fillDate_values (existingDates : List String) (avgLight avgAc : ℚ)
    (daily : List (String × Consumption))
    (hsub : ∀ x ∈ existingDates, x ∈ daily.map Prod.fst) :
    ∀ (allDates : List String) (extra : List (String × Consumption)),
      (∀ e ∈ extra, e.1 ∉ daily.map Prod.fst) →
      ∃ filled,
        allDates.foldl (fillDate existingDates avgLight avgAc) (daily ++ extra) =
          (daily ++ extra) ++ filled ∧
        ∀ e ∈ filled, e.1 ∈ allDates ∧ e.1 ∉ daily.map Prod.fst ∧
          fillDate existingDates avgLight avgAc daily e.1 = daily ++ [e] := by
  intro allDates
  induction allDates with
  | nil =>
    intro extra _
    exact ⟨[], by simp, by simp⟩
  | cons d rest ih =>
    intro extra hextra
    rw [List.foldl_cons]
    by_cases hmem : d ∈ (daily ++ extra).map Prod.fst
    · have heq : fillDate existingDates avgLight avgAc (daily ++ extra) d = daily ++ extra := by
        rcases fillDate_cases existingDates avgLight avgAc (daily ++ extra) d with
          ⟨_, h1⟩ | ⟨h1, _⟩
        · exact h1
        · exact absurd hmem h1
      rw [heq]
      obtain ⟨filled, hf, hprop⟩ := ih extra hextra
      refine ⟨filled, hf, fun e he => ?_⟩
      obtain ⟨h1, h2, h3⟩ := hprop e he
      exact ⟨List.mem_cons_of_mem d h1, h2, h3⟩
    · obtain ⟨c, hc1, hc2⟩ := fillDate_append existingDates avgLight avgAc daily extra d
        hsub hmem
      have hdnot : d ∉ daily.map Prod.fst := by
        intro hin
        exact hmem (by rw [List.map_append, List.mem_append]; exact Or.inl hin)
      rw [hc2, List.append_assoc]
      obtain ⟨filled, hf, hprop⟩ := ih (extra ++ [(d, c)]) (by
        intro e he
        rcases List.mem_append.mp he with he | he
        · exact hextra e he
        · rw [List.mem_singleton] at he
          rw [he]
          exact hdnot)
      refine ⟨(d, c) :: filled, ?_, fun e he => ?_⟩
      · rw [hf]
        simp only [List.append_assoc, List.singleton_append]
      · rcases List.mem_cons.mp he with hed | hef
        · rw [hed]
          exact ⟨List.mem_cons_self d rest, hdnot, hc1⟩
        · obtain ⟨h1, h2, h3⟩ := hprop e hef
          exact ⟨List.mem_cons_of_mem d h1, h2, h3⟩

/-- Every entry that `fillGaps` appends is the entry that `fillDate` computes for its date
from the entries of the dates with readings alone; its date is one of
`allDatesInRange`. -/
theorem fillGaps_values (h : Host) (daily filled : List (String × Consumption))
    (hsorted : (daily.map Prod.fst).Sorted (fun a b => jsStringLe a b = true))
    (hfill : fillGaps h daily = some (daily ++ filled)) :
    ∀ e ∈ filled,
      2 ≤ daily.length ∧
      (∃ allDates,
        allDatesInRange h ((daily.map Prod.fst).headD "") ((daily.map Prod.fst).getLastD "") =
          some allDates ∧ e.1 ∈ allDates) ∧
      e.1 ∉ daily.map Prod.fst ∧
      fillDate (daily.map Prod.fst) (averageOf (daily.map (fun e => e.2.light)))
        (averageOf (daily.map (fun e => e.2.ac))) daily e.1 = daily ++ [e] := by
  have hsame : (daily.map Prod.fst).insertionSort (fun a b => jsStringLe a b = true) =
      daily.map Prod.fst := List.Sorted.insertionSort_eq hsorted
  unfold fillGaps at hfill
  simp only [hsame, List.length_map] at hfill
  by_cases hlen : daily.length > 1
  · rw [if_pos hlen] at hfill
    cases hall : allDatesInRange h ((daily.map Prod.fst).headD "")
        ((daily.map Prod.fst).getLastD "") with
    | none => rw [hall] at hfill; simp at hfill
    | some allDates =>
      rw [hall] at hfill
      simp only [Option.some.injEq] at hfill
      obtain ⟨filled', hf, hprop⟩ := foldl_fillDate_values (daily.map Prod.fst)
        (averageOf (daily.map (fun e => e.2.light))) (averageOf (daily.map (fun e => e.2.ac)))
        daily (fun x hx => hx) allDates [] (by simp)
      simp only [List.append_nil] at hf
      rw [hf] at hfill
      have heq : filled' = filled := List.append_cancel_left hfill
      subst heq
      intro e he
      obtain ⟨h1, h2, h3⟩ := hprop e he
      exact ⟨hlen, ⟨allDates, rfl, h1⟩, h2, h3⟩
  · rw [if_neg hlen] at hfill
    have hnil : filled = [] := by
      have := Option.some.inj hfill
      have h2 : daily ++ [] = daily ++ filled := by simpa using this
      exact (List.append_cancel_left h2).symm
    subst hnil
    intro e he
    simp at he


/-! ## The searches for the neighbours of a missing date -/

theorem find_prev_of_nearest (dates : List String) (D P : String)
    (hsorted : dates.Sorted (fun a b => jsStringLe a b = true)) (hnd : dates.Nodup)
    (hP : NearestBefore dates D P) :
    dates.reverse.find? (fun e => jsStringLt e D) = some P := by
  obtain ⟨hmem, hlt, hnear⟩ := hP
  obtain ⟨l1, l2, hsplit⟩ := List.append_of_mem hmem
  rw [List.find?_eq_some]
  refine ⟨hlt, l2.reverse, l1.reverse, by rw [hsplit]; simp, ?_⟩
  intro a ha
  rw [List.mem_reverse] at ha
  have hPa : jsStringLe P a = true := by
    rw [hsplit] at hsorted
    exact List.rel_of_pairwise_cons (List.pairwise_append.mp hsorted).2.1 ha
  have hne : a ≠ P := by
    rw [hsplit] at hnd
    intro hEq
    have h2 := (List.nodup_append.mp hnd).2.1
    rw [List.nodup_cons] at h2
    exact h2.1 (hEq ▸ ha)
  cases hp : jsStringLt a D with
  | false => rfl
  | true =>
    rcases hnear a (by rw [hsplit]; simp [ha]) hp with h1 | h1
    · exact absurd h1 hne
    · unfold jsStringLt at h1
      rw [hPa] at h1
      simp at h1

theorem find_next_of_nearest (dates : List String) (D N : String)
    (hsorted : dates.Sorted (fun a b => jsStringLe a b = true)) (hnd : dates.Nodup)
    (hN : NearestAfter dates D N) :
    dates.find? (fun e => jsStringLt D e) = some N := by
  obtain ⟨hmem, hlt, hnear⟩ := hN
  obtain ⟨l1, l2, hsplit⟩ := List.append_of_mem hmem
  rw [List.find?_eq_some]
  refine ⟨hlt, l1, l2, hsplit, ?_⟩
  intro a ha
  have haN : jsStringLe a N = true := by
    rw [hsplit] at hsorted
    exact (List.pairwise_append.mp hsorted).2.2 a ha N (List.mem_cons_self N l2)
  have hne : a ≠ N := by
    rw [hsplit] at hnd
    intro hEq
    exact (List.nodup_append.mp hnd).2.2 ha (hEq ▸ List.mem_cons_self N l2)
  cases hp : jsStringLt D a with
  | false => rfl
  | true =>
    rcases hnear a (by rw [hsplit]; simp [ha]) hp with h1 | h1
    · exact absurd h1 hne
    · unfold jsStringLt at h1
      rw [haN] at h1
      simp at h1

theorem nearest_of_find_prev (dates : List String) (D P : String)
    (hsorted : dates.Sorted (fun a b => jsStringLe a b = true)) (hnd : dates.Nodup)
    (hfind : dates.reverse.find? (fun e => jsStringLt e D) = some P) :
    NearestBefore dates D P := by
  obtain ⟨hlt, front, back, hsplit, hfront⟩ := List.find?_eq_some.mp hfind
  have hdates : dates = back.reverse ++ P :: front.reverse := by
    have := congrArg List.reverse hsplit
    simpa using this
  refine ⟨by rw [hdates]; simp, hlt, fun e he hp => ?_⟩
  rw [hdates] at he hsorted hnd
  rcases List.mem_append.mp he with he | he
  · right
    have hle : jsStringLe e P = true :=
      (List.pairwise_append.mp hsorted).2.2 e he P (List.mem_cons_self P _)
    have hne : e ≠ P := fun hEq =>
      (List.nodup_append.mp hnd).2.2 he (hEq ▸ List.mem_cons_self P _)
    exact jsStringLt_of_le_of_ne e P hle hne
  · rcases List.mem_cons.mp he with he | he
    · exact Or.inl he
    · have := hfront e (List.mem_reverse.mp he)
      rw [hp] at this
      simp at this

theorem nearest_of_find_next (dates : List String) (D N : String)
    (hsorted : dates.Sorted (fun a b => jsStringLe a b = true)) (hnd : dates.Nodup)
    (hfind : dates.find? (fun e => jsStringLt D e) = some N) :
    NearestAfter dates D N := by
  obtain ⟨hlt, front, back, hsplit, hfront⟩ := List.find?_eq_some.mp hfind
  refine ⟨by rw [hsplit]; simp, hlt, fun e he hp => ?_⟩
  rw [hsplit] at he hsorted hnd
  rcases List.mem_append.mp he with he | he
  · have := hfront e he
    rw [hp] at this
    simp at this
  · rcases List.mem_cons.mp he with he | he
    · exact Or.inl he
    · right
      have hle : jsStringLe N e = true :=
        List.rel_of_pairwise_cons (List.pairwise_append.mp hsorted).2.1 he
      have hne : N ≠ e := by
        intro hEq
        have h2 := (List.nodup_append.mp hnd).2.1
        rw [List.nodup_cons] at h2
        exact h2.1 (hEq ▸ he)
      exact jsStringLt_of_le_of_ne N e hle hne

theorem averageOf_eq (values : List ℚ) : averageOf values = values.sum / values.length := by
  unfold averageOf
  by_cases hlen : values.length > 0
  · rw [if_pos hlen, List.sum_eq_foldl]
  · have : values = [] := List.length_eq_zero.mp (by omega)
    rw [if_neg hlen, this]
    simp

theorem lookup_isSome_of_mem {β : Type} (l : List (String × β)) (k : String)
    (hk : k ∈ l.map Prod.fst) : ∃ v, l.lookup k = some v := by
  cases hl : l.lookup k with
  | none => exact absurd hk ((lookup_eq_none_iff_not_mem l k).mp hl)
  | some v => exact ⟨v, rfl⟩

/-- A filled entry of the yearly report is an entry that the gap filling appended. -/
theorem filled_entry_spec (h : Host) (data : List TaggedReading) (year : ℕ)
    (ys : YearlyStats) (daily : List (String × Consumption))
    (hres : calculateYearlyStats h data year = some ys)
    (hdaily : dailyConsumption h data year = some daily)
    (D : String) (c : Consumption) (hD : (D, c) ∈ ys.dailyConsumption)
    (hnot : D ∉ sortedDates data year) :
    daily.map Prod.fst = sortedDates data year ∧ daily.lookup D = none ∧
      (∃ allDates,
        allDatesInRange h ((sortedDates data year).headD "")
          ((sortedDates data year).getLastD "") = some allDates ∧ D ∈ allDates) ∧
      fillDate (sortedDates data year) (averageOf (daily.map (fun e => e.2.light)))
        (averageOf (daily.map (fun e => e.2.ac))) daily D = daily ++ [(D, c)] := by
  obtain ⟨daily', filled, hd, hfill, hys, _⟩ := calculateYearlyStats_spec h data year ys hres
  rw [hdaily] at hd
  have hEq : daily' = daily := (Option.some.inj hd).symm
  subst hEq
  have hkeys := dailyConsumption_keys h data year daily' hdaily
  have hsorted : (daily'.map Prod.fst).Sorted (fun a b => jsStringLe a b = true) := by
    rw [hkeys]
    exact sorted_sortedDates data year
  rw [hys, List.mem_append] at hD
  have hin : (D, c) ∈ filled := by
    rcases hD with hD | hD
    · exact absurd (hkeys ▸ List.mem_map_of_mem Prod.fst hD) hnot
    · exact hD
  obtain ⟨_, ⟨allDates, hall, hmem⟩, _, hval⟩ := fillGaps_values h daily' filled hsorted hfill
    (D, c) hin
  rw [hkeys] at hall hval
  refine ⟨hkeys, ?_, ⟨allDates, hall, hmem⟩, hval⟩
  rw [lookup_eq_none_iff_not_mem, hkeys]
  exact hnot

/-- C25. Gap fill value: an entry of a date without readings, whose nearest date with
readings before it is `P` and after it is `N`, has per field the value
`clamp(min((p + n) / 2, 2 * avg), 0, 50)`, where `p` and `n` are the entries that the
per-day loop wrote for `P` and `N` and `avg` is the mean of the entries of the dates
with readings. -/
theorem gap_fill_value (h : Host) (data : List TaggedReading) (year : ℕ)
    (ys : YearlyStats) (daily : List (String × Consumption))
    (hres : calculateYearlyStats h data year = some ys)
    (hdaily : dailyConsumption h data year = some daily)
    (D P N : String) (c p n : Consumption)
    (hD : (D, c) ∈ ys.dailyConsumption) (hnot : D ∉ sortedDates data year)
    (hP : NearestBefore (sortedDates data year) D P)
    (hN : NearestAfter (sortedDates data year) D N)
    (hp : daily.lookup P = some p) (hn : daily.lookup N = some n) :
    c.light = clamp (min ((p.light + n.light) / 2)
        (2 * ((daily.map (fun e => e.2.light)).sum / daily.length))) 0 50 ∧
      c.ac = clamp (min ((p.ac + n.ac) / 2)
        (2 * ((daily.map (fun e => e.2.ac)).sum / daily.length))) 0 50 := by
  obtain ⟨_, hnone, _, hval⟩ := filled_entry_spec h data year ys daily hres hdaily D c hD hnot
  have hprev := find_prev_of_nearest _ D P (sorted_sortedDates data year)
    (nodup_sortedDates data year) hP
  have hnext := find_next_of_nearest _ D N (sorted_sortedDates data year)
    (nodup_sortedDates data year) hN
  rw [fillDate_between _ _ _ daily D P N p n hnone hprev hnext hp hn] at hval
  have hc := List.append_cancel_left hval
  simp only [List.cons.injEq, Prod.mk.injEq, true_and, and_true] at hc
  rw [← hc]
  simp only [averageOf_eq, List.length_map, MAX_DAILY_CONSUMPTION, mul_comm, and_self]


/-- C25, at a concrete input: the date 06-03 of `sampleGap`, between 06-02 (4) and 06-05
(2), receives 3. -/
theorem gap_fill_value_witness :
    (("2025-06-03", ⟨3, 0⟩) : String × Consumption) ∈ sampleGapStats.dailyConsumption ∧
      "2025-06-03" ∉ sortedDates sampleGap 2025 ∧
      NearestBefore (sortedDates sampleGap 2025) "2025-06-03" "2025-06-02" ∧
      NearestAfter (sortedDates sampleGap 2025) "2025-06-03" "2025-06-05" ∧
      (3 : ℚ) = clamp (min ((4 + 2) / 2)
        (2 * ((sampleGapDaily.map (fun e => e.2.light)).sum / sampleGapDaily.length))) 0 50 ∧
      (0 : ℚ) = clamp (min ((0 + 0) / 2)
        (2 * ((sampleGapDaily.map (fun e => e.2.ac)).sum / sampleGapDaily.length))) 0 50 := by
  have hnot : "2025-06-03" ∉ sortedDates sampleGap 2025 := by
    rw [sortedDates_sampleGap]
    decide
  have hP : NearestBefore (sortedDates sampleGap 2025) "2025-06-03" "2025-06-02" := by
    rw [sortedDates_sampleGap]
    unfold NearestBefore
    decide
  have hN : NearestAfter (sortedDates sampleGap 2025) "2025-06-03" "2025-06-05" := by
    rw [sortedDates_sampleGap]
    unfold NearestAfter
    decide
  exact ⟨by decide, hnot, hP, hN,
    gap_fill_value sampleHost sampleGap 2025 sampleGapStats sampleGapDaily
      calculateYearlyStats_sampleGap dailyConsumption_sampleGap
      "2025-06-03" "2025-06-02" "2025-06-05" ⟨3, 0⟩ ⟨4, 0⟩ ⟨2, 0⟩
      (by decide) hnot hP hN (by decide) (by decide)⟩

/-! ## The range of the gap filling -/

theorem allDatesInRange_unparsed (h : Host) (F L : String)
    (hbad : h.dateParse F = none ∨ h.dateParse L = none) :
    allDatesInRange h F L = some [] := by
  unfold allDatesInRange
  rcases hbad with hF | hL
  · rw [hF]
  · rw [hL]
    cases h.dateParse F <;> rfl

/-- C17, amended. Gap filling range.  With fewer than 2 dates with readings nothing is
filled, and nothing is filled either when `Date` cannot parse the key of the first or of
the last date with readings.  When both keys are parsed, on a host whose day step is 24
hours, the dates of `dailyConsumption` are the dates with readings together with the ISO
dates of the days `F`, `F + 1 day`, ... up to `L`; they are exactly these calendar dates
when every date with readings is the ISO date of one of these days. -/
theorem gap_fill_range (h : Host) (data : List TaggedReading) (year : ℕ) (ys : YearlyStats)
    (hres : calculateYearlyStats h data year = some ys) :
    ((sortedDates data year).length < 2 →
        ys.dailyConsumption.map Prod.fst = sortedDates data year) ∧
      (∀ F L : String,
        (sortedDates data year).head? = some F → (sortedDates data year).getLast? = some L →
        (h.dateParse F = none ∨ h.dateParse L = none) →
        ys.dailyConsumption.map Prod.fst = sortedDates data year) ∧
      ∀ (F L : String) (s e : ℤ),
        (∀ t, h.nextDay t = t + ONE_DAY_MS) → 2 ≤ (sortedDates data year).length →
        (sortedDates data year).head? = some F → (sortedDates data year).getLast? = some L →
        h.dateParse F = some s → h.dateParse L = some e →
        (∀ x, x ∈ ys.dailyConsumption.map Prod.fst ↔
          x ∈ sortedDates data year ∨
            ∃ k : ℕ, s + (k : ℤ) * ONE_DAY_MS ≤ e ∧
              x = h.toISODate (s + (k : ℤ) * ONE_DAY_MS)) ∧
        ((∀ D ∈ sortedDates data year,
            ∃ k : ℕ, s + (k : ℤ) * ONE_DAY_MS ≤ e ∧
              h.toISODate (s + (k : ℤ) * ONE_DAY_MS) = D) →
          ∀ x, x ∈ ys.dailyConsumption.map Prod.fst ↔
            ∃ k : ℕ, s + (k : ℤ) * ONE_DAY_MS ≤ e ∧
              x = h.toISODate (s + (k : ℤ) * ONE_DAY_MS)) := by
  obtain ⟨daily, filled, hd, hfill, hys, _, _, _, _, _, _⟩ :=
    calculateYearlyStats_spec h data year ys hres
  have hkeys := dailyConsumption_keys h data year daily hd
  have hsorted : (daily.map Prod.fst).Sorted (fun a b => jsStringLe a b = true) := by
    rw [hkeys]
    exact sorted_sortedDates data year
  have hlen : daily.length = (sortedDates data year).length := by
    rw [← hkeys, List.length_map]
  obtain ⟨hfew, hmany⟩ := fillGaps_keys h daily (daily ++ filled) hsorted hfill
  refine ⟨fun hlt => ?_, fun F L hF hL hbad => ?_, ?_⟩
  · rw [hys, hfew (by omega), hkeys]
  · have hnil : filled = [] := by
      rw [List.eq_nil_iff_forall_not_mem]
      intro e he
      obtain ⟨_, ⟨allDates, hall, hmem⟩, _, _⟩ :=
        fillGaps_values h daily filled hsorted hfill e he
      rw [hkeys, headD_of_head? _ F "" hF, getLastD_of_getLast? _ L "" hL,
        allDatesInRange_unparsed h F L hbad] at hall
      cases hall
      simp at hmem
    rw [hys, hnil, List.append_nil, hkeys]
  · intro F L s e hstep hge hF hL hs he
    obtain ⟨allDates, hall, hmem⟩ := hmany (by omega)
    rw [hkeys, headD_of_head? _ F "" hF, getLastD_of_getLast? _ L "" hL] at hall
    unfold allDatesInRange at hall
    rw [hs, he] at hall
    simp only at hall
    have hdates := datesFrom_mem h e hstep _ s allDates hall
    have hgen : ∀ x, x ∈ ys.dailyConsumption.map Prod.fst ↔
        x ∈ sortedDates data year ∨
          ∃ k : ℕ, s + (k : ℤ) * ONE_DAY_MS ≤ e ∧
            x = h.toISODate (s + (k : ℤ) * ONE_DAY_MS) := by
      intro x
      rw [hys, hmem x, hkeys, hdates x]
    refine ⟨hgen, fun hcal x => ?_⟩
    rw [hgen x]
    constructor
    · rintro (hx | hx)
      · obtain ⟨k, hk, hiso⟩ := hcal x hx
        exact ⟨k, hk, hiso.symm⟩
      · exact hx
    · intro hx
      exact Or.inr hx

/-- C17 amended, at a concrete input: the readings of 06-01, 06-02 and 06-10 leave behind exactly
the ten dates from 06-01 to 06-10. -/
theorem gap_fill_range_witness :
    ∃ ys, calculateYearlyStats sampleHost sampleYear 2025 = some ys ∧
      ∀ x, x ∈ ys.dailyConsumption.map Prod.fst ↔
        x ∈ ["2025-06-01", "2025-06-02", "2025-06-03", "2025-06-04", "2025-06-05",
          "2025-06-06", "2025-06-07", "2025-06-08", "2025-06-09", "2025-06-10"] := by
  obtain ⟨ys, hys⟩ := calculateYearlyStats_sampleYear_isSome
  refine ⟨ys, hys, fun x => ?_⟩
  have hrange := ((gap_fill_range sampleHost sampleYear 2025 ys hys).2.2
    "2025-06-01" "2025-06-10" 1748736000000 1749513600000 (fun _ => rfl)
    (by rw [sortedDates_sampleYear]; decide) (by rw [sortedDates_sampleYear]; rfl)
    (by rw [sortedDates_sampleYear]; rfl) (by decide) (by decide)).2
    (by
      intro D hD
      rw [sortedDates_sampleYear] at hD
      simp only [List.mem_cons, List.mem_singleton, List.not_mem_nil, or_false] at hD
      rcases hD with hD | hD | hD
      · subst hD; exact ⟨0, by decide, by decide⟩
      · subst hD; exact ⟨1, by decide, by decide⟩
      · subst hD; exact ⟨9, by decide, by decide⟩)
  have hlist : ["2025-06-01", "2025-06-02", "2025-06-03", "2025-06-04", "2025-06-05",
      "2025-06-06", "2025-06-07", "2025-06-08", "2025-06-09", "2025-06-10"] =
      (List.range 10).map (fun k : ℕ =>
        sampleHost.toISODate (1748736000000 + (k : ℤ) * ONE_DAY_MS)) := by
    decide
  rw [hrange x, hlist, List.mem_map]
  constructor
  · rintro ⟨k, hk, hx⟩
    refine ⟨k, List.mem_range.mpr ?_, hx.symm⟩
    simp only [ONE_DAY_MS] at hk
    omega
  · rintro ⟨k, hk, hx⟩
    refine ⟨k, ?_, hx.symm⟩
    have := List.mem_range.mp hk
    simp only [ONE_DAY_MS]
    omega

/-! ### The yearly report at a date key that is no calendar date -/

theorem sortedDates_sampleBadDate :
    sortedDates sampleBadDate 2025 = ["2025-06-01", "2025-06-45"] := by decide

theorem dayDiff_sampleBadDate : dayDiff sampleHost "2025-06-01" "2025-06-45" = none := by
  have p1 : sampleHost.dateParse "2025-06-45" = none := by decide
  unfold dayDiff
  rw [p1]
  cases sampleHost.dateParse "2025-06-01" <;> rfl

theorem sortRecords_sampleBadDate_01 :
    sortRecords sampleHost (recordsByDate sampleBadDate "2025-06-01") =
      some [⟨⟨"06-01 08:00", some 80, some 30⟩, "2025-06"⟩] := by decide

theorem sortRecords_sampleBadDate_45 :
    sortRecords sampleHost (recordsByDate sampleBadDate "2025-06-45") =
      some [⟨⟨"06-45 08:00", some 70, some 30⟩, "2025-06"⟩] := by decide

theorem consumptionOfDate_sampleBadDate_01 :
    consumptionOfDate sampleHost sampleBadDate ["2025-06-01", "2025-06-45"] 0
      "2025-06-01" = some (some ⟨0, 0⟩) := by
  unfold consumptionOfDate
  rw [sortRecords_sampleBadDate_01]
  simp only [List.head?_cons, List.getLast?_singleton, nextDayFirstRecord]
  simp only [List.length_cons, List.length_nil, List.getElem?_cons_succ,
    List.getElem?_cons_zero, sortRecords_sampleBadDate_45]
  simp only [Nat.reduceAdd, Nat.reduceSub, Nat.reduceLT, if_true, Option.map_some',
    List.head?_cons, zero_add, List.getD_cons_succ, List.getD_cons_zero,
    dayDiff_sampleBadDate]
  norm_num [sameDay]

theorem consumptionOfDate_sampleBadDate_45 :
    consumptionOfDate sampleHost sampleBadDate ["2025-06-01", "2025-06-45"] 1
      "2025-06-45" = some (some ⟨0, 0⟩) := by
  unfold consumptionOfDate
  rw [sortRecords_sampleBadDate_45]
  simp only [List.head?_cons, List.getLast?_singleton, nextDayFirstRecord]
  simp only [List.length_cons, List.length_nil, List.getElem?_cons_succ,
    List.getElem?_cons_zero]
  simp only [Nat.reduceAdd, Nat.reduceSub, Nat.reduceLT, Nat.lt_irrefl, if_false]
  norm_num [sameDay]

theorem dailyConsumption_sampleBadDate :
    dailyConsumption sampleHost sampleBadDate 2025 =
      some [("2025-06-01", ⟨0, 0⟩), ("2025-06-45", ⟨0, 0⟩)] := by
  unfold dailyConsumption
  rw [sortedDates_sampleBadDate]
  simp only [collectDaily, consumptionOfDate_sampleBadDate_01,
    consumptionOfDate_sampleBadDate_45, zero_add, Nat.reduceAdd]

theorem fillGaps_sampleBadDate :
    fillGaps sampleHost [("2025-06-01", ⟨0, 0⟩), ("2025-06-45", ⟨0, 0⟩)] =
      some [("2025-06-01", ⟨0, 0⟩), ("2025-06-45", ⟨0, 0⟩)] := by
  have hsort : (["2025-06-01", "2025-06-45"] : List String).insertionSort
      (fun a b => jsStringLe a b = true) = ["2025-06-01", "2025-06-45"] := by
    decide
  have hall : allDatesInRange sampleHost "2025-06-01" "2025-06-45" = some [] := by decide
  unfold fillGaps
  simp only [List.map_cons, List.map_nil, hsort, List.length_cons, List.length_nil,
    Nat.reduceAdd, Nat.one_lt_ofNat, gt_iff_lt, Nat.reduceLT, if_true, List.headD_cons,
    List.getLastD_cons, List.getLastD_nil, hall, List.foldl_nil]

/-- C17, as stated, fails: the readings of `06-01` and `06-45` give two dates with
readings, `2025-06-01` and `2025-06-45`; `Date` cannot parse the second key, the date
loop does not run and nothing is filled, so `2025-06-02`, which lies between the two
keys, is not among the dates of `dailyConsumption`. -/
theorem gap_fill_range_counterexample :
    sortedDates sampleBadDate 2025 = ["2025-06-01", "2025-06-45"] ∧
      sampleHost.dateParse "2025-06-45" = none ∧
      jsStringLt "2025-06-01" "2025-06-02" = true ∧
      jsStringLt "2025-06-02" "2025-06-45" = true ∧
      ∃ ys, calculateYearlyStats sampleHost sampleBadDate 2025 = some ys ∧
        ys.dailyConsumption = [("2025-06-01", ⟨0, 0⟩), ("2025-06-45", ⟨0, 0⟩)] ∧
        "2025-06-02" ∉ ys.dailyConsumption.map Prod.fst := by
  refine ⟨sortedDates_sampleBadDate, by decide, by decide, by decide, ?_⟩
  have hcalc : ∃ ys, calculateYearlyStats sampleHost sampleBadDate 2025 = some ys ∧
      ys.dailyConsumption = [("2025-06-01", ⟨0, 0⟩), ("2025-06-45", ⟨0, 0⟩)] := by
    unfold calculateYearlyStats
    rw [dailyConsumption_sampleBadDate]
    simp only [fillGaps_sampleBadDate]
    exact ⟨_, rfl, rfl⟩
  obtain ⟨ys, hys, hd⟩ := hcalc
  refine ⟨ys, hys, hd, ?_⟩
  rw [hd]
  decide

/-! ## The neighbours of a filled date and the day gap -/

theorem jsStringLe_refl (a : String) : jsStringLe a a = true := lexLe_refl _

theorem jsStringLe_total (a b : String) : jsStringLe a b = true ∨ jsStringLe b a = true :=
  lexLe_total _ _

theorem jsStringLt_of_le_of_lt (a b c : String) (hab : jsStringLe a b = true)
    (hbc : jsStringLt b c = true) : jsStringLt a c = true := by
  unfold jsStringLt at hbc ⊢
  cases hca : jsStringLe c a with
  | false => rfl
  | true =>
    rw [jsStringLe_trans c a b hca hab] at hbc
    simp at hbc

theorem jsStringLt_of_lt_of_le (a b c : String) (hab : jsStringLt a b = true)
    (hbc : jsStringLe b c = true) : jsStringLt a c = true := by
  unfold jsStringLt at hab ⊢
  cases hca : jsStringLe c a with
  | false => rfl
  | true =>
    rw [jsStringLe_trans b c a hbc hca] at hab
    simp at hab

theorem head_le_of_sorted (dates : List String) (F : String)
    (hsorted : dates.Sorted (fun a b => jsStringLe a b = true))
    (hF : dates.head? = some F) : ∀ x ∈ dates, jsStringLe F x = true := by
  cases dates with
  | nil => simp at hF
  | cons a l =>
    simp only [List.head?_cons, Option.some.injEq] at hF
    subst hF
    intro x hx
    rcases List.mem_cons.mp hx with hx | hx
    · rw [hx]
      exact jsStringLe_refl a
    · exact List.rel_of_sorted_cons hsorted x hx

theorem le_last_of_sorted (dates : List String) (L : String)
    (hsorted : dates.Sorted (fun a b => jsStringLe a b = true))
    (hL : dates.getLast? = some L) : ∀ x ∈ dates, jsStringLe x L = true := by
  obtain ⟨front, hsplit⟩ := List.getLast?_eq_some_iff.mp hL
  rw [hsplit] at hsorted
  intro x hx
  rw [hsplit] at hx
  rcases List.mem_append.mp hx with hx | hx
  · exact (List.pairwise_append.mp hsorted).2.2 x hx L (List.mem_singleton_self L)
  · rw [List.mem_singleton] at hx
    rw [hx]
    exact jsStringLe_refl L

/-- A date with a date of `dates` before it has a nearest one, the one the backward search
finds. -/
theorem prev_search_iff (dates : List String) (F D : String)
    (hsorted : dates.Sorted (fun a b => jsStringLe a b = true)) (hnd : dates.Nodup)
    (hF : dates.head? = some F) :
    jsStringLt F D = true ↔
      ∃ P, dates.reverse.find? (fun e => jsStringLt e D) = some P ∧
        NearestBefore dates D P := by
  have hFmem : F ∈ dates := List.mem_of_mem_head? (by rw [hF]; exact rfl)
  constructor
  · intro hFD
    have hsome : (dates.reverse.find? (fun e => jsStringLt e D)).isSome = true := by
      rw [List.find?_isSome]
      exact ⟨F, List.mem_reverse.mpr hFmem, hFD⟩
    obtain ⟨P, hP⟩ := Option.isSome_iff_exists.mp hsome
    exact ⟨P, hP, nearest_of_find_prev dates D P hsorted hnd hP⟩
  · rintro ⟨P, _, hPmem, hPD, _⟩
    exact jsStringLt_of_le_of_lt F P D (head_le_of_sorted dates F hsorted hF P hPmem) hPD

theorem next_search_iff (dates : List String) (L D : String)
    (hsorted : dates.Sorted (fun a b => jsStringLe a b = true)) (hnd : dates.Nodup)
    (hL : dates.getLast? = some L) :
    jsStringLt D L = true ↔
      ∃ N, dates.find? (fun e => jsStringLt D e) = some N ∧ NearestAfter dates D N := by
  have hLmem : L ∈ dates := List.mem_of_mem_getLast? (by rw [hL]; exact rfl)
  constructor
  · intro hDL
    have hsome : (dates.find? (fun e => jsStringLt D e)).isSome = true := by
      rw [List.find?_isSome]
      exact ⟨L, hLmem, hDL⟩
    obtain ⟨N, hN⟩ := Option.isSome_iff_exists.mp hsome
    exact ⟨N, hN, nearest_of_find_next dates D N hsorted hnd hN⟩
  · rintro ⟨N, _, hNmem, hDN, _⟩
    exact jsStringLt_of_lt_of_le D N L hDN (le_last_of_sorted dates L hsorted hL N hNmem)

/-- On a host whose day step is 24 hours and whose ISO dates of the days from the first to
the last date with readings start with the first, end with the last and increase in the
string order, a filled date lies strictly between the first and the last date with
readings. -/
theorem filled_between_of_host (h : Host) (data : List TaggedReading) (year : ℕ)
    (ys : YearlyStats) (daily : List (String × Consumption))
    (hres : calculateYearlyStats h data year = some ys)
    (hdaily : dailyConsumption h data year = some daily)
    (F L : String) (s : ℤ) (K : ℕ)
    (hstep : ∀ t, h.nextDay t = t + ONE_DAY_MS)
    (hF : (sortedDates data year).head? = some F)
    (hL : (sortedDates data year).getLast? = some L)
    (hs : h.dateParse F = some s)
    (he : h.dateParse L = some (s + (K : ℤ) * ONE_DAY_MS))
    (hisoF : h.toISODate s = F) (hisoL : h.toISODate (s + (K : ℤ) * ONE_DAY_MS) = L)
    (hmono : ∀ j k : ℕ, j < k → k ≤ K →
      jsStringLt (h.toISODate (s + (j : ℤ) * ONE_DAY_MS))
        (h.toISODate (s + (k : ℤ) * ONE_DAY_MS)) = true)
    (D : String) (c : Consumption) (hD : (D, c) ∈ ys.dailyConsumption)
    (hnot : D ∉ sortedDates data year) :
    jsStringLt F D = true ∧ jsStringLt D L = true := by
  obtain ⟨_, _, ⟨allDates, hall, hmem⟩, _⟩ :=
    filled_entry_spec h data year ys daily hres hdaily D c hD hnot
  have hFmem : F ∈ sortedDates data year := List.mem_of_mem_head? (by rw [hF]; exact rfl)
  have hLmem : L ∈ sortedDates data year := List.mem_of_mem_getLast? (by rw [hL]; exact rfl)
  rw [headD_of_head? _ F "" hF, getLastD_of_getLast? _ L "" hL] at hall
  unfold allDatesInRange at hall
  rw [hs, he] at hall
  simp only at hall
  obtain ⟨k, hk, hDk⟩ := (datesFrom_mem h _ hstep _ s allDates hall D).mp hmem
  have hday : (0 : ℤ) < ONE_DAY_MS := by decide
  have hkK : k ≤ K := by
    have h1 : (k : ℤ) * ONE_DAY_MS ≤ (K : ℤ) * ONE_DAY_MS := by linarith
    have h2 : (k : ℤ) ≤ (K : ℤ) := le_of_mul_le_mul_right h1 hday
    exact_mod_cast h2
  have hk0 : 0 < k := by
    rcases Nat.eq_zero_or_pos k with h0 | h0
    · exfalso
      apply hnot
      rw [hDk, h0]
      simp only [Nat.cast_zero, zero_mul, add_zero]
      rw [hisoF]
      exact hFmem
    · exact h0
  have hkne : k ≠ K := by
    intro hEq
    apply hnot
    rw [hDk, hEq, hisoL]
    exact hLmem
  constructor
  · have := hmono 0 k hk0 hkK
    simp only [Nat.cast_zero, zero_mul, add_zero] at this
    rw [hisoF, ← hDk] at this
    exact this
  · have := hmono k K (by omega) (le_refl K)
    rw [hisoL, ← hDk] at this
    exact this

theorem bind_lookup_isSome_iff (daily : List (String × Consumption)) (dates : List String)
    (hkeys : daily.map Prod.fst = dates) (found : Option String)
    (hfound : ∀ P, found = some P → P ∈ dates) :
    (found.bind (fun e => daily.lookup e)).isSome = true ↔ found.isSome = true := by
  cases found with
  | none => simp
  | some P =>
    obtain ⟨p, hp⟩ := lookup_isSome_of_mem daily P (by rw [hkeys]; exact hfound P rfl)
    simp [hp]

theorem fillDate_absent (existingDates : List String) (avgLight avgAc : ℚ)
    (daily : List (String × Consumption)) (dateStr : String)
    (hc : daily.lookup dateStr = none) :
    fillDate existingDates avgLight avgAc daily dateStr =
      daily ++ [(dateStr,
        ⟨clamp (fillChoice
            (((existingDates.reverse.find? (fun e => jsStringLt e dateStr)).bind
              (fun e => daily.lookup e)).map (fun x => x.light))
            (((existingDates.find? (fun e => jsStringLt dateStr e)).bind
              (fun e => daily.lookup e)).map (fun x => x.light)) avgLight) 0
            MAX_DAILY_CONSUMPTION,
          clamp (fillChoice
            (((existingDates.reverse.find? (fun e => jsStringLt e dateStr)).bind
              (fun e => daily.lookup e)).map (fun x => x.ac))
            (((existingDates.find? (fun e => jsStringLt dateStr e)).bind
              (fun e => daily.lookup e)).map (fun x => x.ac)) avgAc) 0
            MAX_DAILY_CONSUMPTION⟩)] := by
  unfold fillDate
  rw [hc]

/-- C26, amended. For every date `D` that `calculateYearlyStats` fills, with `prev` and
`next` the entries that the backward and the forward search of the fill yield (`none` for
a search that finds nothing): the value written is the one the fill chooses from `prev`,
`next` and the averages; `prev` exists exactly when a nearest date with readings before
`D` exists, which is exactly when the first date with readings is before `D` in the
string order, and `next` exists exactly when a nearest date with readings after `D`
exists, which is exactly when `D` is before the last date with readings; at least one of
the two exists, so the branch of the overall average is never taken.  On a host whose day
step is 24 hours and whose ISO dates of the days from the first to the last date with
readings start with the first, end with the last and increase in the string order, both
exist, and the value is the one of the two-sided branch. -/
theorem gap_fill_two_sided (h : Host) (data : List TaggedReading) (year : ℕ)
    (ys : YearlyStats) (daily : List (String × Consumption))
    (hres : calculateYearlyStats h data year = some ys)
    (hdaily : dailyConsumption h data year = some daily)
    (D : String) (c : Consumption) (hD : (D, c) ∈ ys.dailyConsumption)
    (hnot : D ∉ sortedDates data year) :
    ∃ (F L : String) (prev next : Option Consumption),
      (sortedDates data year).head? = some F ∧
      (sortedDates data year).getLast? = some L ∧
      prev = ((sortedDates data year).reverse.find? (fun e => jsStringLt e D)).bind
        (fun e => daily.lookup e) ∧
      next = ((sortedDates data year).find? (fun e => jsStringLt D e)).bind
        (fun e => daily.lookup e) ∧
      c = ⟨clamp (fillChoice (prev.map (fun x => x.light)) (next.map (fun x => x.light))
            (averageOf (daily.map (fun e => e.2.light)))) 0 MAX_DAILY_CONSUMPTION,
          clamp (fillChoice (prev.map (fun x => x.ac)) (next.map (fun x => x.ac))
            (averageOf (daily.map (fun e => e.2.ac)))) 0 MAX_DAILY_CONSUMPTION⟩ ∧
      (prev.isSome = true ↔ ∃ P, NearestBefore (sortedDates data year) D P) ∧
      (next.isSome = true ↔ ∃ N, NearestAfter (sortedDates data year) D N) ∧
      (prev.isSome = true ↔ jsStringLt F D = true) ∧
      (next.isSome = true ↔ jsStringLt D L = true) ∧
      (prev.isSome = true ∨ next.isSome = true) ∧
      ∀ (s : ℤ) (K : ℕ), (∀ t, h.nextDay t = t + ONE_DAY_MS) →
        h.dateParse F = some s → h.dateParse L = some (s + (K : ℤ) * ONE_DAY_MS) →
        h.toISODate s = F → h.toISODate (s + (K : ℤ) * ONE_DAY_MS) = L →
        (∀ j k : ℕ, j < k → k ≤ K →
          jsStringLt (h.toISODate (s + (j : ℤ) * ONE_DAY_MS))
            (h.toISODate (s + (k : ℤ) * ONE_DAY_MS)) = true) →
        ∃ P N p n,
          NearestBefore (sortedDates data year) D P ∧
          NearestAfter (sortedDates data year) D N ∧
          (sortedDates data year).reverse.find? (fun e => jsStringLt e D) = some P ∧
          (sortedDates data year).find? (fun e => jsStringLt D e) = some N ∧
          daily.lookup P = some p ∧ daily.lookup N = some n ∧
          prev = some p ∧ next = some n ∧
          c = ⟨clamp (fillChoice (some p.light) (some n.light)
                (averageOf (daily.map (fun e => e.2.light)))) 0 MAX_DAILY_CONSUMPTION,
              clamp (fillChoice (some p.ac) (some n.ac)
                (averageOf (daily.map (fun e => e.2.ac)))) 0 MAX_DAILY_CONSUMPTION⟩ := by
  obtain ⟨hkeys, hnone, _, hval⟩ :=
    filled_entry_spec h data year ys daily hres hdaily D c hD hnot
  have hsorted := sorted_sortedDates data year
  have hnd := nodup_sortedDates data year
  have hne : sortedDates data year ≠ [] := by
    intro hnil
    obtain ⟨daily', filled, hd, hfill, hys, _⟩ := calculateYearlyStats_spec h data year ys hres
    rw [hdaily] at hd
    have hEq : daily' = daily := (Option.some.inj hd).symm
    subst hEq
    have hdnil : daily' = [] := by
      have : daily'.map Prod.fst = [] := by rw [hkeys, hnil]
      simpa using this
    have hsd : (daily'.map Prod.fst).Sorted (fun a b => jsStringLe a b = true) := by
      rw [hkeys]
      exact hsorted
    rw [hys, List.mem_append] at hD
    rcases hD with hD | hD
    · rw [hdnil] at hD
      simp at hD
    · have := (fillGaps_values h daily' filled hsd hfill (D, c) hD).1
      rw [hdnil] at this
      simp at this
  obtain ⟨F, hF⟩ : ∃ F, (sortedDates data year).head? = some F := by
    cases hsd : sortedDates data year with
    | nil => exact absurd hsd hne
    | cons a l => exact ⟨a, rfl⟩
  obtain ⟨L, hL⟩ : ∃ L, (sortedDates data year).getLast? = some L := by
    cases hsd : (sortedDates data year).getLast? with
    | none => exact absurd (List.getLast?_eq_none_iff.mp hsd) hne
    | some L => exact ⟨L, rfl⟩
  have hFmem : F ∈ sortedDates data year := List.mem_of_mem_head? (by rw [hF]; exact rfl)
  have hprev := prev_search_iff (sortedDates data year) F D hsorted hnd hF
  have hnext := next_search_iff (sortedDates data year) L D hsorted hnd hL
  have hpS := bind_lookup_isSome_iff daily (sortedDates data year) hkeys
    ((sortedDates data year).reverse.find? (fun e => jsStringLt e D))
    (fun P hP => List.mem_reverse.mp (List.mem_of_find?_eq_some hP))
  have hnS := bind_lookup_isSome_iff daily (sortedDates data year) hkeys
    ((sortedDates data year).find? (fun e => jsStringLt D e))
    (fun N hN => List.mem_of_find?_eq_some hN)
  have hpF : (((sortedDates data year).reverse.find? (fun e => jsStringLt e D)).bind
      (fun e => daily.lookup e)).isSome = true ↔ jsStringLt F D = true := by
    rw [hpS, hprev]
    constructor
    · intro hs
      obtain ⟨P, hP⟩ := Option.isSome_iff_exists.mp hs
      exact ⟨P, hP, nearest_of_find_prev _ D P hsorted hnd hP⟩
    · rintro ⟨P, hP, _⟩
      rw [hP]
      rfl
  have hnL : (((sortedDates data year).find? (fun e => jsStringLt D e)).bind
      (fun e => daily.lookup e)).isSome = true ↔ jsStringLt D L = true := by
    rw [hnS, hnext]
    constructor
    · intro hs
      obtain ⟨N, hN⟩ := Option.isSome_iff_exists.mp hs
      exact ⟨N, hN, nearest_of_find_next _ D N hsorted hnd hN⟩
    · rintro ⟨N, hN, _⟩
      rw [hN]
      rfl
  have hFL : jsStringLt F D = true ∨ jsStringLt D L = true := by
    have hFD : F ≠ D := fun hEq => hnot (hEq ▸ hFmem)
    rcases jsStringLe_total F D with hle | hle
    · exact Or.inl (jsStringLt_of_le_of_ne F D hle hFD)
    · right
      have hDF : jsStringLt D F = true := jsStringLt_of_le_of_ne D F hle (Ne.symm hFD)
      exact jsStringLt_of_lt_of_le D F L hDF (le_last_of_sorted _ L hsorted hL F hFmem)
  rw [fillDate_absent _ _ _ daily D hnone] at hval
  have hcc := List.append_cancel_left hval
  simp only [List.cons.injEq, Prod.mk.injEq, true_and, and_true] at hcc
  have hc := hcc.symm
  refine ⟨F, L, _, _, hF, hL, rfl, rfl, hc, ?_, ?_, hpF, hnL, ?_, ?_⟩
  · rw [hpF, hprev]
    constructor
    · rintro ⟨P, _, hP⟩
      exact ⟨P, hP⟩
    · rintro ⟨P, hP⟩
      exact hprev.mp (jsStringLt_of_le_of_lt F P D
        (head_le_of_sorted _ F hsorted hF P hP.1) hP.2.1)
  · rw [hnL, hnext]
    constructor
    · rintro ⟨N, _, hN⟩
      exact ⟨N, hN⟩
    · rintro ⟨N, hN⟩
      exact hnext.mp (jsStringLt_of_lt_of_le D N L hN.2.1
        (le_last_of_sorted _ L hsorted hL N hN.1))
  · rcases hFL with hx | hx
    · exact Or.inl (hpF.mpr hx)
    · exact Or.inr (hnL.mpr hx)
  · intro s K hstep hs he hisoF hisoL hmono
    obtain ⟨hFD, hDL⟩ := filled_between_of_host h data year ys daily hres hdaily F L s K
      hstep hF hL hs he hisoF hisoL hmono D c hD hnot
    obtain ⟨P, hP, hPn⟩ := hprev.mp hFD
    obtain ⟨N, hN, hNn⟩ := hnext.mp hDL
    obtain ⟨p, hp⟩ := lookup_isSome_of_mem daily P (by rw [hkeys]; exact hPn.1)
    obtain ⟨n, hn⟩ := lookup_isSome_of_mem daily N (by rw [hkeys]; exact hNn.1)
    refine ⟨P, N, p, n, hPn, hNn, hP, hN, hp, hn, ?_, ?_, ?_⟩
    · rw [hP]
      exact hp
    · rw [hN]
      exact hn
    · rw [hc, hP, hN]
      simp only [Option.some_bind, hp, hn, Option.map_some']

/-- C26 amended, at a concrete input: the date 06-04 that is filled for `sampleGap`. -/
theorem gap_fill_two_sided_witness :
    ∃ (F L : String) (prev next : Option Consumption),
      (sortedDates sampleGap 2025).head? = some F ∧
      (sortedDates sampleGap 2025).getLast? = some L ∧
      prev = ((sortedDates sampleGap 2025).reverse.find?
        (fun e => jsStringLt e "2025-06-04")).bind (fun e => sampleGapDaily.lookup e) ∧
      next = ((sortedDates sampleGap 2025).find?
        (fun e => jsStringLt "2025-06-04" e)).bind (fun e => sampleGapDaily.lookup e) ∧
      (⟨3, 0⟩ : Consumption) =
        ⟨clamp (fillChoice (prev.map (fun x => x.light)) (next.map (fun x => x.light))
            (averageOf (sampleGapDaily.map (fun e => e.2.light)))) 0 MAX_DAILY_CONSUMPTION,
          clamp (fillChoice (prev.map (fun x => x.ac)) (next.map (fun x => x.ac))
            (averageOf (sampleGapDaily.map (fun e => e.2.ac)))) 0 MAX_DAILY_CONSUMPTION⟩ ∧
      (prev.isSome = true ↔
        ∃ P, NearestBefore (sortedDates sampleGap 2025) "2025-06-04" P) ∧
      (next.isSome = true ↔
        ∃ N, NearestAfter (sortedDates sampleGap 2025) "2025-06-04" N) ∧
      (prev.isSome = true ↔ jsStringLt F "2025-06-04" = true) ∧
      (next.isSome = true ↔ jsStringLt "2025-06-04" L = true) ∧
      (prev.isSome = true ∨ next.isSome = true) ∧
      ∀ (s : ℤ) (K : ℕ), (∀ t, sampleHost.nextDay t = t + ONE_DAY_MS) →
        sampleHost.dateParse F = some s →
        sampleHost.dateParse L = some (s + (K : ℤ) * ONE_DAY_MS) →
        sampleHost.toISODate s = F → sampleHost.toISODate (s + (K : ℤ) * ONE_DAY_MS) = L →
        (∀ j k : ℕ, j < k → k ≤ K →
          jsStringLt (sampleHost.toISODate (s + (j : ℤ) * ONE_DAY_MS))
            (sampleHost.toISODate (s + (k : ℤ) * ONE_DAY_MS)) = true) →
        ∃ P N p n,
          NearestBefore (sortedDates sampleGap 2025) "2025-06-04" P ∧
          NearestAfter (sortedDates sampleGap 2025) "2025-06-04" N ∧
          (sortedDates sampleGap 2025).reverse.find?
            (fun e => jsStringLt e "2025-06-04") = some P ∧
          (sortedDates sampleGap 2025).find? (fun e => jsStringLt "2025-06-04" e) = some N ∧
          sampleGapDaily.lookup P = some p ∧ sampleGapDaily.lookup N = some n ∧
          prev = some p ∧ next = some n ∧
          (⟨3, 0⟩ : Consumption) =
            ⟨clamp (fillChoice (some p.light) (some n.light)
                (averageOf (sampleGapDaily.map (fun e => e.2.light)))) 0
                MAX_DAILY_CONSUMPTION,
              clamp (fillChoice (some p.ac) (some n.ac)
                (averageOf (sampleGapDaily.map (fun e => e.2.ac)))) 0
                MAX_DAILY_CONSUMPTION⟩ :=
  gap_fill_two_sided sampleHost sampleGap 2025 sampleGapStats sampleGapDaily
    calculateYearlyStats_sampleGap dailyConsumption_sampleGap
    "2025-06-04" ⟨3, 0⟩ (by decide) (by rw [sortedDates_sampleGap]; decide)

theorem fillDate_next_only (existingDates : List String) (avgLight avgAc : ℚ)
    (daily : List (String × Consumption)) (dateStr N : String) (n : Consumption)
    (hc : daily.lookup dateStr = none)
    (hP : existingDates.reverse.find? (fun e => jsStringLt e dateStr) = none)
    (hN : existingDates.find? (fun e => jsStringLt dateStr e) = some N)
    (hn : daily.lookup N = some n) :
    fillDate existingDates avgLight avgAc daily dateStr =
      daily ++ [(dateStr,
        ⟨clamp (fillChoice none (some n.light) avgLight) 0 MAX_DAILY_CONSUMPTION,
          clamp (fillChoice none (some n.ac) avgAc) 0 MAX_DAILY_CONSUMPTION⟩)] := by
  unfold fillDate
  rw [hc]
  simp only [hP, hN, Option.some_bind, Option.none_bind, hn, Option.map_some', Option.map_none']

/-! ### The yearly report at a date key with a time of day -/

theorem sortedDates_sampleNoonKey :
    sortedDates sampleNoonKey 2025 = ["2025-06-01T12:00", "2025-06-03"] := by decide

theorem dayDiff_sampleNoonKey :
    dayDiff sampleHost "2025-06-01T12:00" "2025-06-03" = some (3 / 2) := by
  have p1 : sampleHost.dateParse "2025-06-01T12:00" = some 1748779200000 := by decide
  have p2 : sampleHost.dateParse "2025-06-03" = some 1748908800000 := by decide
  unfold dayDiff
  rw [p1, p2]
  norm_num [ONE_DAY_MS]

theorem sortRecords_sampleNoonKey_01 :
    sortRecords sampleHost (recordsByDate sampleNoonKey "2025-06-01T12:00") =
      some [⟨⟨"06-01T12:00", some 80, some 30⟩, "2025-06"⟩] := by decide

theorem sortRecords_sampleNoonKey_03 :
    sortRecords sampleHost (recordsByDate sampleNoonKey "2025-06-03") =
      some [⟨⟨"06-03 08:00", some 70, some 30⟩, "2025-06"⟩] := by decide

theorem consumptionOfDate_sampleNoonKey_01 :
    consumptionOfDate sampleHost sampleNoonKey ["2025-06-01T12:00", "2025-06-03"] 0
      "2025-06-01T12:00" = some (some ⟨10, 0⟩) := by
  unfold consumptionOfDate
  rw [sortRecords_sampleNoonKey_01]
  simp only [List.head?_cons, List.getLast?_singleton, nextDayFirstRecord]
  simp only [List.length_cons, List.length_nil, List.getElem?_cons_succ,
    List.getElem?_cons_zero, sortRecords_sampleNoonKey_03]
  simp only [Nat.reduceAdd, Nat.reduceSub, Nat.reduceLT, if_true, Option.map_some',
    List.head?_cons, zero_add, List.getD_cons_succ, List.getD_cons_zero,
    dayDiff_sampleNoonKey]
  norm_num [CONTINUOUS_DAY_THRESHOLD, dropBetween, orZero]

theorem consumptionOfDate_sampleNoonKey_03 :
    consumptionOfDate sampleHost sampleNoonKey ["2025-06-01T12:00", "2025-06-03"] 1
      "2025-06-03" = some (some ⟨0, 0⟩) := by
  unfold consumptionOfDate
  rw [sortRecords_sampleNoonKey_03]
  simp only [List.head?_cons, List.getLast?_singleton, nextDayFirstRecord]
  simp only [List.length_cons, List.length_nil, List.getElem?_cons_succ,
    List.getElem?_cons_zero]
  simp only [Nat.reduceAdd, Nat.reduceSub, Nat.reduceLT, Nat.lt_irrefl, if_false]
  norm_num [sameDay]

theorem dailyConsumption_sampleNoonKey :
    dailyConsumption sampleHost sampleNoonKey 2025 =
      some [("2025-06-01T12:00", ⟨10, 0⟩), ("2025-06-03", ⟨0, 0⟩)] := by
  unfold dailyConsumption
  rw [sortedDates_sampleNoonKey]
  simp only [collectDaily, consumptionOfDate_sampleNoonKey_01,
    consumptionOfDate_sampleNoonKey_03, zero_add, Nat.reduceAdd]

theorem allDatesInRange_sampleNoonKey :
    allDatesInRange sampleHost "2025-06-01T12:00" "2025-06-03" =
      some ["2025-06-01", "2025-06-02"] := by
  decide

theorem fillGaps_sampleNoonKey :
    fillGaps sampleHost [("2025-06-01T12:00", ⟨10, 0⟩), ("2025-06-03", ⟨0, 0⟩)] =
      some [("2025-06-01T12:00", ⟨10, 0⟩), ("2025-06-03", ⟨0, 0⟩),
        ("2025-06-01", ⟨10, 0⟩), ("2025-06-02", ⟨5, 0⟩)] := by
  have hsort : (["2025-06-01T12:00", "2025-06-03"] : List String).insertionSort
      (fun a b => jsStringLe a b = true) = ["2025-06-01T12:00", "2025-06-03"] := by
    decide
  unfold fillGaps
  simp only [List.map_cons, List.map_nil, hsort, List.length_cons, List.length_nil,
    Nat.reduceAdd, Nat.one_lt_ofNat, gt_iff_lt, Nat.reduceLT, if_true, List.headD_cons,
    List.getLastD_cons, List.getLastD_nil, allDatesInRange_sampleNoonKey, List.foldl_cons,
    List.foldl_nil]
  have havgL : averageOf [(10 : ℚ), 0] = 5 := by norm_num [averageOf]
  have havgA : averageOf [(0 : ℚ), 0] = 0 := by norm_num [averageOf]
  rw [havgL, havgA]
  rw [fillDate_next_only _ _ _ _ "2025-06-01" "2025-06-01T12:00" ⟨10, 0⟩
      (by decide) (by decide) (by decide) (by decide)]
  have e1 : clamp (fillChoice none (some (10 : ℚ)) 5) 0 MAX_DAILY_CONSUMPTION = 10 := by
    norm_num [clamp, fillChoice, MAX_DAILY_CONSUMPTION]
  have e0 : clamp (fillChoice none (some (0 : ℚ)) 0) 0 MAX_DAILY_CONSUMPTION = 0 := by
    norm_num [clamp, fillChoice, MAX_DAILY_CONSUMPTION]
  simp only [e1, e0, List.cons_append, List.nil_append]
  rw [fillDate_between _ _ _ _ "2025-06-02" "2025-06-01T12:00" "2025-06-03" ⟨10, 0⟩ ⟨0, 0⟩
      (by decide) (by decide) (by decide) (by decide) (by decide)]
  have e2 : clamp (min (((10 : ℚ) + 0) / 2) (5 * 2)) 0 MAX_DAILY_CONSUMPTION = 5 := by
    norm_num [clamp, MAX_DAILY_CONSUMPTION]
  have e3 : clamp (min (((0 : ℚ) + 0) / 2) (0 * 2)) 0 MAX_DAILY_CONSUMPTION = 0 := by
    norm_num [clamp, MAX_DAILY_CONSUMPTION]
  simp only [e2, e3, List.cons_append, List.nil_append]

/-- C26, as stated, fails: the readings `06-01T12:00` and `06-03 08:00` give the dates
with readings `2025-06-01T12:00` and `2025-06-03`; the date loop starts at noon of 06-01
and fills `2025-06-01` and `2025-06-02`.  No date with readings is before `2025-06-01` in
the string order, the backward search finds nothing, and the entry of `2025-06-01` is
written by the one-sided branch from the following date alone. -/
theorem gap_fill_two_sided_counterexample :
    sortedDates sampleNoonKey 2025 = ["2025-06-01T12:00", "2025-06-03"] ∧
      "2025-06-01" ∉ sortedDates sampleNoonKey 2025 ∧
      (∃ ys, calculateYearlyStats sampleHost sampleNoonKey 2025 = some ys ∧
        ys.dailyConsumption = [("2025-06-01T12:00", ⟨10, 0⟩), ("2025-06-03", ⟨0, 0⟩),
          ("2025-06-01", ⟨10, 0⟩), ("2025-06-02", ⟨5, 0⟩)]) ∧
      (∀ P, ¬ NearestBefore (sortedDates sampleNoonKey 2025) "2025-06-01" P) ∧
      (sortedDates sampleNoonKey 2025).reverse.find?
        (fun e => jsStringLt e "2025-06-01") = none ∧
      (sortedDates sampleNoonKey 2025).find? (fun e => jsStringLt "2025-06-01" e) =
        some "2025-06-01T12:00" ∧
      fillDate (sortedDates sampleNoonKey 2025) 5 0
          [("2025-06-01T12:00", ⟨10, 0⟩), ("2025-06-03", ⟨0, 0⟩)] "2025-06-01" =
        [("2025-06-01T12:00", ⟨10, 0⟩), ("2025-06-03", ⟨0, 0⟩),
          ("2025-06-01",
            ⟨clamp (fillChoice none (some 10) 5) 0 MAX_DAILY_CONSUMPTION,
              clamp (fillChoice none (some 0) 0) 0 MAX_DAILY_CONSUMPTION⟩)] := by
  rw [sortedDates_sampleNoonKey]
  refine ⟨rfl, by decide, ?_, ?_, by decide, by decide, ?_⟩
  · unfold calculateYearlyStats
    rw [dailyConsumption_sampleNoonKey]
    simp only [fillGaps_sampleNoonKey]
    exact ⟨_, rfl, rfl⟩
  · rintro P ⟨hmem, hlt, _⟩
    simp only [List.mem_cons, List.mem_singleton, List.not_mem_nil, or_false] at hmem
    rcases hmem with hP | hP
    · rw [hP] at hlt
      revert hlt
      decide
    · rw [hP] at hlt
      revert hlt
      decide
  · exact fillDate_next_only _ _ _ _ "2025-06-01" "2025-06-01T12:00" ⟨10, 0⟩
      (by decide) (by decide) (by decide) (by decide)
/-! ### The day gap at a date key with a time of day -/

theorem sortedDates_sampleHalfDay :
    sortedDates sampleHalfDay 2025 = ["2025-06-01", "2025-06-01T12:00"] := by decide

theorem dayDiff_sampleHalfDay :
    dayDiff sampleHost "2025-06-01" "2025-06-01T12:00" = some (1 / 2) := by
  have p1 : sampleHost.dateParse "2025-06-01" = some 1748736000000 := by decide
  have p2 : sampleHost.dateParse "2025-06-01T12:00" = some 1748779200000 := by decide
  unfold dayDiff
  rw [p1, p2]
  norm_num [ONE_DAY_MS]

theorem sortRecords_sampleHalfDay_01 :
    sortRecords sampleHost (recordsByDate sampleHalfDay "2025-06-01") =
      some [⟨⟨"06-01 08:00", some 80, some 30⟩, "2025-06"⟩] := by decide

theorem sortRecords_sampleHalfDay_noon :
    sortRecords sampleHost (recordsByDate sampleHalfDay "2025-06-01T12:00") =
      some [⟨⟨"06-01T12:00", some 70, some 30⟩, "2025-06"⟩] := by decide

theorem consumptionOfDate_sampleHalfDay_01 :
    consumptionOfDate sampleHost sampleHalfDay ["2025-06-01", "2025-06-01T12:00"] 0
      "2025-06-01" = some (some ⟨10, 0⟩) := by
  unfold consumptionOfDate
  rw [sortRecords_sampleHalfDay_01]
  simp only [List.head?_cons, List.getLast?_singleton, nextDayFirstRecord]
  simp only [List.length_cons, List.length_nil, List.getElem?_cons_succ,
    List.getElem?_cons_zero, sortRecords_sampleHalfDay_noon]
  simp only [Nat.reduceAdd, Nat.reduceSub, Nat.reduceLT, if_true, Option.map_some',
    List.head?_cons, zero_add, List.getD_cons_succ, List.getD_cons_zero,
    dayDiff_sampleHalfDay]
  norm_num [CONTINUOUS_DAY_THRESHOLD, dropBetween, orZero]

theorem consumptionOfDate_sampleHalfDay_noon :
    consumptionOfDate sampleHost sampleHalfDay ["2025-06-01", "2025-06-01T12:00"] 1
      "2025-06-01T12:00" = some (some ⟨0, 0⟩) := by
  unfold consumptionOfDate
  rw [sortRecords_sampleHalfDay_noon]
  simp only [List.head?_cons, List.getLast?_singleton, nextDayFirstRecord]
  simp only [List.length_cons, List.length_nil, List.getElem?_cons_succ,
    List.getElem?_cons_zero]
  simp only [Nat.reduceAdd, Nat.reduceSub, Nat.reduceLT, Nat.lt_irrefl, if_false]
  norm_num [sameDay]

theorem dailyConsumption_sampleHalfDay :
    dailyConsumption sampleHost sampleHalfDay 2025 =
      some [("2025-06-01", ⟨10, 0⟩), ("2025-06-01T12:00", ⟨0, 0⟩)] := by
  unfold dailyConsumption
  rw [sortedDates_sampleHalfDay]
  simp only [collectDaily, consumptionOfDate_sampleHalfDay_01,
    consumptionOfDate_sampleHalfDay_noon, zero_add, Nat.reduceAdd]

/-- C30, as stated, fails in two ways.  A reading with the time `06-45` gives the date key
`2025-06-45`, which `Date` cannot parse, so the gap from `2025-06-01` to the next date
with readings is `NaN`.  The readings `06-01 08:00` (light 80) and `06-01T12:00`
(light 70) give the date keys `2025-06-01` and `2025-06-01T12:00`, both parsed, half a day
apart: the gap `1/2` is neither whole nor at least 1, and the continuous-day rule applies
(the entry of `2025-06-01` is `80 - 70 = 10`) although the next date with readings lies on
the same calendar day, not on the following one. -/
theorem day_gap_counterexample :
    sortedDates sampleBadDate 2025 = ["2025-06-01", "2025-06-45"] ∧
      sampleHost.dateParse "2025-06-45" = none ∧
      dayDiff sampleHost "2025-06-01" "2025-06-45" = none ∧
      sortedDates sampleHalfDay 2025 = ["2025-06-01", "2025-06-01T12:00"] ∧
      sampleHost.dateParse "2025-06-01" = some 1748736000000 ∧
      sampleHost.dateParse "2025-06-01T12:00" = some 1748779200000 ∧
      dayDiff sampleHost "2025-06-01" "2025-06-01T12:00" = some (1 / 2) ∧
      (∀ k : ℕ, dayDiff sampleHost "2025-06-01" "2025-06-01T12:00" ≠ some (k : ℚ)) ∧
      sampleHost.toISODate 1748736000000 = "2025-06-01" ∧
      sampleHost.toISODate 1748779200000 = "2025-06-01" ∧
      dailyConsumption sampleHost sampleHalfDay 2025 =
        some [("2025-06-01", ⟨10, 0⟩), ("2025-06-01T12:00", ⟨0, 0⟩)] := by
  refine ⟨sortedDates_sampleBadDate, by decide, dayDiff_sampleBadDate,
    sortedDates_sampleHalfDay, by decide, by decide, dayDiff_sampleHalfDay, fun k hk => ?_,
    by decide, by decide, dailyConsumption_sampleHalfDay⟩
  rw [dayDiff_sampleHalfDay] at hk
  have h1 : (1 / 2 : ℚ) = (k : ℚ) := Option.some.inj hk
  have h2 : (2 : ℚ) * (k : ℚ) = 1 := by rw [← h1]; norm_num
  have h3 : 2 * k = 1 := by exact_mod_cast h2
  omega

/-- C30, amended. For two neighbours `D`, `N` of `sortedDates`: when `Date` cannot parse
one of the keys the gap is `NaN` and the entry of `D` is the same-day value; when it
parses both, to the time values `c` and `n`, the gap is `(n - c) / 86400000` days, the
entry of `D` is the cross-day value when the gap is at most 1.5 and the same-day value
otherwise.  When the two time values are a whole number `k` of days apart the gap is `k`,
and the cross-day value is written when `k` is at most 1, in particular when `N` is the
day after `D`, and the same-day value when `k` is 2 or more. -/
theorem day_gap_rule (h : Host) (data : List TaggedReading) (year index : ℕ)
    (D N : String) (dc : List (String × Consumption))
    (hres : dailyConsumption h data year = some dc)
    (hD : (sortedDates data year)[index]? = some D)
    (hN : (sortedDates data year)[index + 1]? = some N) :
    ∃ dayRecords first last nextRecords nextFirst entry,
      sortRecords h (recordsByDate data D) = some dayRecords ∧
      dayRecords.head? = some first ∧ dayRecords.getLast? = some last ∧
      sortRecords h (recordsByDate data N) = some nextRecords ∧
      nextRecords.head? = some nextFirst ∧
      dc.lookup D = some entry ∧
      ((h.dateParse D = none ∨ h.dateParse N = none) →
        dayDiff h D N = none ∧ entry = sameDay dayRecords first last) ∧
      ∀ c n : ℤ, h.dateParse D = some c → h.dateParse N = some n →
        dayDiff h D N = some (((n - c : ℤ) : ℚ) / (ONE_DAY_MS : ℚ)) ∧
        (2 * (n - c) ≤ 3 * ONE_DAY_MS → entry = dropBetween first nextFirst) ∧
        (3 * ONE_DAY_MS < 2 * (n - c) → entry = sameDay dayRecords first last) ∧
        ∀ k : ℤ, n = c + k * ONE_DAY_MS →
          dayDiff h D N = some (k : ℚ) ∧
          (k ≤ 1 → entry = dropBetween first nextFirst) ∧
          (2 ≤ k → entry = sameDay dayRecords first last) := by
  obtain ⟨dayRecords, first, last, entry, hs, hf, hl, hlook, _, hnext⟩ :=
    daily_lookup h data year index D dc hres hD
  obtain ⟨nextRecords, nextFirst, hsN, hnf, hentry⟩ := hnext N hN
  have hdayQ : (0 : ℚ) < ((ONE_DAY_MS : ℤ) : ℚ) := by
    have : (0 : ℤ) < ONE_DAY_MS := by decide
    exact_mod_cast this
  refine ⟨dayRecords, first, last, nextRecords, nextFirst, entry, hs, hf, hl, hsN, hnf,
    hlook, fun hbad => ?_, fun c n hc hn => ?_⟩
  · have hdd : dayDiff h D N = none := by
      unfold dayDiff
      rcases hbad with hb | hb
      · rw [hb]
      · rw [hb]
        cases h.dateParse D <;> rfl
    refine ⟨hdd, ?_⟩
    rw [hentry, hdd]
    simp
  · have hdd : dayDiff h D N = some (((n - c : ℤ) : ℚ) / (ONE_DAY_MS : ℚ)) := by
      simp only [dayDiff, hc, hn]
    have hcmp : ((n - c : ℤ) : ℚ) / (ONE_DAY_MS : ℚ) ≤ CONTINUOUS_DAY_THRESHOLD ↔
        2 * (n - c) ≤ 3 * ONE_DAY_MS := by
      unfold CONTINUOUS_DAY_THRESHOLD
      rw [div_le_iff₀ hdayQ]
      constructor
      · intro hle
        have h2 : (2 : ℚ) * ((n - c : ℤ) : ℚ) ≤ 3 * ((ONE_DAY_MS : ℤ) : ℚ) := by linarith
        exact_mod_cast h2
      · intro hle
        have h2 : (2 : ℚ) * ((n - c : ℤ) : ℚ) ≤ 3 * ((ONE_DAY_MS : ℤ) : ℚ) := by
          exact_mod_cast hle
        linarith
    have hdrop : 2 * (n - c) ≤ 3 * ONE_DAY_MS → entry = dropBetween first nextFirst := by
      intro hle
      rw [hentry, hdd]
      simp only [decide_eq_true_eq]
      rw [if_pos (hcmp.mpr hle)]
    have hsame : 3 * ONE_DAY_MS < 2 * (n - c) → entry = sameDay dayRecords first last := by
      intro hlt
      rw [hentry, hdd]
      simp only [decide_eq_true_eq]
      rw [if_neg (fun hle => absurd (hcmp.mp hle) (not_le.mpr hlt))]
    refine ⟨hdd, hdrop, hsame, fun k hk => ?_⟩
    have hday : (0 : ℤ) < ONE_DAY_MS := by decide
    refine ⟨?_, fun hk1 => hdrop ?_, fun hk2 => hsame ?_⟩
    · rw [hdd]
      simp only [Option.some.injEq]
      rw [div_eq_iff (ne_of_gt hdayQ), hk]
      push_cast
      ring
    · have : k * ONE_DAY_MS ≤ 1 * ONE_DAY_MS := mul_le_mul_of_nonneg_right hk1 (le_of_lt hday)
      rw [hk]
      linarith
    · have : 2 * ONE_DAY_MS ≤ k * ONE_DAY_MS := mul_le_mul_of_nonneg_right hk2 (le_of_lt hday)
      rw [hk]
      linarith

/-- C30 amended, at a concrete input: 06-01 and 06-02 of `sampleGap`. -/
theorem day_gap_rule_witness :
    ∃ dayRecords first last nextRecords nextFirst entry,
      sortRecords sampleHost (recordsByDate sampleGap "2025-06-01") = some dayRecords ∧
      dayRecords.head? = some first ∧ dayRecords.getLast? = some last ∧
      sortRecords sampleHost (recordsByDate sampleGap "2025-06-02") = some nextRecords ∧
      nextRecords.head? = some nextFirst ∧
      sampleGapDaily.lookup "2025-06-01" = some entry ∧
      ((sampleHost.dateParse "2025-06-01" = none ∨ sampleHost.dateParse "2025-06-02" = none) →
        dayDiff sampleHost "2025-06-01" "2025-06-02" = none ∧
          entry = sameDay dayRecords first last) ∧
      ∀ c n : ℤ, sampleHost.dateParse "2025-06-01" = some c →
        sampleHost.dateParse "2025-06-02" = some n →
        dayDiff sampleHost "2025-06-01" "2025-06-02" =
          some (((n - c : ℤ) : ℚ) / (ONE_DAY_MS : ℚ)) ∧
        (2 * (n - c) ≤ 3 * ONE_DAY_MS → entry = dropBetween first nextFirst) ∧
        (3 * ONE_DAY_MS < 2 * (n - c) → entry = sameDay dayRecords first last) ∧
        ∀ k : ℤ, n = c + k * ONE_DAY_MS →
          dayDiff sampleHost "2025-06-01" "2025-06-02" = some (k : ℚ) ∧
          (k ≤ 1 → entry = dropBetween first nextFirst) ∧
          (2 ≤ k → entry = sameDay dayRecords first last) :=
  day_gap_rule sampleHost sampleGap 2025 0 "2025-06-01" "2025-06-02" sampleGapDaily
    dailyConsumption_sampleGap (by rw [sortedDates_sampleGap]; rfl)
    (by rw [sortedDates_sampleGap]; rfl)

end ZZUElectricity
